import Mathlib

/-!
# deflot: the gated URL pipeline (normalize, scope/dedup, liveness, classify)

A shallow embedding of the Go sources

* `internal/normalize/normalize.go`  (`Normalize`, `removeDefaultPort`)
* `internal/dedup/dedup.go`          (`Dedup`, `New`, `Check`, `inScope`)
* `internal/status/checker.go`       (`Checker`, `New`, `Check`, the `CheckRedirect` policy)
* `internal/filters/engine.go`       (`Engine.Classify` and its predicates)
* `internal/summary/summary.go`      (`Stats` counters)
* `internal/pipeline/pipeline.go`    (`Pipeline.processRecord`)
* `internal/sources/manager.go`      (`Manager.StartAll`, `isSourceEnabled`, `hasKey`, `WithRetry`)
* `internal/sources/github.go`, `otx.go`, `virustotal.go`  (the paging loops of `Run`)
* `internal/targetlist/targetlist.go` (`ParseTargetList`, `sanitizeTarget`, `isComment`, `isEmpty`)

together with the parts of the Go standard library these functions call
(`strings`, `strconv.Atoi`, `bufio.Scanner`, `net/url` as of Go 1.22).

Go strings are byte sequences, so a string is a `List (Fin 256)`.  The one
library table that is not reproduced is the Unicode case table: the branch
of `strings.ToLower` taken by strings holding a non-ASCII byte is the
parameter `mapLower` (standing for `strings.Map(unicode.ToLower, s)`).
-/

namespace Deflot

/-! ## Bytes and strings -/

/-- A byte of a Go string. -/
abbrev Byte := Fin 256

/-- A Go string: a finite sequence of bytes. -/
abbrev Str := List Byte

/-- The byte of an ASCII character literal. -/
def ch (c : Char) : Byte := Fin.ofNat c.toNat

/-- The bytes of an ASCII string literal. -/
def bs (s : String) : Str := s.toList.map ch

/-! ## Package `strings` -/

/-- Go `strings.HasPrefix(s, prefix)`. -/
def HasPrefix (s pre : Str) : Bool := pre.isPrefixOf s

/-- Go `strings.HasSuffix(s, suffix)`. -/
def HasSuffix (s suf : Str) : Bool := suf.isSuffixOf s

/-- Go `strings.Index(s, substr)`: the first position where `substr` starts. -/
def Index : Str → Str → Option Nat
  | [], sub => if sub.isEmpty then some 0 else none
  | c :: s, sub =>
    if sub.isPrefixOf (c :: s) then some 0 else (Index s sub).map (· + 1)

/-- Go `strings.LastIndex(s, substr)`: the last position where `substr` starts. -/
def LastIndex : Str → Str → Option Nat
  | [], sub => if sub.isEmpty then some 0 else none
  | c :: s, sub =>
    match LastIndex s sub with
    | some i => some (i + 1)
    | none => if sub.isPrefixOf (c :: s) then some 0 else none

/-- Go `strings.Contains(s, substr)`. -/
def Contains (s sub : Str) : Bool := (Index s sub).isSome

/-- Go `strings.Cut(s, sep)`: the text before and after the first `sep`. -/
def Cut (s sep : Str) : Str × Str × Bool :=
  match Index s sep with
  | some i => (s.take i, s.drop (i + sep.length), true)
  | none => (s, [], false)

/-- Go `strings.Count(s, substr)` for a one-byte `substr`. -/
def CountByte (s : Str) (c : Byte) : Nat := s.count c

/-- Go `strings.Split(s, sep)` for a one-byte separator `sep`. -/
def SplitByte (c : Byte) : Str → List Str
  | [] => [[]]
  | x :: s =>
    if x = c then [] :: SplitByte c s
    else
      match SplitByte c s with
      | [] => [[x]]
      | p :: ps => (x :: p) :: ps

/-- ASCII upper-case letter. -/
def isUpperAZ (c : Byte) : Bool := decide (65 ≤ c.val ∧ c.val ≤ 90)

/-- ASCII lower-case letter. -/
def isLowerAZ (c : Byte) : Bool := decide (97 ≤ c.val ∧ c.val ≤ 122)

/-- ASCII decimal digit. -/
def isDigit (c : Byte) : Bool := decide (48 ≤ c.val ∧ c.val ≤ 57)

/-- The ASCII branch of `strings.ToLower`: `c += 'a' - 'A'` on `'A'..'Z'`. -/
def lowerByte (c : Byte) : Byte := if isUpperAZ c then c + 32 else c

/-- Whether every byte is below `utf8.RuneSelf` (0x80). -/
def isASCII (s : Str) : Bool := s.all (fun c => decide (c.val < 128))

/-- Go `strings.ToLower(s)`.  An all-ASCII string is lower-cased bytewise; any
other string goes through `strings.Map(unicode.ToLower, s)`, here `mapLower`. -/
def ToLower (mapLower : Str → Str) (s : Str) : Str :=
  if isASCII s then s.map lowerByte else mapLower s

/-! ## Package `strconv` -/

/-- The value of a string of decimal digits, if it is one. -/
def parseDigits : Str → Nat → Option Nat
  | [], acc => some acc
  | c :: s, acc => if isDigit c then parseDigits s (acc * 10 + (c.val - 48)) else none

/-- Go `strconv.Atoi(s)` on a 64-bit platform: an optional sign, then one or
more decimal digits, the value within the range of `int`. -/
def Atoi (s : Str) : Option Int :=
  match s with
  | [] => none
  | c :: rest =>
    let neg := c = ch '-'
    let digits := if c = ch '-' ∨ c = ch '+' then rest else s
    if digits.isEmpty then none
    else
      match parseDigits digits 0 with
      | none => none
      | some v =>
        if neg then (if v ≤ 2 ^ 63 then some (-(v : Int)) else none)
        else (if v < 2 ^ 63 then some (v : Int) else none)

/-! ## Package `net/url` -/

/-- The escaping modes of `net/url`. -/
inductive Encoding where
  | encodePath
  | encodePathSegment
  | encodeHost
  | encodeZone
  | encodeUserPassword
  | encodeQueryComponent
  | encodeFragment
  deriving DecidableEq, Repr

open Encoding

/-- `net/url.ishex`. -/
def ishex (c : Byte) : Bool :=
  isDigit c || decide (97 ≤ c.val ∧ c.val ≤ 102) || decide (65 ≤ c.val ∧ c.val ≤ 70)

/-- `net/url.unhex`. -/
def unhex (c : Byte) : Byte :=
  if isDigit c then c - 48
  else if 97 ≤ c.val ∧ c.val ≤ 102 then c - 97 + 10
  else if 65 ≤ c.val ∧ c.val ≤ 70 then c - 65 + 10
  else 0

/-- `net/url.shouldEscape(c, mode)`. -/
def shouldEscape (c : Byte) (mode : Encoding) : Bool :=
  if isLowerAZ c || isUpperAZ c || isDigit c then false
  else if (mode = encodeHost ∨ mode = encodeZone) ∧ c ∈ bs "!$&'()*+,;=:[]<>\"" then false
  else if c ∈ bs "-_.~" then false
  else if c ∈ bs "$&+,/:;=?@" then
    match mode with
    | encodePath => c = ch '?'
    | encodePathSegment => c = ch '/' || c = ch ';' || c = ch ',' || c = ch '?'
    | encodeUserPassword => c = ch '@' || c = ch '/' || c = ch '?' || c = ch ':'
    | encodeQueryComponent => true
    | encodeFragment => false
    | _ => true
  else if mode = encodeFragment ∧ c ∈ bs "!()*" then false
  else true

/-- The validation pass of `net/url.unescape(s, mode)`: no malformed or
forbidden `%XX`, and in host mode no ASCII byte that a host may not hold. -/
def unescapeOk (mode : Encoding) : Str → Bool
  | [] => true
  | c :: rest =>
    if c = ch '%' then
      match rest with
      | h1 :: h2 :: rest2 =>
        if !ishex h1 || !ishex h2 then false
        else if mode = encodeHost ∧ (unhex h1).val < 8 ∧ [c, h1, h2] ≠ bs "%25" then false
        else if mode = encodeZone ∧ [c, h1, h2] ≠ bs "%25" ∧
            (unhex h1 * 16 + unhex h2) ≠ ch ' ' ∧
            shouldEscape (unhex h1 * 16 + unhex h2) encodeHost then false
        else unescapeOk mode rest2
      | _ => false
    else if c = ch '+' then unescapeOk mode rest
    else if (mode = encodeHost ∨ mode = encodeZone) ∧ c.val < 128 ∧
        shouldEscape c encodeHost then false
    else unescapeOk mode rest

/-- The decoding pass of `net/url.unescape(s, mode)`. -/
def unescapeBytes (mode : Encoding) : Str → Str
  | [] => []
  | c :: rest =>
    if c = ch '%' then
      match rest with
      | h1 :: h2 :: rest2 => (unhex h1 * 16 + unhex h2) :: unescapeBytes mode rest2
      | _ => [c]
    else if c = ch '+' then
      (if mode = encodeQueryComponent then ch ' ' else ch '+') :: unescapeBytes mode rest
    else c :: unescapeBytes mode rest

/-- `net/url.unescape(s, mode)`; `none` stands for the returned error. -/
def unescape (s : Str) (mode : Encoding) : Option Str :=
  if unescapeOk mode s then some (unescapeBytes mode s) else none

/-- The digit `"0123456789ABCDEF"[n]`. -/
def upperhex (n : Nat) : Byte :=
  if n < 10 then Fin.ofNat (48 + n) else Fin.ofNat (55 + n)

/-- `net/url.escape(s, mode)`. -/
def escape (s : Str) (mode : Encoding) : Str :=
  s.flatMap (fun c =>
    if shouldEscape c mode then
      if c = ch ' ' ∧ mode = encodeQueryComponent then [ch '+']
      else [ch '%', upperhex (c.val / 16), upperhex (c.val % 16)]
    else [c])

/-- `net/url.validEncoded(s, mode)`. -/
def validEncoded (s : Str) (mode : Encoding) : Bool :=
  s.all (fun c => c ∈ bs "!$&'()*+,;=:@[]%" || !shouldEscape c mode)

/-- `net/url.stringContainsCTLByte(s)`. -/
def stringContainsCTLByte (s : Str) : Bool :=
  s.any (fun c => decide (c.val < 32 ∨ c.val = 127))

/-- `net/url.Userinfo`. -/
structure Userinfo where
  username : Str
  password : Str
  passwordSet : Bool
  deriving DecidableEq, Repr

/-- `net/url.URL`. -/
structure URL where
  Scheme : Str := []
  Opaque : Str := []
  User : Option Userinfo := none
  Host : Str := []
  Path : Str := []
  RawPath : Str := []
  OmitHost : Bool := false
  ForceQuery : Bool := false
  RawQuery : Str := []
  Fragment : Str := []
  RawFragment : Str := []
  deriving DecidableEq, Repr

/-- The outcome of `net/url.getScheme`. -/
inductive SchemeResult where
  | ok (scheme rest : Str)
  | missingProtocolScheme
  deriving DecidableEq, Repr

/-- The loop of `net/url.getScheme`, at byte `i` of `rawURL`; `pre` holds the
bytes before `i` in reverse. -/
def getSchemeLoop (rawURL : Str) : Str → Str → SchemeResult
  | _, [] => .ok [] rawURL
  | pre, c :: rest =>
    if isLowerAZ c || isUpperAZ c then getSchemeLoop rawURL (c :: pre) rest
    else if isDigit c || c = ch '+' || c = ch '-' || c = ch '.' then
      if pre.isEmpty then .ok [] rawURL else getSchemeLoop rawURL (c :: pre) rest
    else if c = ch ':' then
      if pre.isEmpty then .missingProtocolScheme else .ok pre.reverse rest
    else .ok [] rawURL

/-- `net/url.getScheme(rawURL)`. -/
def getScheme (rawURL : Str) : SchemeResult := getSchemeLoop rawURL [] rawURL

/-- `net/url.validOptionalPort(port)`. -/
def validOptionalPort (port : Str) : Bool :=
  match port with
  | [] => true
  | c :: rest => c = ch ':' && rest.all isDigit

/-- `net/url.validUserinfo(s)`. -/
def validUserinfo (s : Str) : Bool :=
  s.all (fun c => isUpperAZ c || isLowerAZ c || isDigit c || c ∈ bs "-._:~!$&'()*+,;=%@")

/-- `net/url.parseHost(host)`; `none` stands for the returned error. -/
def parseHost (host : Str) : Option Str :=
  if HasPrefix host (bs "[") then
    match LastIndex host (bs "]") with
    | none => none
    | some i =>
      if !validOptionalPort (host.drop (i + 1)) then none
      else
        match Index (host.take i) (bs "%25") with
        | some zone =>
          match unescape (host.take zone) encodeHost with
          | none => none
          | some host1 =>
            match unescape ((host.take i).drop zone) encodeZone with
            | none => none
            | some host2 =>
              match unescape (host.drop i) encodeHost with
              | none => none
              | some host3 => some (host1 ++ host2 ++ host3)
        | none => unescape host encodeHost
  else
    match LastIndex host (bs ":") with
    | some i =>
      if !validOptionalPort (host.drop i) then none else unescape host encodeHost
    | none => unescape host encodeHost

/-- `net/url.parseAuthority(authority)`; `none` stands for the returned error. -/
def parseAuthority (authority : Str) : Option (Option Userinfo × Str) :=
  match LastIndex authority (bs "@") with
  | none =>
    match parseHost authority with
    | none => none
    | some host => some (none, host)
  | some i =>
    match parseHost (authority.drop (i + 1)) with
    | none => none
    | some host =>
      let userinfo := authority.take i
      if !validUserinfo userinfo then none
      else if !Contains userinfo (bs ":") then
        match unescape userinfo encodeUserPassword with
        | none => none
        | some username => some (some ⟨username, [], false⟩, host)
      else
        match unescape (Cut userinfo (bs ":")).1 encodeUserPassword with
        | none => none
        | some username =>
          match unescape (Cut userinfo (bs ":")).2.1 encodeUserPassword with
          | none => none
          | some password => some (some ⟨username, password, true⟩, host)

/-- `net/url.(*URL).setPath(p)`; `none` stands for the returned error. -/
def URL.setPath (u : URL) (p : Str) : Option URL :=
  match unescape p encodePath with
  | none => none
  | some path =>
    if p = escape path encodePath then some { u with Path := path, RawPath := [] }
    else some { u with Path := path, RawPath := p }

/-- `net/url.(*URL).setFragment(f)`; `none` stands for the returned error. -/
def URL.setFragment (u : URL) (f : Str) : Option URL :=
  match unescape f encodeFragment with
  | none => none
  | some frag =>
    if f = escape frag encodeFragment then some { u with Fragment := frag, RawFragment := [] }
    else some { u with Fragment := frag, RawFragment := f }

/-- `net/url.parse(rawURL, viaRequest)` with `viaRequest = false`, the only way
`url.Parse` calls it; `none` stands for the returned error. -/
def parse (rawURL : Str) : Option URL :=
  if stringContainsCTLByte rawURL then none
  else if rawURL = bs "*" then some { Path := bs "*" }
  else
    match getScheme rawURL with
    | .missingProtocolScheme => none
    | .ok scheme0 rest0 =>
      -- url.Scheme = strings.ToLower(url.Scheme): a scheme holds ASCII bytes only
      let scheme := scheme0.map lowerByte
      let forceQuery := HasSuffix rest0 (bs "?") && CountByte rest0 (ch '?') = 1
      let rest := if forceQuery then rest0.take (rest0.length - 1) else (Cut rest0 (bs "?")).1
      let rawQuery := if forceQuery then [] else (Cut rest0 (bs "?")).2.1
      let url : URL := { Scheme := scheme, ForceQuery := forceQuery, RawQuery := rawQuery }
      if !HasPrefix rest (bs "/") ∧ scheme ≠ [] then
        -- rootless paths are opaque
        some { url with Opaque := rest }
      else if !HasPrefix rest (bs "/") ∧ Contains (Cut rest (bs "/")).1 (bs ":") then
        -- first path segment in URL cannot contain colon
        none
      else if (scheme ≠ [] ∨ !HasPrefix rest (bs "///")) ∧ HasPrefix rest (bs "//") then
        let authority0 := rest.drop 2
        let authority :=
          match Index authority0 (bs "/") with
          | some i => authority0.take i
          | none => authority0
        let rest2 :=
          match Index authority0 (bs "/") with
          | some i => authority0.drop i
          | none => []
        match parseAuthority authority with
        | none => none
        | some (user, host) => URL.setPath { url with User := user, Host := host } rest2
      else if scheme ≠ [] ∧ HasPrefix rest (bs "/") then
        URL.setPath { url with OmitHost := true } rest
      else URL.setPath url rest

/-- `net/url.Parse(rawURL)`; `none` stands for the returned error. -/
def Parse (rawURL : Str) : Option URL :=
  match parse (Cut rawURL (bs "#")).1 with
  | none => none
  | some url =>
    if (Cut rawURL (bs "#")).2.1 = [] then some url
    else URL.setFragment url (Cut rawURL (bs "#")).2.1

/-- `net/url.(*Userinfo).String()`. -/
def Userinfo.String (ui : Userinfo) : Str :=
  if ui.passwordSet then
    escape ui.username encodeUserPassword ++ bs ":" ++ escape ui.password encodeUserPassword
  else escape ui.username encodeUserPassword

/-- `net/url.(*URL).EscapedPath()`. -/
def URL.EscapedPath (u : URL) : Str :=
  if u.RawPath ≠ [] ∧ validEncoded u.RawPath encodePath ∧
      unescape u.RawPath encodePath = some u.Path then u.RawPath
  else if u.Path = bs "*" then bs "*"
  else escape u.Path encodePath

/-- `net/url.(*URL).EscapedFragment()`. -/
def URL.EscapedFragment (u : URL) : Str :=
  if u.RawFragment ≠ [] ∧ validEncoded u.RawFragment encodeFragment ∧
      unescape u.RawFragment encodeFragment = some u.Fragment then u.RawFragment
  else escape u.Fragment encodeFragment

/-- `net/url.(*URL).String()`. -/
def URL.String (u : URL) : Str :=
  let buf1 : Str := if u.Scheme ≠ [] then u.Scheme ++ bs ":" else []
  let buf2 : Str :=
    if u.Opaque ≠ [] then buf1 ++ u.Opaque
    else
      let buf3 : Str :=
        if u.Scheme ≠ [] ∨ u.Host ≠ [] ∨ u.User ≠ none then
          if u.OmitHost ∧ u.Host = [] ∧ u.User = none then buf1
          else
            buf1
              ++ (if u.Host ≠ [] ∨ u.Path ≠ [] ∨ u.User ≠ none then bs "//" else [])
              ++ (match u.User with
                  | some ui => ui.String ++ bs "@"
                  | none => [])
              ++ (if u.Host ≠ [] then escape u.Host encodeHost else [])
        else buf1
      let path := u.EscapedPath
      let buf4 : Str :=
        if path ≠ [] ∧ path.head? ≠ some (ch '/') ∧ u.Host ≠ [] then buf3 ++ bs "/" else buf3
      let buf5 : Str :=
        if buf4 = [] ∧ Contains (Cut path (bs "/")).1 (bs ":") then buf4 ++ bs "./" else buf4
      buf5 ++ path
  let buf6 : Str := if u.ForceQuery ∨ u.RawQuery ≠ [] then buf2 ++ bs "?" ++ u.RawQuery else buf2
  if u.Fragment ≠ [] then buf6 ++ bs "#" ++ u.EscapedFragment else buf6

/-! ## `internal/normalize` -/

/-- Go `removeDefaultPort(scheme, host)`. -/
def removeDefaultPort (scheme host : Str) : Str :=
  match SplitByte (ch ':') host with
  | [domain, port] =>
    if (scheme = bs "http" ∧ port = bs "80") ∨ (scheme = bs "https" ∧ port = bs "443") then domain
    else host
  | _ => host

/-- Go `normalize.Normalize(rawURL)`; `none` stands for the returned error. -/
def Normalize (mapLower : Str → Str) (rawURL : Str) : Option Str :=
  let rawURL := if !Contains rawURL (bs "://") then bs "http://" ++ rawURL else rawURL
  match Parse rawURL with
  | none => none
  | some u =>
    let u := { u with Scheme := ToLower mapLower u.Scheme }
    let u := { u with Host := ToLower mapLower u.Host }
    let u := { u with Fragment := [] }
    let u := { u with Host := removeDefaultPort u.Scheme u.Host }
    some u.String

/-! ## `internal/dedup` -/

/-- Go `type CheckResult bool`. -/
abbrev CheckResult := Bool

/-- Go `Pass CheckResult = true`. -/
abbrev Pass : CheckResult := true

/-- Go `Drop CheckResult = false`. -/
abbrev Drop : CheckResult := false

/-- Go `dedup.Dedup`; `seen` lists the keys of the `sync.Map`. -/
structure Dedup where
  seen : List Str
  targetDomain : Str
  wildcard : Bool
  disableDedup : Bool
  deriving DecidableEq, Repr

/-- Go `dedup.New(targetDomain, wildcard, disableDedup)`. -/
def Dedup.New (mapLower : Str → Str) (targetDomain : Str) (wildcard disableDedup : Bool) : Dedup :=
  { seen := [], targetDomain := ToLower mapLower targetDomain, wildcard := wildcard,
    disableDedup := disableDedup }

/-- Go `(*Dedup).inScope(host)`. -/
def Dedup.inScope (mapLower : Str → Str) (d : Dedup) (host : Str) : Bool :=
  let host := ToLower mapLower host
  if d.targetDomain = [] then true
  else if host = d.targetDomain then true
  else if d.wildcard ∧ HasSuffix host (bs "." ++ d.targetDomain) then true
  else false

/-- Go `(*Dedup).Check(rawURL)`: the result and the deduplicator afterwards.
`seen.LoadOrStore(rawURL, true)` reports `loaded` when the key is present and
stores it otherwise. -/
def Dedup.Check (mapLower : Str → Str) (d : Dedup) (rawURL : Str) : CheckResult × Dedup :=
  match Parse rawURL with
  | none => (Drop, d)
  | some u =>
    if !d.inScope mapLower u.Host then (Drop, d)
    else if d.disableDedup then (Pass, d)
    else if rawURL ∈ d.seen then (Drop, d)
    else (Pass, { d with seen := rawURL :: d.seen })

/-! ## `internal/status` -/

/-- What `client.Head(url)` or `client.Get(url)` returns: an error, or the
final response with its status code. -/
inductive HTTPResult where
  | err
  | resp (statusCode : Int)
  deriving DecidableEq, Repr

/-- The request methods the checker issues. -/
inductive Method where
  | HEAD
  | GET
  deriving DecidableEq, Repr

/-- The remote side: the outcome of a HEAD and of a GET request per URL. -/
structure Net where
  head : Str → HTTPResult
  get : Str → HTTPResult

/-- Go `status.Checker`; `matchCodes` lists the keys of the map. -/
structure Checker where
  matchCodes : List Int
  enabled : Bool
  deriving DecidableEq, Repr

/-- Go `status.New(timeout, matchCodes)`: the gate is enabled when the list is
not empty, and the accept-set holds the entries `strconv.Atoi` accepts. -/
def Checker.New (matchCodes : List Str) : Checker :=
  { enabled := decide (matchCodes.length > 0),
    matchCodes := matchCodes.filterMap Atoi }

/-- Go `(*Checker).Check(url)`: `(passed, statusCode)` and the requests sent. -/
def Checker.Check (net : Net) (c : Checker) (url : Str) : Bool × Int × List (Method × Str) :=
  if !c.enabled then (true, 0, [])
  else
    match net.head url with
    | .resp code =>
      if code = 405 then
        match net.get url with
        | .err => (false, 0, [(.HEAD, url), (.GET, url)])
        | .resp code2 => (decide (code2 ∈ c.matchCodes), code2, [(.HEAD, url), (.GET, url)])
      else (decide (code ∈ c.matchCodes), code, [(.HEAD, url)])
    | .err =>
      match net.get url with
      | .err => (false, 0, [(.HEAD, url), (.GET, url)])
      | .resp code2 => (decide (code2 ∈ c.matchCodes), code2, [(.HEAD, url), (.GET, url)])

/-! ## `internal/filters` -/

/-- Go `appCtx.FilterConfig`. -/
structure FilterConfig where
  SensitiveUrls : Bool
  Params : Bool
  JS : Bool
  ExcludeLibs : Bool
  PDF : Bool
  Log : Bool
  Config : Bool
  deriving DecidableEq, Repr

def CatSecret : Str := bs "secret"
def CatConfig : Str := bs "config"
def CatBackup : Str := bs "backup"
def CatDatabase : Str := bs "database"
def CatCloud : Str := bs "cloud"
def CatVCS : Str := bs "vcs"
def CatAPI : Str := bs "api"
def CatLog : Str := bs "log"
def CatArchive : Str := bs "archive"
def CatDoc : Str := bs "doc"
def CatPDF : Str := bs "pdf"
def CatSheet : Str := bs "sheet"
def CatJS : Str := bs "js"
def CatParam : Str := bs "param"
def CatNone : Str := bs "none"

/-- The upper-case form of an ASCII lower-case letter. -/
def upperByte (c : Byte) : Byte := if isLowerAZ c then c - 32 else c

/-- One literal `p` of a pattern compiled with `(?i)`, matched at the head of
`s`: the rest of `s` after the matched rune.  The runes that fold to an ASCII
letter are its two cases and, for `k` and `s` only, U+212A (bytes E2 84 AA)
and U+017F (bytes C5 BF). -/
def foldLit (p : Byte) (s : Str) : Option Str :=
  match s with
  | [] => none
  | c :: rest =>
    if c = p ∨ c = upperByte p then some rest
    else if p = ch 'k' ∧ HasPrefix s [0xE2, 0x84, 0xAA] then some (s.drop 3)
    else if p = ch 's' ∧ HasPrefix s [0xC5, 0xBF] then some (s.drop 2)
    else none

/-- A literal word of a `(?i)` pattern matched at the head of `s`. -/
def foldWordAt : Str → Str → Bool
  | [], _ => true
  | p :: ps, s =>
    match foldLit p s with
    | none => false
    | some rest => foldWordAt ps rest

/-- The words of `(?i)(api_key|access_token|secret|auth|password|passwd)`. -/
def secretWords : List Str :=
  [bs "api_key", bs "access_token", bs "secret", bs "auth", bs "password", bs "passwd"]

/-- Whether `secretRegex.MatchString` finds a match starting at some position. -/
def secretMatch : Str → Bool
  | [] => secretWords.any (fun w => foldWordAt w [])
  | c :: s => secretWords.any (fun w => foldWordAt w (c :: s)) || secretMatch s

/-- Go `filters.Engine`; the compiled `secretRegex` is the same in every engine. -/
structure Engine where
  config : FilterConfig
  deriving DecidableEq, Repr

/-- Go `filters.New(cfg)`. -/
def Engine.New (cfg : FilterConfig) : Engine := { config := cfg }

def Engine.isSecret (_e : Engine) (u : Str) : Bool := secretMatch u

def Engine.isConfig (mapLower : Str → Str) (_e : Engine) (u : Str) : Bool :=
  let lower := ToLower mapLower u
  Contains lower (bs ".env") || Contains lower (bs "config.") || Contains lower (bs ".yml") ||
    Contains lower (bs ".xml") || Contains lower (bs ".conf")

def Engine.isBackup (mapLower : Str → Str) (_e : Engine) (u : Str) : Bool :=
  let lower := ToLower mapLower u
  HasSuffix lower (bs ".bak") || HasSuffix lower (bs ".old") || HasSuffix lower (bs ".swp") ||
    Contains lower (bs "backup")

def Engine.isVCS (_e : Engine) (u : Str) : Bool :=
  Contains u (bs "/.git/") || Contains u (bs "/.svn/")

def Engine.isCloud (_e : Engine) (u : Str) : Bool :=
  Contains u (bs "s3.amazonaws.com") || Contains u (bs "blob.core.windows.net") ||
    Contains u (bs "storage.googleapis.com")

def Engine.hasParams (_e : Engine) (u : Str) : Bool :=
  Contains u (bs "?") && Contains u (bs "=")

/-- Go `(*Engine).isJS(u)`; `parts[0]` of `strings.Split(u, "?")` is the text
before the first `?`. -/
def Engine.isJS (mapLower : Str → Str) (_e : Engine) (u : Str) : Bool :=
  if Contains u (bs "?") then
    HasSuffix (ToLower mapLower ((SplitByte (ch '?') u).headD [])) (bs ".js")
  else HasSuffix (ToLower mapLower u) (bs ".js")

def Engine.isCommonLib (mapLower : Str → Str) (_e : Engine) (u : Str) : Bool :=
  let lower := ToLower mapLower u
  Contains lower (bs "jquery") || Contains lower (bs "bootstrap") || Contains lower (bs "react") ||
    Contains lower (bs "vue")

def Engine.isAPI (mapLower : Str → Str) (_e : Engine) (u : Str) : Bool :=
  let lower := ToLower mapLower u
  Contains lower (bs "/api/") || Contains lower (bs "swagger") || Contains lower (bs "openapi")

def Engine.isLog (mapLower : Str → Str) (_e : Engine) (u : Str) : Bool :=
  let lower := ToLower mapLower u
  HasSuffix lower (bs ".log") || Contains lower (bs "error_log")

def Engine.isArchive (mapLower : Str → Str) (_e : Engine) (u : Str) : Bool :=
  let lower := ToLower mapLower u
  HasSuffix lower (bs ".zip") || HasSuffix lower (bs ".tar.gz") || HasSuffix lower (bs ".rar")

def Engine.isPDF (mapLower : Str → Str) (_e : Engine) (u : Str) : Bool :=
  HasSuffix (ToLower mapLower u) (bs ".pdf")

def Engine.isDoc (mapLower : Str → Str) (_e : Engine) (u : Str) : Bool :=
  let lower := ToLower mapLower u
  HasSuffix lower (bs ".doc") || HasSuffix lower (bs ".docx") || HasSuffix lower (bs ".txt")

def Engine.isSheet (mapLower : Str → Str) (_e : Engine) (u : Str) : Bool :=
  let lower := ToLower mapLower u
  HasSuffix lower (bs ".xls") || HasSuffix lower (bs ".xlsx") || HasSuffix lower (bs ".csv")

def Engine.isDatabase (mapLower : Str → Str) (_e : Engine) (u : Str) : Bool :=
  let lower := ToLower mapLower u
  HasSuffix lower (bs ".sql") || HasSuffix lower (bs ".db") || HasSuffix lower (bs ".dump") ||
    HasSuffix lower (bs ".sqlite") || Contains lower (bs "mysqldump")

/-- Go `(*Engine).Classify(urlStr)`.  A block of the Go function that may
return early is an `Option`: `some c` is `return c`, `none` falls through. -/
def Engine.Classify (mapLower : Str → Str) (e : Engine) (urlStr : Str) : Str :=
  let sensitive : Option Str :=
    if e.config.SensitiveUrls then
      if e.isSecret urlStr then some CatSecret
      else if e.isConfig mapLower urlStr then some CatConfig
      else if e.isBackup mapLower urlStr then some CatBackup
      else if e.isVCS urlStr then some CatVCS
      else if e.isDatabase mapLower urlStr then some CatDatabase
      else if e.isCloud urlStr then some CatCloud
      else if e.isAPI mapLower urlStr then some CatAPI
      else if e.isArchive mapLower urlStr then some CatArchive
      else none
    else none
  match sensitive with
  | some c => c
  | none =>
    if e.config.Log && e.isLog mapLower urlStr then CatLog
    else if e.config.PDF && e.isPDF mapLower urlStr then CatPDF
    else
      let docs : Option Str :=
        if e.config.SensitiveUrls then
          if e.isDoc mapLower urlStr then some CatDoc
          else if e.isSheet mapLower urlStr then some CatSheet
          else none
        else none
      match docs with
      | some c => c
      | none =>
        if e.config.Params && e.hasParams urlStr then CatParam
        else if e.config.JS && e.isJS mapLower urlStr then
          if e.config.ExcludeLibs && e.isCommonLib mapLower urlStr then CatNone else CatJS
        else CatNone

/-! ## `internal/summary` -/

/-- Go `summary.Stats`: the `uint64` counters. -/
structure Stats where
  TotalURLs : Nat := 0
  PassedDedup : Nat := 0
  PassedStatus : Nat := 0
  Secrets : Nat := 0
  Sensitives : Nat := 0
  Params : Nat := 0
  JS : Nat := 0
  deriving DecidableEq, Repr

/-- Go `atomic.AddUint64(&x, 1)`. -/
def addUint64 (x : Nat) : Nat := (x + 1) % 2 ^ 64

def Stats.IncTotal (s : Stats) : Stats := { s with TotalURLs := addUint64 s.TotalURLs }

def Stats.IncDedup (s : Stats) : Stats := { s with PassedDedup := addUint64 s.PassedDedup }

def Stats.IncStatus (s : Stats) : Stats := { s with PassedStatus := addUint64 s.PassedStatus }

/-- Go `(*Stats).IncCategory(cat)`. -/
def Stats.IncCategory (s : Stats) (cat : Str) : Stats :=
  if cat = bs "secret" then { s with Secrets := addUint64 s.Secrets }
  else if cat = bs "config" ∨ cat = bs "backup" ∨ cat = bs "vcs" ∨ cat = bs "cloud" then
    { s with Sensitives := addUint64 s.Sensitives }
  else if cat = bs "param" then { s with Params := addUint64 s.Params }
  else if cat = bs "js" then { s with JS := addUint64 s.JS }
  else s

/-! ## `internal/pipeline` -/

/-- Go `appCtx.ScanRecord`. -/
structure ScanRecord where
  URL : Str
  Source : Str
  StatusCode : Int := 0
  Category : Str := []
  deriving DecidableEq, Repr

/-- The parts of Go `pipeline.Pipeline` fixed for a run: the checker, the
filter engine, and whether `notify` and `jsScanner` are non-nil. -/
structure Pipeline where
  checker : Checker
  filter : Engine
  notify : Bool
  jsScanner : Bool

/-- What a run changes: the deduplicator, the counters, and the calls made to
the outside, in order: records passed to `writer.Write`, HTTP requests sent,
categories passed to `notify`, URLs handed to `jsScanner.Scan`. -/
structure RunState where
  dedup : Dedup
  stats : Stats := {}
  written : List ScanRecord := []
  requests : List (Method × Str) := []
  notified : List Str := []
  scans : List Str := []
  deriving DecidableEq, Repr

/-- Go `(*Pipeline).processRecord(record)`. -/
def Pipeline.processRecord (mapLower : Str → Str) (net : Net) (p : Pipeline) (st : RunState)
    (record : ScanRecord) : RunState :=
  let st := { st with stats := st.stats.IncTotal }
  -- 1. Normalize
  match Normalize mapLower record.URL with
  | none => st
  | some validatedURL =>
    let record := { record with URL := validatedURL }
    -- 2. Dedup Gate
    let (res, d) := Dedup.Check mapLower st.dedup record.URL
    let st := { st with dedup := d }
    if res = Drop then st
    else
      let st := { st with stats := st.stats.IncDedup }
      -- 3. Status Gate
      let (passed, code, reqs) := p.checker.Check net record.URL
      let st := { st with requests := st.requests ++ reqs }
      if !passed then st
      else
        let record := { record with StatusCode := code }
        let st := { st with stats := st.stats.IncStatus }
        -- 4. Filter Classification
        let category := p.filter.Classify mapLower record.URL
        let st :=
          if category ≠ bs "none" then
            let st := { st with stats := st.stats.IncCategory category }
            let st := if p.notify then { st with notified := st.notified ++ [category] } else st
            if category = CatJS ∧ p.jsScanner then { st with scans := st.scans ++ [record.URL] }
            else st
          else st
        let record := { record with Category := category }
        -- 5. Output
        { st with written := st.written ++ [record] }

/-- Go `processRecord` over the records of a run, one after the other. -/
def Pipeline.processAll (mapLower : Str → Str) (net : Net) (p : Pipeline) (st : RunState)
    (records : List ScanRecord) : RunState :=
  records.foldl (Pipeline.processRecord mapLower net p) st

/-! ## `internal/sources`: the manager -/

/-- What the manager asks of a Go `sources.Source`: `Name()` and `NeedsKey()`.
`Run` plays no part in the choice of the sources to start. -/
structure Source where
  Name : Str
  NeedsKey : Bool
  deriving DecidableEq, Repr

/-- Go `sources.Wayback`. -/
def Wayback : Source := { Name := bs "wayback", NeedsKey := false }

/-- Go `sources.VirusTotal`. -/
def VirusTotal : Source := { Name := bs "virustotal", NeedsKey := true }

/-- Go `sources.URLScan`. -/
def URLScan : Source := { Name := bs "urlscan", NeedsKey := true }

/-- Go `sources.AlienVault`. -/
def AlienVault : Source := { Name := bs "otx", NeedsKey := true }

/-- Go `sources.GitHub`. -/
def GitHub : Source := { Name := bs "github", NeedsKey := true }

/-- Go `sources.FileSource`. -/
def FileSource : Source := { Name := bs "file", NeedsKey := false }

/-- Go `config.ApiKeys`, as `config.GetAPIKeys()` returns it. -/
structure ApiKeys where
  VirusTotal : Str := []
  URLScan : Str := []
  AlienVault : Str := []
  GitHub : Str := []
  deriving DecidableEq, Repr

/-- Go `sources.Manager`: `allow` is `appCtx.Sources`, the allow-list. -/
structure Manager where
  allow : List Str
  sources : List Source
  activeSources : Int := 0
  deriving DecidableEq, Repr

/-- Go `(*Manager).Register(s)`. -/
def Manager.Register (m : Manager) (s : Source) : Manager :=
  { m with sources := m.sources ++ [s] }

/-- The loop `for _, s := range m.appCtx.Sources` of `isSourceEnabled`. -/
def allowListHas (name : Str) : List Str → Bool
  | [] => false
  | s :: rest => if s = name then true else allowListHas name rest

/-- Go `(*Manager).isSourceEnabled(name)`. -/
def Manager.isSourceEnabled (m : Manager) (name : Str) : Bool :=
  if m.allow.length = 0 then true else allowListHas name m.allow

/-- Go `(*Manager).hasKey(name, keys)`. -/
def Manager.hasKey (_m : Manager) (name : Str) (keys : ApiKeys) : Bool :=
  if name = bs "virustotal" then keys.VirusTotal ≠ []
  else if name = bs "urlscan" then keys.URLScan ≠ []
  else true

/-- The loop of Go `(*Manager).StartAll` over the registered sources: the
sources for which a goroutine running `Run` is started, in order. -/
def Manager.startLoop (m : Manager) (keys : ApiKeys) : List Source → List Source
  | [] => []
  | src :: rest =>
    if !m.isSourceEnabled src.Name then Manager.startLoop m keys rest
    else if src.NeedsKey ∧ !m.hasKey src.Name keys then Manager.startLoop m keys rest
    else src :: Manager.startLoop m keys rest

/-- Go `(*Manager).StartAll(ctx)`, up to the return of the channel: the sources
started, and the manager with `activeSources` raised by one per started
source (each goroutine lowers it again when its `Run` returns). -/
def Manager.StartAll (m : Manager) (keys : ApiKeys) : List Source × Manager :=
  (m.startLoop keys m.sources,
    { m with activeSources := m.activeSources + (m.startLoop keys m.sources).length })

/-! ## `internal/sources`: `WithRetry` -/

/-- A Go `int64` holding the integer `v`, wrapped on overflow. -/
def wrapInt64 (v : Int) : Int := (v + 2 ^ 63) % 2 ^ 64 - 2 ^ 63

/-- Go `time.Second`, in nanoseconds. -/
def Second : Int := 1000000000

/-- Go `time.Duration(1<<i) * time.Second`, an `int64` count of nanoseconds. -/
def backoff (i : Nat) : Int := wrapInt64 (wrapInt64 (2 ^ i) * Second)

/-- The error `fmt.Errorf("failed after %d retries: %w", maxRetries, err)`. -/
structure RetryError where
  retries : Int
  wrapped : Option Str
  deriving DecidableEq, Repr

/-- What a call of `WithRetry` does: the error returned (`none` is `nil`), the
number of times `operation` was invoked, and the durations passed to
`time.Sleep`, in order. -/
structure RetryResult where
  err : Option RetryError
  calls : Nat
  sleeps : List Int
  deriving DecidableEq, Repr

/-- The loop of Go `WithRetry`, about to test `i < maxRetries` with `fuel`
iterations left; `operation k` is the error of invocation number `k` of the
operation (`none` is `nil`). -/
def withRetryLoop (operation : Nat → Option Str) (maxRetries : Int) :
    Nat → Nat → Option Str → List Int → RetryResult
  | 0, i, err, sleeps => { err := some ⟨maxRetries, err⟩, calls := i, sleeps := sleeps }
  | fuel + 1, i, _, sleeps =>
    match operation i with
    | none => { err := none, calls := i + 1, sleeps := sleeps }
    | some e => withRetryLoop operation maxRetries fuel (i + 1) (some e) (sleeps ++ [backoff i])

/-- Go `WithRetry(operation, maxRetries)`. -/
def WithRetry (operation : Nat → Option Str) (maxRetries : Int) : RetryResult :=
  withRetryLoop operation maxRetries maxRetries.toNat 0 none []

/-! ## `internal/targetlist` -/

/-- The UTF-8 encodings of the runes for which Go `unicode.IsSpace` holds:
tab, LF, VT, FF, CR, space, U+0085, U+00A0, U+1680, U+2000 to U+200A, U+2028,
U+2029, U+202F, U+205F, U+3000. -/
def spaceRunes : List Str :=
  [[9], [10], [11], [12], [13], [32], [0xC2, 0x85], [0xC2, 0xA0], [0xE1, 0x9A, 0x80],
   [0xE2, 0x80, 0x80], [0xE2, 0x80, 0x81], [0xE2, 0x80, 0x82], [0xE2, 0x80, 0x83],
   [0xE2, 0x80, 0x84], [0xE2, 0x80, 0x85], [0xE2, 0x80, 0x86], [0xE2, 0x80, 0x87],
   [0xE2, 0x80, 0x88], [0xE2, 0x80, 0x89], [0xE2, 0x80, 0x8A], [0xE2, 0x80, 0xA8],
   [0xE2, 0x80, 0xA9], [0xE2, 0x80, 0xAF], [0xE2, 0x81, 0x9F], [0xE3, 0x80, 0x80]]

/-- The rest of `s` after one leading white-space rune, if it starts with one. -/
def dropSpace (s : Str) : Option Str :=
  spaceRunes.findSome? (fun q => if q.isPrefixOf s then some (s.drop q.length) else none)

/-- The string `s` without one trailing white-space rune, if it ends with one. -/
def dropSpaceEnd (s : Str) : Option Str :=
  spaceRunes.findSome? (fun q =>
    if q.isSuffixOf s then some (s.take (s.length - q.length)) else none)

/-- Removal of leading white-space runes, at most `n` of them. -/
def trimLeftN : Nat → Str → Str
  | 0, s => s
  | n + 1, s =>
    match dropSpace s with
    | some rest => trimLeftN n rest
    | none => s

/-- Removal of trailing white-space runes, at most `n` of them. -/
def trimRightN : Nat → Str → Str
  | 0, s => s
  | n + 1, s =>
    match dropSpaceEnd s with
    | some rest => trimRightN n rest
    | none => s

/-- Go `strings.TrimSpace(s)`: all leading and trailing white space removed, as
`unicode.IsSpace` defines it (a string of `n` bytes holds at most `n` runes). -/
def TrimSpace (s : Str) : Str :=
  trimRightN (trimLeftN s.length s).length (trimLeftN s.length s)

/-- Go `strings.TrimPrefix(s, prefix)`. -/
def TrimPrefix (s pre : Str) : Str := if HasPrefix s pre then s.drop pre.length else s

/-- Go `strings.TrimSuffix(s, suffix)`. -/
def TrimSuffix (s suf : Str) : Str :=
  if HasSuffix s suf then s.take (s.length - suf.length) else s

/-- Go `targetlist.sanitizeTarget(target)`. -/
def sanitizeTarget (target : Str) : Str :=
  let target := TrimSpace target
  if target = [] then []
  else
    let target := TrimPrefix target (bs "http://")
    let target := TrimPrefix target (bs "https://")
    let target := TrimSuffix target (bs "/")
    if target.length < 3 then [] else target

/-- Go `targetlist.isComment(line)`. -/
def isComment (line : Str) : Bool := HasPrefix (TrimSpace line) (bs "#")

/-- Go `targetlist.isEmpty(line)`. -/
def isEmpty (line : Str) : Bool := TrimSpace line = []

/-- The scanning loop of Go `ParseTargetList` over the lines that
`scanner.Text()` yields, `targets` being the slice collected so far. -/
def parseTargetLoop : List Str → List Str → List Str
  | [], targets => targets
  | line :: rest, targets =>
    if isEmpty line || isComment line then parseTargetLoop rest targets
    else if sanitizeTarget line = [] then parseTargetLoop rest targets
    else parseTargetLoop rest (targets ++ [sanitizeTarget line])

/-- Go `bufio.MaxScanTokenSize`: the largest buffer a `bufio.Scanner` allocates
unless `Buffer` is called, which `ParseTargetList` does not do. -/
def MaxScanTokenSize : Nat := 64 * 1024

/-- Go `bufio.dropCR(data)`: one trailing carriage return removed. -/
def dropCR (data : Str) : Str :=
  if HasSuffix data [13] then data.take (data.length - 1) else data

/-- The run of `bufio.NewScanner(file)` with its default split function
`ScanLines` over a file whose content, split at the newline byte, is `pieces`
(the last piece is what follows the last newline): the tokens that the
successive calls of `Scan` deliver, and whether `Err()` is non-nil afterwards.
A piece of `MaxScanTokenSize` bytes or more fills the buffer before its end is
seen, `Scan` stops with `ErrTooLong`; an empty last piece is no line. -/
def scanLines : List Str → List Str × Bool
  | [] => ([], false)
  | piece :: rest =>
    if MaxScanTokenSize ≤ piece.length then ([], true)
    else if rest = [] ∧ piece = [] then ([], false)
    else (dropCR piece :: (scanLines rest).1, (scanLines rest).2)

/-- Go `targetlist.ParseTargetList(filepath)`; `file` is the content found at
`filepath`, `none` when there is no such file or it cannot be opened, and the
result `none` stands for the returned error. -/
def ParseTargetList (file : Option Str) : Option (List Str) :=
  match file with
  | none => none
  | some content =>
    let targets := parseTargetLoop (scanLines (SplitByte 10 content)).1 []
    if (scanLines (SplitByte 10 content)).2 then none
    else if targets.length = 0 then none
    else some targets

/-! ## `internal/dedup`: concurrent calls of `Check` -/

/-- Where a running call of `(*Dedup).Check` stands: before `url.Parse`, before
the scope test (holding the parsed URL), before `seen.LoadOrStore`, or
returned with its result. -/
inductive CheckPC where
  | start
  | parsed (u : URL)
  | checked
  | done (r : CheckResult)
  deriving DecidableEq, Repr

/-- A call of `(*Dedup).Check` in progress: its argument and where it stands. -/
structure CheckCall where
  rawURL : Str
  pc : CheckPC
  deriving DecidableEq, Repr

/-- One step of a call of `(*Dedup).Check` on the shared deduplicator.
Parsing and the scope test touch no shared mutable state; the one step that
does is `seen.LoadOrStore(rawURL, true)`, which `sync.Map` performs
atomically. -/
def Dedup.stepCall (mapLower : Str → Str) (d : Dedup) (c : CheckCall) : CheckCall × Dedup :=
  match c.pc with
  | .start =>
    match Parse c.rawURL with
    | none => ({ c with pc := .done Drop }, d)
    | some u => ({ c with pc := .parsed u }, d)
  | .parsed u =>
    if !d.inScope mapLower u.Host then ({ c with pc := .done Drop }, d)
    else if d.disableDedup then ({ c with pc := .done Pass }, d)
    else ({ c with pc := .checked }, d)
  | .checked =>
    if c.rawURL ∈ d.seen then ({ c with pc := .done Drop }, d)
    else ({ c with pc := .done Pass }, { d with seen := c.rawURL :: d.seen })
  | .done _ => (c, d)

/-- The scheduler lets call number `i` take one step. -/
def Dedup.stepAt (mapLower : Str → Str) : Nat → List CheckCall → Dedup → List CheckCall × Dedup
  | _, [], d => ([], d)
  | 0, c :: cs, d => ((Dedup.stepCall mapLower d c).1 :: cs, (Dedup.stepCall mapLower d c).2)
  | i + 1, c :: cs, d =>
    (c :: (Dedup.stepAt mapLower i cs d).1, (Dedup.stepAt mapLower i cs d).2)

/-- An interleaving of concurrent calls: the schedule names, step by step, the
call that moves next. -/
def Dedup.runSchedule (mapLower : Str → Str) :
    List Nat → List CheckCall → Dedup → List CheckCall × Dedup
  | [], cs, d => (cs, d)
  | i :: sched, cs, d =>
    Dedup.runSchedule mapLower sched (Dedup.stepAt mapLower i cs d).1
      (Dedup.stepAt mapLower i cs d).2

/-- The number of calls on `u` that have returned Pass. -/
def passCount (u : Str) (cs : List CheckCall) : Nat :=
  cs.countP (fun c => decide (c.rawURL = u ∧ c.pc = .done Pass))

/-! ## `internal/status`: the redirect policy -/

/-- What a `CheckRedirect` function of Go `net/http` answers: `nil` (follow the
redirect), `http.ErrUseLastResponse`, or another error. -/
inductive RedirectDecision where
  | follow
  | useLastResponse
  | fail
  deriving DecidableEq, Repr

/-- The `CheckRedirect` function that Go `status.New` installs, as a function
of `len(via)`, the number of requests already made in the chain. -/
def CheckRedirect (viaLen : Nat) : RedirectDecision :=
  if viaLen ≥ 3 then .useLastResponse else .follow

/-- A response as the redirect loop sees it: its status code and whether it
asks for a redirect. -/
structure Hop where
  statusCode : Int
  redirect : Bool
  deriving DecidableEq, Repr

/-- The outcome of a request sent through the client: the index in the chain
of the response returned (`none` for an error) and the number of requests
sent. -/
structure ClientResult where
  response : Option Nat
  sent : Nat
  deriving DecidableEq, Repr

/-- The redirect loop of Go `net/http` `(*Client).do`, with `n` requests of the
chain already sent (`answers k` is the response to request number `k`): before
each request but the first the policy is asked with `len(via) = n`;
`ErrUseLastResponse` returns the previous response, another error fails; the
request is then sent and its response returned unless it redirects.  `none`
when the fuel runs out. -/
def clientDo (policy : Nat → RedirectDecision) (answers : Nat → Hop) :
    Nat → Nat → Option ClientResult
  | 0, _ => none
  | fuel + 1, n =>
    if n > 0 ∧ policy n = .useLastResponse then some ⟨some (n - 1), n⟩
    else if n > 0 ∧ policy n = .fail then some ⟨none, n⟩
    else if (answers n).redirect then clientDo policy answers fuel (n + 1)
    else some ⟨some n, n + 1⟩

/-! ## `internal/sources`: the paginating sources -/

/-- What `client.Do(req)` gives for a page request: a network error, or a
response with its status code and the decoded JSON body (`none` when decoding
fails). -/
inductive PageReply (α : Type) where
  | netErr
  | reply (statusCode : Int) (body : Option α)

/-- The error that the closure passed to `WithRetry` returns for a reply. -/
def PageReply.error {α : Type} : PageReply α → Option Str
  | .netErr => some (bs "request failed")
  | .reply _ _ => none

/-- What one `Run` of a source does: the pages it requested, in order, the
records it pushed to the results channel, and whether `Run` returned (`false`:
the loop was still running when the fuel ran out). -/
structure SourceRun (κ : Type) where
  pages : List κ := []
  records : List ScanRecord := []
  returned : Bool := false

/-- The records a source pushes for the URLs of one page: its own name as
`Source`, the category `"none"`. -/
def sourceRecords (source : Str) (urls : List Str) : List ScanRecord :=
  urls.map (fun u => { URL := u, Source := source, Category := bs "none" })

/-- Go `githubResponse`: the `html_url` of the items. -/
structure githubResponse where
  Items : List Str

/-- The `for` loop of Go `(*GitHub).Run`, about to request `page`, in a context
that is never cancelled; `server page k` is the reply to attempt number `k` at
that page. -/
def GitHub.loop (server : Nat → Nat → PageReply githubResponse) :
    Nat → Nat → SourceRun Nat → SourceRun Nat
  | 0, _, acc => acc
  | fuel + 1, page, acc =>
    let acc := { acc with pages := acc.pages ++ [page] }
    let r := WithRetry (fun k => (server page k).error) 3
    if r.err ≠ none then { acc with returned := true }
    else
      match server page (r.calls - 1) with
      | .netErr => { acc with returned := true }
      | .reply statusCode body =>
        if statusCode = 403 ∨ statusCode = 429 then { acc with returned := true }
        else if statusCode ≠ 200 then { acc with returned := true }
        else
          match body with
          | none => { acc with returned := true }
          | some data =>
            let acc := { acc with records := acc.records ++ sourceRecords (bs "github") data.Items }
            if data.Items.length = 0 ∨ page ≥ 5 then { acc with returned := true }
            else GitHub.loop server fuel (page + 1) acc

/-- Go `(*GitHub).Run`; `requestOK` says whether `http.NewRequestWithContext`
accepts the API URL of the configured domain. -/
def GitHub.Run (apiKey : Str) (requestOK : Bool)
    (server : Nat → Nat → PageReply githubResponse) (fuel : Nat) : SourceRun Nat :=
  if apiKey = [] then { returned := true }
  else if !requestOK then { returned := true }
  else GitHub.loop server fuel 1 {}

/-- Go `otxResponse`. -/
structure otxResponse where
  URLList : List Str
  HasNext : Bool

/-- The `for` loop of Go `(*AlienVault).Run`, about to request `page`. -/
def AlienVault.loop (server : Nat → Nat → PageReply otxResponse) :
    Nat → Nat → SourceRun Nat → SourceRun Nat
  | 0, _, acc => acc
  | fuel + 1, page, acc =>
    let acc := { acc with pages := acc.pages ++ [page] }
    let r := WithRetry (fun k => (server page k).error) 3
    if r.err ≠ none then { acc with returned := true }
    else
      match server page (r.calls - 1) with
      | .netErr => { acc with returned := true }
      | .reply statusCode body =>
        if statusCode ≠ 200 then { acc with returned := true }
        else
          match body with
          | none => { acc with returned := true }
          | some data =>
            if data.URLList.length = 0 then { acc with returned := true }
            else
              let acc := { acc with records := acc.records ++ sourceRecords (bs "otx") data.URLList }
              if !data.HasNext then { acc with returned := true }
              else AlienVault.loop server fuel (page + 1) acc

/-- Go `(*AlienVault).Run`. -/
def AlienVault.Run (apiKey : Str) (requestOK : Bool)
    (server : Nat → Nat → PageReply otxResponse) (fuel : Nat) : SourceRun Nat :=
  if apiKey = [] then { returned := true }
  else if !requestOK then { returned := true }
  else AlienVault.loop server fuel 1 {}

/-- Go `vtResponse`: the `id` of the data items and `links.next`. -/
structure vtResponse where
  Data : List Str
  Next : Str

/-- The `for` loop of Go `(*VirusTotal).Run`, about to request `baseURL` (empty
`cursor`) or `cursor`; `http.NewRequestWithContext` fails when `url.Parse`
rejects the URL. -/
def VirusTotal.loop (baseURL : Str) (server : Str → Nat → PageReply vtResponse) :
    Nat → Str → SourceRun Str → SourceRun Str
  | 0, _, acc => acc
  | fuel + 1, cursor, acc =>
    let url := if cursor ≠ [] then cursor else baseURL
    if Parse url = none then { acc with returned := true }
    else
      let acc := { acc with pages := acc.pages ++ [url] }
      let r := WithRetry (fun k => (server url k).error) 3
      if r.err ≠ none then { acc with returned := true }
      else
        match server url (r.calls - 1) with
        | .netErr => { acc with returned := true }
        | .reply statusCode body =>
          if statusCode ≠ 200 then { acc with returned := true }
          else
            match body with
            | none => { acc with returned := true }
            | some vtResp =>
              let acc :=
                { acc with records := acc.records ++ sourceRecords (bs "virustotal") vtResp.Data }
              if vtResp.Next = [] then { acc with returned := true }
              else VirusTotal.loop baseURL server fuel vtResp.Next acc

/-- Go `(*VirusTotal).Run` for the configured `domain`. -/
def VirusTotal.Run (apiKey domain : Str) (server : Str → Nat → PageReply vtResponse)
    (fuel : Nat) : SourceRun Str :=
  if apiKey = [] then { returned := true }
  else
    VirusTotal.loop
      (bs "https://www.virustotal.com/api/v3/domains/" ++ domain ++ bs "/subdomains?limit=40")
      server fuel [] {}

/-! ## Notions of the specification -/

/-- The three gates of `processRecord` all let the record through, `y` being
the normalized URL. -/
def GatesPass (mapLower : Str → Str) (net : Net) (p : Pipeline) (st : RunState)
    (r : ScanRecord) (y : Str) : Prop :=
  Normalize mapLower r.URL = some y ∧ (Dedup.Check mapLower st.dedup y).1 = Pass ∧
    (p.checker.Check net y).1 = true

/-- One rule of the classification cascade as the specification lists it: the
flag that enables it, the test, and the category it gives. -/
structure Rule where
  enabled : Bool
  test : Str → Bool
  category : Str → Str

/-- The rules of the classifier in the order of the specification. -/
def cascade (mapLower : Str → Str) (e : Engine) : List Rule :=
  [ ⟨e.config.SensitiveUrls, e.isSecret, fun _ => CatSecret⟩,
    ⟨e.config.SensitiveUrls, e.isConfig mapLower, fun _ => CatConfig⟩,
    ⟨e.config.SensitiveUrls, e.isBackup mapLower, fun _ => CatBackup⟩,
    ⟨e.config.SensitiveUrls, e.isVCS, fun _ => CatVCS⟩,
    ⟨e.config.SensitiveUrls, e.isDatabase mapLower, fun _ => CatDatabase⟩,
    ⟨e.config.SensitiveUrls, e.isCloud, fun _ => CatCloud⟩,
    ⟨e.config.SensitiveUrls, e.isAPI mapLower, fun _ => CatAPI⟩,
    ⟨e.config.SensitiveUrls, e.isArchive mapLower, fun _ => CatArchive⟩,
    ⟨e.config.Log, e.isLog mapLower, fun _ => CatLog⟩,
    ⟨e.config.PDF, e.isPDF mapLower, fun _ => CatPDF⟩,
    ⟨e.config.SensitiveUrls, e.isDoc mapLower, fun _ => CatDoc⟩,
    ⟨e.config.SensitiveUrls, e.isSheet mapLower, fun _ => CatSheet⟩,
    ⟨e.config.Params, e.hasParams, fun _ => CatParam⟩,
    ⟨e.config.JS, e.isJS mapLower,
      fun u => if e.config.ExcludeLibs && e.isCommonLib mapLower u then CatNone else CatJS⟩ ]

/-- The category of the first rule that is enabled and matches, `"none"` when
there is none. -/
def firstMatch (rules : List Rule) (u : Str) : Str :=
  match rules.find? (fun r => r.enabled && r.test u) with
  | some r => r.category u
  | none => CatNone

/-- The word `w` (given in lower case) occurs in `u`, ASCII case ignored. -/
def ContainsFold (u w : Str) : Prop :=
  ∃ pre mid post, u = pre ++ mid ++ post ∧ mid.map lowerByte = w

/-- The text of `u` before its first `?`, all of `u` when it has none. -/
def beforeQuery (u : Str) : Str := (Cut u (bs "?")).1

/-- The names by which `isCommonLib` recognises a common library. -/
def commonLibNames : List Str := [bs "jquery", bs "bootstrap", bs "react", bs "vue"]

/-- Go `(*Dedup).Check` called on each URL of a list in turn: the results in
call order and the deduplicator afterwards. -/
def Dedup.checkAll (mapLower : Str → Str) (d : Dedup) : List Str → List CheckResult × Dedup
  | [] => ([], d)
  | u :: us =>
    ((Dedup.Check mapLower d u).1 :: (Dedup.checkAll mapLower (Dedup.Check mapLower d u).2 us).1,
      (Dedup.checkAll mapLower (Dedup.Check mapLower d u).2 us).2)

/-- The lines of a file as `bufio.ScanLines` cuts them, whatever their length:
`pieces` are the stretches between newline bytes, a carriage return before the
newline is dropped, and nothing after the last newline is no line. -/
def linesOf : List Str → List Str
  | [] => []
  | piece :: rest =>
    if rest = [] ∧ piece = [] then [] else dropCR piece :: linesOf rest

/-- The lines of the file with content `content`. -/
def fileLines (content : Str) : List Str := linesOf (SplitByte 10 content)

/-- The targets of a list of lines as the specification words them: in file
order, the sanitized form of the lines that are not blank, do not start with
`#` once white space is trimmed, and whose sanitized form is not empty. -/
def validTargets (lines : List Str) : List Str :=
  (lines.filter (fun line =>
    decide (TrimSpace line ≠ []) && decide ((TrimSpace line).head? ≠ some (ch '#')) &&
      decide (sanitizeTarget line ≠ []))).map sanitizeTarget

/-- The file extensions that the classifier tests with `strings.HasSuffix`
(backup, database, archive, log, pdf, doc, sheet). -/
def extensionSuffixes : List Str :=
  [bs ".bak", bs ".old", bs ".swp", bs ".sql", bs ".db", bs ".dump", bs ".sqlite", bs ".zip",
   bs ".tar.gz", bs ".rar", bs ".log", bs ".pdf", bs ".doc", bs ".docx", bs ".txt", bs ".xls",
   bs ".xlsx", bs ".csv"]

/-- Whether one of the substring rules of the classifier matches `u`: the
secret pattern, a config, VCS, cloud or API indicator, or one of the words
`backup`, `mysqldump`, `error_log`. -/
def substringRuleMatches (mapLower : Str → Str) (e : Engine) (u : Str) : Bool :=
  e.isSecret u || e.isConfig mapLower u || e.isVCS u || e.isCloud u || e.isAPI mapLower u ||
    Contains (ToLower mapLower u) (bs "backup") || Contains (ToLower mapLower u) (bs "mysqldump") ||
    Contains (ToLower mapLower u) (bs "error_log")

/-- What holds of a call on `u` while the deduplicator is `d`. -/
def CallOK (u : Str) (url : URL) (d : Dedup) (c : CheckCall) : Prop :=
  c.rawURL = u → (∀ u2, c.pc = .parsed u2 → u2 = url) ∧ (∀ r, c.pc = .done r → u ∈ d.seen)

/-- What holds of the deduplicator during a run: its configuration. -/
def ConfigOK (mapLower : Str → Str) (url : URL) (d : Dedup) : Prop :=
  d.inScope mapLower url.Host = true ∧ d.disableDedup = false

/-- How one step changes the pass count for `u` and the seen-set. -/
def StepEffect (u : Str) (d d2 : Dedup) (n n2 : Nat) : Prop :=
  (∀ x, x ∈ d.seen → x ∈ d2.seen) ∧
  ((n2 = n ∧ (u ∈ d2.seen ↔ u ∈ d.seen)) ∨ (n2 = n + 1 ∧ u ∉ d.seen ∧ u ∈ d2.seen))


/-- The string `Normalize` prints for a parsed URL `u`: scheme and host in lower
case, no fragment, no default port. -/
def canonicalString (mapLower : Str → Str) (u : URL) : Str :=
  URL.String
    { u with
      Scheme := ToLower mapLower u.Scheme,
      Host := removeDefaultPort (ToLower mapLower u.Scheme) (ToLower mapLower u.Host),
      Fragment := [] }

/-! ## Theorems -/

/-! ## The pipeline step, field by field -/

theorem processRecord_written (mapLower : Str → Str) (net : Net) (p : Pipeline) (st : RunState)
    (r : ScanRecord) :
    (p.processRecord mapLower net st r).written =
      match Normalize mapLower r.URL with
      | none => st.written
      | some y =>
        if (Dedup.Check mapLower st.dedup y).1 = Pass ∧ (p.checker.Check net y).1 = true then
          st.written ++ [{ URL := y, Source := r.Source, StatusCode := (p.checker.Check net y).2.1,
                           Category := p.filter.Classify mapLower y }]
        else st.written := by
  unfold Pipeline.processRecord
  cases hN : Normalize mapLower r.URL with
  | none => simp
  | some y =>
    simp only []
    cases hD : (Dedup.Check mapLower st.dedup y).1 with
    | false => simp [hD]
    | true =>
      cases hC : (p.checker.Check net y).1 with
      | false => simp [hD, hC]
      | true =>
        simp [hD, hC]
        split <;> (try split) <;> (try split) <;> simp

theorem processRecord_dedup (mapLower : Str → Str) (net : Net) (p : Pipeline) (st : RunState)
    (r : ScanRecord) :
    (p.processRecord mapLower net st r).dedup =
      match Normalize mapLower r.URL with
      | none => st.dedup
      | some y => (Dedup.Check mapLower st.dedup y).2 := by
  unfold Pipeline.processRecord
  cases hN : Normalize mapLower r.URL with
  | none => simp
  | some y =>
    simp only []
    cases hD : (Dedup.Check mapLower st.dedup y).1 with
    | false => simp [hD]
    | true =>
      cases hC : (p.checker.Check net y).1 with
      | false => simp [hD, hC]
      | true =>
        simp [hD, hC]
        split <;> (try split) <;> (try split) <;> simp

theorem processRecord_of_normalize_none (mapLower : Str → Str) (net : Net) (p : Pipeline)
    (st : RunState) (r : ScanRecord) (h : Normalize mapLower r.URL = none) :
    p.processRecord mapLower net st r = { st with stats := st.stats.IncTotal } := by
  unfold Pipeline.processRecord
  simp [h]

theorem processRecord_of_drop (mapLower : Str → Str) (net : Net) (p : Pipeline)
    (st : RunState) (r : ScanRecord) (y : Str) (h : Normalize mapLower r.URL = some y)
    (hD : (Dedup.Check mapLower st.dedup y).1 = Drop) :
    p.processRecord mapLower net st r =
      { st with stats := st.stats.IncTotal, dedup := (Dedup.Check mapLower st.dedup y).2 } := by
  unfold Pipeline.processRecord
  simp [h, hD]

theorem processRecord_of_probe_fail (mapLower : Str → Str) (net : Net) (p : Pipeline)
    (st : RunState) (r : ScanRecord) (y : Str) (h : Normalize mapLower r.URL = some y)
    (hD : (Dedup.Check mapLower st.dedup y).1 = Pass)
    (hC : (p.checker.Check net y).1 = false) :
    p.processRecord mapLower net st r =
      { st with stats := st.stats.IncTotal.IncDedup,
                dedup := (Dedup.Check mapLower st.dedup y).2,
                requests := st.requests ++ (p.checker.Check net y).2.2 } := by
  unfold Pipeline.processRecord
  simp [h, hD, hC]

theorem check_drop_keeps (mapLower : Str → Str) (d : Dedup) (u : Str)
    (h : (Dedup.Check mapLower d u).1 = Drop) : (Dedup.Check mapLower d u).2 = d := by
  unfold Dedup.Check at h ⊢
  split
  · rfl
  · split
    · rfl
    · split
      · rfl
      · split
        · rfl
        · rename_i h1 h2 h3 h4
          simp [h2, h3, h4] at h
          simp_all

/-- C1: `processRecord` writes to the sink exactly when the three gates pass,
then exactly one record, holding the normalized URL, the unchanged source, the
checker's status code and the classifier's category; a record rejected by a
gate is not written and reaches no later gate: after a failed `Normalize` the
deduplicator is untouched and no request is sent, after a dedup drop no request
is sent and the seen-set is as before, after a failed probe nothing is
classified, notified or scanned. -/
theorem processRecord_writes_iff_gates_pass (mapLower : Str → Str) (net : Net) (p : Pipeline)
    (st : RunState) (r : ScanRecord) :
    ((∃ y, GatesPass mapLower net p st r y) ↔
        ∃ rec, (p.processRecord mapLower net st r).written = st.written ++ [rec]) ∧
    (∀ y, GatesPass mapLower net p st r y →
        (p.processRecord mapLower net st r).written =
          st.written ++ [{ URL := y, Source := r.Source,
                           StatusCode := (p.checker.Check net y).2.1,
                           Category := p.filter.Classify mapLower y }]) ∧
    ((¬ ∃ y, GatesPass mapLower net p st r y) →
        (p.processRecord mapLower net st r).written = st.written) ∧
    (Normalize mapLower r.URL = none →
        p.processRecord mapLower net st r = { st with stats := st.stats.IncTotal }) ∧
    (∀ y, Normalize mapLower r.URL = some y → (Dedup.Check mapLower st.dedup y).1 = Drop →
        p.processRecord mapLower net st r = { st with stats := st.stats.IncTotal }) ∧
    (∀ y, Normalize mapLower r.URL = some y → (Dedup.Check mapLower st.dedup y).1 = Pass →
        (p.checker.Check net y).1 = false →
        p.processRecord mapLower net st r =
          { st with stats := st.stats.IncTotal.IncDedup,
                    dedup := (Dedup.Check mapLower st.dedup y).2,
                    requests := st.requests ++ (p.checker.Check net y).2.2 }) := by
  have hw := processRecord_written mapLower net p st r
  refine ⟨⟨?_, ?_⟩, ?_, ?_, ?_, ?_, ?_⟩
  · rintro ⟨y, hN, hD, hC⟩
    rw [hw]
    simp [hN, hD, hC]
  · rintro ⟨rec, hrec⟩
    rw [hw] at hrec
    cases hN : Normalize mapLower r.URL with
    | none => simp [hN] at hrec
    | some y =>
      simp only [hN] at hrec
      by_cases hg : (Dedup.Check mapLower st.dedup y).1 = Pass ∧ (p.checker.Check net y).1 = true
      · exact ⟨y, hN, hg.1, hg.2⟩
      · rw [if_neg hg] at hrec
        simp at hrec
  · rintro y ⟨hN, hD, hC⟩
    rw [hw]
    simp [hN, hD, hC]
  · intro hno
    rw [hw]
    cases hN : Normalize mapLower r.URL with
    | none => rfl
    | some y =>
      simp only []
      rw [if_neg]
      rintro ⟨hD, hC⟩
      exact hno ⟨y, hN, hD, hC⟩
  · exact processRecord_of_normalize_none mapLower net p st r
  · intro y hN hD
    rw [processRecord_of_drop mapLower net p st r y hN hD, check_drop_keeps mapLower _ _ hD]
  · exact processRecord_of_probe_fail mapLower net p st r

theorem firstMatch_cons (r : Rule) (rs : List Rule) (u : Str) :
    firstMatch (r :: rs) u = if r.enabled && r.test u then r.category u else firstMatch rs u := by
  unfold firstMatch
  rw [List.find?_cons]
  cases h : (r.enabled && r.test u) <;> simp [h]

theorem firstMatch_nil (u : Str) : firstMatch [] u = CatNone := rfl

theorem classify_eq_firstMatch (mapLower : Str → Str) (e : Engine) (u : Str) :
    e.Classify mapLower u = firstMatch (cascade mapLower e) u := by
  unfold Engine.Classify cascade
  simp only [firstMatch_cons, firstMatch_nil]
  generalize e.isSecret u = b1
  generalize e.isConfig mapLower u = b2
  generalize e.isBackup mapLower u = b3
  generalize e.isVCS u = b4
  generalize e.isDatabase mapLower u = b5
  generalize e.isCloud u = b6
  generalize e.isAPI mapLower u = b7
  generalize e.isArchive mapLower u = b8
  generalize e.isLog mapLower u = b9
  generalize e.isPDF mapLower u = b10
  generalize e.isDoc mapLower u = b11
  generalize e.isSheet mapLower u = b12
  generalize e.hasParams u = b13
  generalize e.isJS mapLower u = b14
  generalize e.isCommonLib mapLower u = b15
  generalize e.config.SensitiveUrls = s
  generalize e.config.Log = fl
  generalize e.config.PDF = fp
  generalize e.config.Params = fq
  generalize e.config.JS = fj
  generalize e.config.ExcludeLibs = fx
  cases s
  · cases fl <;> cases b9 <;> simp
  · cases b1 <;> cases b2 <;> cases b3 <;> cases b4 <;> cases b5 <;> cases b6 <;>
      cases b7 <;> cases b8 <;> cases b11 <;> cases b12 <;> simp

/-- C5: `Classify` returns the category of the first enabled, matching rule of
the cascade secret, config, backup, vcs, database, cloud, api, archive
(sensitive flag), log, pdf (own flags), doc, sheet (sensitive flag), param, js
(with the exclude-libs suppression), and `"none"` when no rule matches; with
the sensitive flag on, `https://site.com/backup/app.env.bak` is config. -/
theorem classify_eq_first_enabled_match (mapLower : Str → Str) (e : Engine) (u : Str) :
    e.Classify mapLower u = firstMatch (cascade mapLower e) u ∧
    (e.config.SensitiveUrls = true →
      e.Classify mapLower (bs "https://site.com/backup/app.env.bak") = bs "config") := by
  refine ⟨classify_eq_firstMatch mapLower e u, fun hs => ?_⟩
  unfold Engine.Classify
  rw [hs]
  have h1 : e.isSecret (bs "https://site.com/backup/app.env.bak") = false := by
    unfold Engine.isSecret; decide
  have h2 : e.isConfig mapLower (bs "https://site.com/backup/app.env.bak") = true := by
    unfold Engine.isConfig; rfl
  simp [h1, h2]
  rfl

set_option maxRecDepth 100000 in
theorem byte_eq_or_upper : ∀ c : Byte, c = lowerByte c ∨ c = upperByte (lowerByte c) := by
  decide

theorem foldWordAt_of_lower (mid post : Str) :
    foldWordAt (mid.map lowerByte) (mid ++ post) = true := by
  induction mid with
  | nil => rfl
  | cons c mid ih =>
    have hc := byte_eq_or_upper c
    have hl : foldLit (lowerByte c) (c :: (mid ++ post)) = some (mid ++ post) := by
      simp only [foldLit]
      rw [if_pos hc]
    simp only [List.map_cons, List.cons_append, foldWordAt, hl]
    exact ih

theorem secretMatch_of_word (w : Str) (hw : w ∈ secretWords) (pre s : Str)
    (h : foldWordAt w s = true) : secretMatch (pre ++ s) = true := by
  induction pre with
  | nil =>
    cases s with
    | nil =>
      simp only [List.nil_append, secretMatch, List.any_eq_true]
      exact ⟨w, hw, h⟩
    | cons c s =>
      simp only [List.nil_append, secretMatch, Bool.or_eq_true, List.any_eq_true]
      exact Or.inl ⟨w, hw, h⟩
  | cons c pre ih =>
    simp only [List.cons_append, secretMatch, Bool.or_eq_true]
    exact Or.inr ih

theorem secretMatch_of_containsFold (u w : Str) (hw : w ∈ secretWords) (h : ContainsFold u w) :
    secretMatch u = true := by
  obtain ⟨pre, mid, post, rfl, rfl⟩ := h
  rw [List.append_assoc]
  exact secretMatch_of_word _ hw pre _ (foldWordAt_of_lower mid post)

/-- C6: with the sensitive filter enabled, a URL that contains one of the
secret keywords in any letter case is classified `"secret"`, whatever its
suffix and the other flags; in particular it is not classified `"backup"`. -/
theorem classify_secret_first (mapLower : Str → Str) (e : Engine) (u w : Str)
    (hs : e.config.SensitiveUrls = true) (hw : w ∈ secretWords) (h : ContainsFold u w) :
    e.Classify mapLower u = bs "secret" ∧ e.Classify mapLower u ≠ bs "backup" := by
  have hm : e.isSecret u = true := secretMatch_of_containsFold u w hw h
  have hc : e.Classify mapLower u = bs "secret" := by
    unfold Engine.Classify
    simp [hs, hm]
    rfl
  rw [hc]
  exact ⟨rfl, by decide⟩

theorem classify_secret_first_witness :
    (Engine.New ⟨true, false, false, false, false, false, false⟩).Classify id
        (bs "https://site.com/dump?API_KEY=abc.bak") = bs "secret" ∧
    (Engine.New ⟨true, false, false, false, false, false, false⟩).Classify id
        (bs "https://site.com/dump?API_KEY=abc.bak") ≠ bs "backup" :=
  classify_secret_first id (Engine.New ⟨true, false, false, false, false, false, false⟩)
    (bs "https://site.com/dump?API_KEY=abc.bak") (bs "api_key") rfl (by decide)
    ⟨bs "https://site.com/dump?", bs "API_KEY", bs "=abc.bak", by decide, by decide⟩

theorem firstMatch_append_of_none (l1 l2 : List Rule) (u : Str)
    (h : ∀ r ∈ l1, ¬ (r.enabled = true ∧ r.test u = true)) :
    firstMatch (l1 ++ l2) u = firstMatch l2 u := by
  induction l1 with
  | nil => rfl
  | cons r l1 ih =>
    rw [List.cons_append, firstMatch_cons]
    have hr := h r (List.mem_cons_self _ _)
    have : (r.enabled && r.test u) = false := by
      cases h1 : r.enabled <;> cases h2 : r.test u <;> simp_all
    rw [this]
    simp only [Bool.false_eq_true, if_false]
    exact ih (fun r' hr' => h r' (List.mem_cons_of_mem _ hr'))

theorem splitByte_head (c : Byte) (u : Str) : (SplitByte c u).headD [] = (Cut u [c]).1 := by
  induction u with
  | nil => rfl
  | cons x s ih =>
    by_cases hx : x = c
    · subst hx
      simp [SplitByte, Cut, Index, List.isPrefixOf]
    · have hne : (c == x) = false := by
        simp only [beq_eq_false_iff_ne, ne_eq]
        exact fun h => hx h.symm
      have hI : Index (x :: s) [c] = (Index s [c]).map (· + 1) := by
        simp [Index, List.isPrefixOf, hne]
      have hS : (SplitByte c (x :: s)).headD [] = x :: (SplitByte c s).headD [] := by
        simp only [SplitByte, if_neg hx]
        cases SplitByte c s <;> rfl
      rw [hS, ih]
      unfold Cut
      rw [hI]
      cases Index s [c] <;> simp

theorem isJS_eq (mapLower : Str → Str) (e : Engine) (u : Str) :
    e.isJS mapLower u = HasSuffix (ToLower mapLower (beforeQuery u)) (bs ".js") := by
  unfold Engine.isJS beforeQuery
  have hq : bs "?" = [ch '?'] := rfl
  by_cases hc : Contains u (bs "?") = true
  · rw [if_pos hc, splitByte_head, hq]
  · rw [if_neg hc]
    unfold Contains at hc
    unfold Cut
    cases hI : Index u (bs "?") with
    | none => rfl
    | some i => simp [hI] at hc

theorem isCommonLib_iff (mapLower : Str → Str) (e : Engine) (u : Str) :
    e.isCommonLib mapLower u = true ↔
      ∃ w ∈ commonLibNames, Contains (ToLower mapLower u) w = true := by
  unfold Engine.isCommonLib commonLibNames
  simp [Bool.or_assoc]

/-- C7: for a URL that no earlier enabled rule of the cascade matches, whose
text before the query string ends in `.js` and which holds one of the names
jquery, bootstrap, react, vue (both in any letter case): with the JS filter on,
`Classify` gives `"none"` when exclude-libs is on and `"js"` when it is off. -/
theorem classify_js_common_lib (mapLower : Str → Str) (e : Engine) (u : Str)
    (hearlier : ∀ r ∈ (cascade mapLower e).take 13, ¬ (r.enabled = true ∧ r.test u = true))
    (hjs : HasSuffix (ToLower mapLower (beforeQuery u)) (bs ".js") = true)
    (hlib : ∃ w ∈ commonLibNames, Contains (ToLower mapLower u) w = true)
    (hJS : e.config.JS = true) :
    (e.config.ExcludeLibs = true → e.Classify mapLower u = bs "none") ∧
    (e.config.ExcludeLibs = false → e.Classify mapLower u = bs "js") := by
  have hsplit : cascade mapLower e = (cascade mapLower e).take 13 ++ (cascade mapLower e).drop 13 :=
    (List.take_append_drop 13 _).symm
  have hc : e.Classify mapLower u = firstMatch ((cascade mapLower e).drop 13) u := by
    rw [classify_eq_firstMatch, hsplit, firstMatch_append_of_none _ _ _ hearlier]
    rw [← hsplit]
  have hj : e.isJS mapLower u = true := by rw [isJS_eq]; exact hjs
  have hl : e.isCommonLib mapLower u = true := (isCommonLib_iff mapLower e u).2 hlib
  rw [hc]
  simp only [cascade, List.drop, firstMatch_cons, firstMatch_nil, hJS, hj, hl, Bool.and_self,
    if_true, Bool.and_true]
  constructor
  · intro hx
    rw [hx]
    rfl
  · intro hx
    rw [hx]
    rfl

theorem classify_js_common_lib_witness :
    (Engine.New ⟨false, false, true, true, false, false, false⟩).Classify id
        (bs "https://cdn.site.com/libs/jquery.min.js") = bs "none" ∧
    (Engine.New ⟨false, false, true, false, false, false, false⟩).Classify id
        (bs "https://cdn.site.com/libs/jquery.min.js") = bs "js" :=
  ⟨(classify_js_common_lib id (Engine.New ⟨false, false, true, true, false, false, false⟩)
      (bs "https://cdn.site.com/libs/jquery.min.js") (by decide) (by decide)
      ⟨bs "jquery", by decide, by decide⟩ rfl).1 rfl,
   (classify_js_common_lib id (Engine.New ⟨false, false, true, false, false, false, false⟩)
      (bs "https://cdn.site.com/libs/jquery.min.js") (by decide) (by decide)
      ⟨bs "jquery", by decide, by decide⟩ rfl).2 rfl⟩

/-- C10: a checker built with an empty list of accepted status codes passes
every URL with status 0 and sends no request. -/
theorem check_passthrough_when_no_codes (net : Net) (url : Str) :
    (Checker.New []).enabled = false ∧
    (Checker.New []).Check net url = (true, 0, []) := by
  constructor <;> rfl

/-! ## The scope test and the seen-set -/

theorem toLower_nil (mapLower : Str → Str) : ToLower mapLower [] = [] := rfl

theorem toLower_eq_nil (mapLower : Str → Str) (hmap : ∀ s, mapLower s = [] → s = []) (s : Str) :
    ToLower mapLower s = [] ↔ s = [] := by
  constructor
  · intro h
    unfold ToLower at h
    split at h
    · exact List.map_eq_nil_iff.1 h
    · exact hmap s h
  · rintro rfl
    rfl

theorem inScope_iff_field (mapLower : Str → Str) (d : Dedup) (host : Str) :
    d.inScope mapLower host = true ↔
      d.targetDomain = [] ∨ ToLower mapLower host = d.targetDomain ∨
        (d.wildcard = true ∧ (bs "." ++ d.targetDomain) <:+ ToLower mapLower host) := by
  unfold Dedup.inScope HasSuffix
  by_cases h1 : d.targetDomain = []
  · simp [h1]
  · by_cases h2 : ToLower mapLower host = d.targetDomain
    · simp [h1, h2]
    · simp [h1, h2]

theorem inScope_congr (mapLower : Str → Str) (d d2 : Dedup) (host : Str)
    (ht : d2.targetDomain = d.targetDomain) (hw : d2.wildcard = d.wildcard) :
    d2.inScope mapLower host = d.inScope mapLower host := by
  unfold Dedup.inScope
  rw [ht, hw]

theorem check_of_out_of_scope (mapLower : Str → Str) (d : Dedup) (rawURL : Str) (u : URL)
    (hp : Parse rawURL = some u) (hs : d.inScope mapLower u.Host = false) :
    Dedup.Check mapLower d rawURL = (Drop, d) := by
  unfold Dedup.Check
  simp [hp, hs]

theorem check_of_in_scope (mapLower : Str → Str) (d : Dedup) (rawURL : Str) (u : URL)
    (hp : Parse rawURL = some u) (hs : d.inScope mapLower u.Host = true)
    (hd : d.disableDedup = false) :
    Dedup.Check mapLower d rawURL =
      if rawURL ∈ d.seen then (Drop, d) else (Pass, { d with seen := rawURL :: d.seen }) := by
  unfold Dedup.Check
  simp [hp, hs, hd]

theorem check_state_cases (mapLower : Str → Str) (d : Dedup) (v : Str) :
    (Dedup.Check mapLower d v).2 = d ∨
      ((Dedup.Check mapLower d v).1 = Pass ∧ d.disableDedup = false ∧ v ∉ d.seen ∧
        (Dedup.Check mapLower d v).2 = { d with seen := v :: d.seen }) := by
  unfold Dedup.Check
  split
  · exact Or.inl rfl
  · split
    · exact Or.inl rfl
    · split
      · exact Or.inl rfl
      · split
        · exact Or.inl rfl
        · rename_i h3 h4
          refine Or.inr ⟨rfl, ?_, h4, rfl⟩
          simpa using h3

theorem check_pass_enabled (mapLower : Str → Str) (d : Dedup) (v : Str)
    (hd : d.disableDedup = false) (hp : (Dedup.Check mapLower d v).1 = Pass) :
    v ∉ d.seen ∧ (Dedup.Check mapLower d v).2 = { d with seen := v :: d.seen } := by
  unfold Dedup.Check at hp ⊢
  split
  · rename_i h; simp [h] at hp
  · rename_i u h
    simp only [h] at hp
    split
    · rename_i h2; simp [h2] at hp
    · rename_i h2
      simp only [h2, hd] at hp
      simp only [hd]
      by_cases hm : v ∈ d.seen
      · simp [hm] at hp
      · simp [hm]

theorem check_keeps_config (mapLower : Str → Str) (d : Dedup) (v : Str) :
    (Dedup.Check mapLower d v).2.targetDomain = d.targetDomain ∧
    (Dedup.Check mapLower d v).2.wildcard = d.wildcard ∧
    (Dedup.Check mapLower d v).2.disableDedup = d.disableDedup := by
  rcases check_state_cases mapLower d v with h | ⟨_, _, _, h⟩ <;> rw [h] <;> exact ⟨rfl, rfl, rfl⟩

theorem check_seen_mono (mapLower : Str → Str) (d : Dedup) (v x : Str) (hx : x ∈ d.seen) :
    x ∈ (Dedup.Check mapLower d v).2.seen := by
  rcases check_state_cases mapLower d v with h | ⟨_, _, _, h⟩ <;> rw [h]
  · exact hx
  · exact List.mem_cons_of_mem _ hx

theorem check_seen_other (mapLower : Str → Str) (d : Dedup) (v u : Str) (hne : v ≠ u) :
    u ∈ (Dedup.Check mapLower d v).2.seen ↔ u ∈ d.seen := by
  rcases check_state_cases mapLower d v with h | ⟨_, _, _, h⟩ <;> rw [h]
  simp only [List.mem_cons]
  constructor
  · rintro (h1 | h1)
    · exact absurd h1.symm hne
    · exact h1
  · exact Or.inr

theorem checkAll_getElem (mapLower : Str → Str) (u : Str) (url : URL) (hp : Parse u = some url)
    (us : List Str) :
    ∀ (d : Dedup) (i : Nat), d.inScope mapLower url.Host = true → d.disableDedup = false →
      us[i]? = some u →
      (Dedup.checkAll mapLower d us).1[i]? = some (decide (u ∉ d.seen ∧ u ∉ us.take i)) := by
  induction us with
  | nil => intro d i _ _ h; simp at h
  | cons v us ih =>
    intro d i hs hd h
    have hcfg := check_keeps_config mapLower d v
    have hs2 : (Dedup.Check mapLower d v).2.inScope mapLower url.Host = true := by
      rw [inScope_congr mapLower d _ _ hcfg.1 hcfg.2.1]; exact hs
    have hd2 : (Dedup.Check mapLower d v).2.disableDedup = false := by rw [hcfg.2.2]; exact hd
    cases i with
    | zero =>
      simp only [List.getElem?_cons_zero, Option.some.injEq] at h
      subst h
      simp only [Dedup.checkAll, List.getElem?_cons_zero, List.take_zero, List.not_mem_nil,
        not_false_eq_true, and_true, Option.some.injEq]
      rw [check_of_in_scope mapLower d v url hp hs hd]
      by_cases hm : v ∈ d.seen <;> simp [hm]
    | succ i =>
      simp only [List.getElem?_cons_succ] at h
      simp only [Dedup.checkAll, List.getElem?_cons_succ, List.take_succ_cons, List.mem_cons]
      rw [ih _ i hs2 hd2 h]
      congr 1
      by_cases hv : v = u
      · subst hv
        have hin : v ∈ (Dedup.Check mapLower d v).2.seen := by
          rw [check_of_in_scope mapLower d v url hp hs hd]
          by_cases hm : v ∈ d.seen <;> simp [hm]
        simp [hin]
      · have := check_seen_other mapLower d v u hv
        have hv2 : ¬ u = v := fun h => hv h.symm
        simp [this, hv2]

theorem checkAll_replicate_seen (mapLower : Str → Str) (u : Str) (url : URL)
    (hp : Parse u = some url) (d : Dedup) (hs : d.inScope mapLower url.Host = true)
    (hd : d.disableDedup = false) (hm : u ∈ d.seen) (k : Nat) :
    Dedup.checkAll mapLower d (List.replicate k u) = (List.replicate k Drop, d) := by
  induction k with
  | zero => rfl
  | succ k ih =>
    simp only [List.replicate_succ, Dedup.checkAll]
    rw [check_of_in_scope mapLower d u url hp hs hd, if_pos hm]
    simp only [ih]

/-- C2: with dedup enabled, for a URL `u` that parses and is in scope, `k ≥ 1`
successive calls `Check(u)` on a fresh deduplicator return Pass, then Drop
`k - 1` times; and in any sequence of calls, a call on `u` returns Pass exactly
when no earlier call of the sequence was on `u`, whatever the other calls. -/
theorem check_passes_first_occurrence_only (mapLower : Str → Str) (target : Str)
    (wildcard : Bool) (u : Str) (url : URL) (hp : Parse u = some url)
    (hs : (Dedup.New mapLower target wildcard false).inScope mapLower url.Host = true) :
    (∀ k, 1 ≤ k →
      (Dedup.checkAll mapLower (Dedup.New mapLower target wildcard false)
        (List.replicate k u)).1 = Pass :: List.replicate (k - 1) Drop) ∧
    (∀ (us : List Str) (i : Nat), us[i]? = some u →
      (Dedup.checkAll mapLower (Dedup.New mapLower target wildcard false) us).1[i]? =
        some (decide (u ∉ us.take i))) := by
  constructor
  · intro k hk
    obtain ⟨k, rfl⟩ : ∃ j, k = j + 1 := ⟨k - 1, by omega⟩
    simp only [List.replicate_succ, Dedup.checkAll, Nat.add_sub_cancel]
    have hfresh : u ∉ (Dedup.New mapLower target wildcard false).seen := by
      simp [Dedup.New]
    rw [check_of_in_scope mapLower _ u url hp hs rfl, if_neg hfresh]
    simp only
    rw [checkAll_replicate_seen mapLower u url hp
      { Dedup.New mapLower target wildcard false with
        seen := u :: (Dedup.New mapLower target wildcard false).seen }
      hs rfl (List.mem_cons_self _ _)]
  · intro us i hi
    rw [checkAll_getElem mapLower u url hp us _ i hs rfl hi]
    simp [Dedup.New]

theorem check_passes_first_occurrence_only_witness :
    (Dedup.checkAll id (Dedup.New id (bs "example.com") false false)
      (List.replicate 3 (bs "http://example.com/x"))).1 = [Pass, Drop, Drop] :=
  (check_passes_first_occurrence_only id (bs "example.com") false (bs "http://example.com/x")
    { Scheme := bs "http", Host := bs "example.com", Path := bs "/x" }
    (by decide) (by decide)).1 3 (by decide)

/-- C3: the scope test passes exactly when no target domain is configured, or
the host equals the target domain, or wildcard mode is on and the host ends
with `"."` followed by the target domain, host and target compared in lower
case; `Check` drops every URL whose parsed host fails the test.  With target
`example.com`: `sub.example.com` fails with wildcard off and passes with it on;
`evil.com` and `notexample.com` fail in both modes. -/
theorem inScope_iff (mapLower : Str → Str) (hmap : ∀ s, mapLower s = [] → s = [])
    (target : Str) (wildcard disableDedup : Bool) (host : Str) :
    ((Dedup.New mapLower target wildcard disableDedup).inScope mapLower host = true ↔
      target = [] ∨ ToLower mapLower host = ToLower mapLower target ∨
        (wildcard = true ∧ (bs "." ++ ToLower mapLower target) <:+ ToLower mapLower host)) ∧
    (∀ (d : Dedup) (rawURL : Str) (u : URL), Parse rawURL = some u →
      d.inScope mapLower u.Host = false → (Dedup.Check mapLower d rawURL).1 = Drop) ∧
    (Dedup.New mapLower (bs "example.com") false disableDedup).inScope mapLower
        (bs "sub.example.com") = false ∧
    (Dedup.New mapLower (bs "example.com") true disableDedup).inScope mapLower
        (bs "sub.example.com") = true ∧
    (Dedup.New mapLower (bs "example.com") wildcard disableDedup).inScope mapLower
        (bs "example.com") = true ∧
    (Dedup.New mapLower (bs "example.com") wildcard disableDedup).inScope mapLower
        (bs "evil.com") = false ∧
    (Dedup.New mapLower (bs "example.com") wildcard disableDedup).inScope mapLower
        (bs "notexample.com") = false := by
  refine ⟨?_, ?_, rfl, rfl, ?_, ?_, ?_⟩
  · rw [inScope_iff_field]
    simp only [Dedup.New]
    rw [toLower_eq_nil mapLower hmap]
  · intro d rawURL u hp hs
    rw [check_of_out_of_scope mapLower d rawURL u hp hs]
  · cases wildcard <;> rfl
  · cases wildcard <;> rfl
  · cases wildcard <;> rfl

theorem inScope_iff_witness :
    (Dedup.New id (bs "Example.COM") true false).inScope id (bs "Sub.Example.com") = true ↔
      bs "Example.COM" = [] ∨ ToLower id (bs "Sub.Example.com") = ToLower id (bs "Example.COM") ∨
        (true = true ∧ (bs "." ++ ToLower id (bs "Example.COM")) <:+
          ToLower id (bs "Sub.Example.com")) :=
  (inScope_iff id (fun _ h => h) (bs "Example.COM") true false (bs "Sub.Example.com")).1

/-! ## Delivered URLs stay distinct -/

theorem processRecord_keeps_distinct (mapLower : Str → Str) (net : Net) (p : Pipeline)
    (st : RunState) (r : ScanRecord) (hd : st.dedup.disableDedup = false)
    (hnd : (st.written.map (·.URL)).Nodup) (hseen : ∀ x ∈ st.written, x.URL ∈ st.dedup.seen) :
    (p.processRecord mapLower net st r).dedup.disableDedup = false ∧
    ((p.processRecord mapLower net st r).written.map (·.URL)).Nodup ∧
    (∀ x ∈ (p.processRecord mapLower net st r).written,
      x.URL ∈ (p.processRecord mapLower net st r).dedup.seen) := by
  rw [processRecord_written, processRecord_dedup]
  cases hN : Normalize mapLower r.URL with
  | none => exact ⟨hd, hnd, hseen⟩
  | some y =>
    simp only []
    have hcfg := check_keeps_config mapLower st.dedup y
    refine ⟨by rw [hcfg.2.2]; exact hd, ?_⟩
    by_cases hg : (Dedup.Check mapLower st.dedup y).1 = Pass ∧ (p.checker.Check net y).1 = true
    · rw [if_pos hg]
      obtain ⟨hfresh, hstate⟩ := check_pass_enabled mapLower st.dedup y hd hg.1
      rw [hstate]
      constructor
      · rw [List.map_append, List.nodup_append]
        refine ⟨hnd, by simp, ?_⟩
        intro a ha hb
        simp only [List.map_cons, List.map_nil, List.mem_singleton] at hb
        subst hb
        obtain ⟨x, hx, rfl⟩ := List.mem_map.1 ha
        exact hfresh (hseen x hx)
      · intro x hx
        rcases List.mem_append.1 hx with h | h
        · exact List.mem_cons_of_mem _ (hseen x h)
        · simp only [List.mem_singleton] at h
          subst h
          exact List.mem_cons_self _ _
    · rw [if_neg hg]
      exact ⟨hnd, fun x hx => check_seen_mono mapLower st.dedup y _ (hseen x hx)⟩

theorem processAll_keeps_distinct (mapLower : Str → Str) (net : Net) (p : Pipeline)
    (records : List ScanRecord) :
    ∀ st : RunState, st.dedup.disableDedup = false → (st.written.map (·.URL)).Nodup →
      (∀ x ∈ st.written, x.URL ∈ st.dedup.seen) →
      ((p.processAll mapLower net st records).written.map (·.URL)).Nodup := by
  induction records with
  | nil => intro st _ hnd _; exact hnd
  | cons r rs ih =>
    intro st hd hnd hseen
    obtain ⟨h1, h2, h3⟩ := processRecord_keeps_distinct mapLower net p st r hd hnd hseen
    exact ih _ h1 h2 h3

/-- C9: with dedup enabled, whatever records one run pushes through
`processRecord` with its one deduplicator, the URLs of the records written to
the sink are pairwise distinct. -/
theorem written_urls_pairwise_distinct (mapLower : Str → Str) (net : Net) (p : Pipeline)
    (target : Str) (wildcard : Bool) (records : List ScanRecord) :
    ((p.processAll mapLower net { dedup := Dedup.New mapLower target wildcard false }
        records).written.map (·.URL)).Nodup := by
  apply processAll_keeps_distinct
  · rfl
  · exact List.nodup_nil
  · intro x hx
    simp at hx

/-! ## The end-to-end scenario -/

/-- C8: target `example.com`, wildcard on, dedup on, liveness gate disabled.
Processing `http://a.example.com/x`, `http://a.EXAMPLE.com/x#frag` and
`http://b.other.com/y` in this order writes one record, with URL
`http://a.example.com/x`: the second normalizes to the same string and is
dropped as already seen, the third is dropped as out of scope. -/
theorem end_to_end_one_record (mapLower : Str → Str) (net : Net) (filter : Engine)
    (notify jsScanner : Bool) (s1 s2 s3 : Str) :
    (Pipeline.processAll mapLower net ⟨Checker.New [], filter, notify, jsScanner⟩
        { dedup := Dedup.New mapLower (bs "example.com") true false }
        [ { URL := bs "http://a.example.com/x", Source := s1 },
          { URL := bs "http://a.EXAMPLE.com/x#frag", Source := s2 },
          { URL := bs "http://b.other.com/y", Source := s3 } ]).written =
      [ { URL := bs "http://a.example.com/x", Source := s1, StatusCode := 0,
          Category := filter.Classify mapLower (bs "http://a.example.com/x") } ] ∧
    Normalize mapLower (bs "http://a.EXAMPLE.com/x#frag") =
      Normalize mapLower (bs "http://a.example.com/x") ∧
    (Dedup.checkAll mapLower (Dedup.New mapLower (bs "example.com") true false)
      [bs "http://a.example.com/x", bs "http://a.example.com/x"]).1 = [Pass, Drop] ∧
    Normalize mapLower (bs "http://b.other.com/y") = some (bs "http://b.other.com/y") ∧
    (Parse (bs "http://b.other.com/y")).map (·.Host) = some (bs "b.other.com") ∧
    (Dedup.New mapLower (bs "example.com") true false).inScope mapLower (bs "b.other.com")
      = false := by
  have hN1 : Normalize mapLower (bs "http://a.example.com/x") =
      some (bs "http://a.example.com/x") := rfl
  have hN2 : Normalize mapLower (bs "http://a.EXAMPLE.com/x#frag") =
      some (bs "http://a.example.com/x") := rfl
  have hN3 : Normalize mapLower (bs "http://b.other.com/y") =
      some (bs "http://b.other.com/y") := rfl
  have hD1 : Dedup.Check mapLower (Dedup.New mapLower (bs "example.com") true false)
      (bs "http://a.example.com/x") =
      (Pass, { Dedup.New mapLower (bs "example.com") true false with
                seen := [bs "http://a.example.com/x"] }) := rfl
  have hD2 : Dedup.Check mapLower
      { Dedup.New mapLower (bs "example.com") true false with
        seen := [bs "http://a.example.com/x"] } (bs "http://a.example.com/x") =
      (Drop, { Dedup.New mapLower (bs "example.com") true false with
                seen := [bs "http://a.example.com/x"] }) := rfl
  have hD3 : Dedup.Check mapLower
      { Dedup.New mapLower (bs "example.com") true false with
        seen := [bs "http://a.example.com/x"] } (bs "http://b.other.com/y") =
      (Drop, { Dedup.New mapLower (bs "example.com") true false with
                seen := [bs "http://a.example.com/x"] }) := rfl
  have hC : ∀ y, (Checker.New []).Check net y = (true, 0, []) := fun _ => rfl
  have h1w : (Pipeline.processRecord mapLower net ⟨Checker.New [], filter, notify, jsScanner⟩
      { dedup := Dedup.New mapLower (bs "example.com") true false }
      { URL := bs "http://a.example.com/x", Source := s1 }).written =
      [ { URL := bs "http://a.example.com/x", Source := s1, StatusCode := 0,
          Category := filter.Classify mapLower (bs "http://a.example.com/x") } ] := by
    rw [processRecord_written, hN1]
    simp only [hD1, hC, and_self, if_true, List.nil_append]
  have h1d : (Pipeline.processRecord mapLower net ⟨Checker.New [], filter, notify, jsScanner⟩
      { dedup := Dedup.New mapLower (bs "example.com") true false }
      { URL := bs "http://a.example.com/x", Source := s1 }).dedup =
      { Dedup.New mapLower (bs "example.com") true false with
        seen := [bs "http://a.example.com/x"] } := by
    rw [processRecord_dedup, hN1]
    simp only [hD1]
  refine ⟨?_, by rw [hN1, hN2], ?_, hN3, rfl, rfl⟩
  · simp only [Pipeline.processAll, List.foldl]
    rw [processRecord_written, hN3]
    simp only
    rw [processRecord_dedup, hN2]
    simp only [h1d, hD2, hD3, Bool.false_eq_true, false_and, if_false]
    rw [processRecord_written, hN2]
    simp only [h1d, hD2, Bool.false_eq_true, false_and, if_false]
    exact h1w
  · simp only [Dedup.checkAll, hD1, hD2]

/-! ## Normalizing twice -/

/-- C4, at the input `example.com/path#http://other`: the raw string holds
`://` (in its fragment), so no scheme is prepended and `Normalize` returns
`example.com/path`; that result holds no `://`, so normalizing it prepends
`http://` and returns `http://example.com/path`, a different string. -/
theorem normalize_twice_differs (mapLower : Str → Str) :
    Normalize mapLower (bs "example.com/path#http://other") = some (bs "example.com/path") ∧
    Normalize mapLower (bs "example.com/path") = some (bs "http://example.com/path") ∧
    bs "http://example.com/path" ≠ bs "example.com/path" :=
  ⟨rfl, rfl, by decide⟩

/-! ## The liveness probe -/

/-- C11: with the gate enabled, when the probe ends with a response of status
`s` (the answer to HEAD if that is not 405, else the answer to the GET that
follows a failed or 405 HEAD), `Check` passes exactly when `s` is in the
accept-set, and returns `s` as status code whether it passes or not. -/
theorem check_passes_iff_status_accepted (net : Net) (c : Checker) (url : Str) (s : Int)
    (he : c.enabled = true)
    (hfinal : (net.head url = .resp s ∧ s ≠ 405) ∨
      ((net.head url = .err ∨ net.head url = .resp 405) ∧ net.get url = .resp s)) :
    ((c.Check net url).1 = true ↔ s ∈ c.matchCodes) ∧ (c.Check net url).2.1 = s := by
  unfold Checker.Check
  rcases hfinal with ⟨hh, hne⟩ | ⟨hh | hh, hg⟩
  · simp [he, hh, hne]
  · simp [he, hh, hg]
  · simp [he, hh, hg]

theorem check_passes_iff_status_accepted_witness :
    ((Checker.Check ⟨fun _ => .resp 405, fun _ => .resp 403⟩
        (Checker.New [bs "200", bs "403"]) (bs "http://a.example.com/x")).1 = true ↔
      (403 : Int) ∈ (Checker.New [bs "200", bs "403"]).matchCodes) ∧
    (Checker.Check ⟨fun _ => .resp 405, fun _ => .resp 403⟩
        (Checker.New [bs "200", bs "403"]) (bs "http://a.example.com/x")).2.1 = 403 :=
  check_passes_iff_status_accepted ⟨fun _ => .resp 405, fun _ => .resp 403⟩
    (Checker.New [bs "200", bs "403"]) (bs "http://a.example.com/x") 403 rfl
    (Or.inr ⟨Or.inr rfl, rfl⟩)

/-- C12: with the gate enabled, `Check` sends a GET exactly when the HEAD failed
or answered 405; when HEAD answers another status, that status decides the
result and HEAD is the only request; when the GET is sent and fails, `Check`
returns `(false, 0)`. -/
theorem check_get_fallback (net : Net) (c : Checker) (url : Str) (he : c.enabled = true) :
    ((Method.GET, url) ∈ (c.Check net url).2.2 ↔
      (net.head url = .err ∨ net.head url = .resp 405)) ∧
    (∀ s, net.head url = .resp s → s ≠ 405 →
      c.Check net url = (decide (s ∈ c.matchCodes), s, [(Method.HEAD, url)])) ∧
    ((Method.GET, url) ∈ (c.Check net url).2.2 → net.get url = .err →
      (c.Check net url).1 = false ∧ (c.Check net url).2.1 = 0) := by
  unfold Checker.Check
  cases hh : net.head url with
  | err =>
    cases hg : net.get url <;> simp [he]
  | resp code =>
    by_cases h405 : code = 405
    · subst h405
      cases hg : net.get url <;> simp [he]
    · cases hg : net.get url <;> simp [he, h405]

theorem check_get_fallback_witness :
    (Checker.Check ⟨fun _ => .err, fun _ => .err⟩ (Checker.New [bs "200"])
        (bs "http://a.example.com/x")) =
      (false, 0, [(Method.HEAD, bs "http://a.example.com/x"),
                  (Method.GET, bs "http://a.example.com/x")]) ∧
    (Method.GET, bs "http://a.example.com/x") ∈
      (Checker.Check ⟨fun _ => .err, fun _ => .err⟩ (Checker.New [bs "200"])
        (bs "http://a.example.com/x")).2.2 :=
  ⟨rfl, (check_get_fallback ⟨fun _ => .err, fun _ => .err⟩ (Checker.New [bs "200"])
    (bs "http://a.example.com/x") rfl).1.2 (Or.inl rfl)⟩

/-! ## The source manager -/

theorem allowListHas_iff (name : Str) (l : List Str) : allowListHas name l = true ↔ name ∈ l := by
  induction l with
  | nil => simp [allowListHas]
  | cons s rest ih =>
    unfold allowListHas
    by_cases h : s = name
    · simp [h]
    · have h2 : ¬ name = s := fun e => h e.symm
      simp [h, h2, ih]

theorem isSourceEnabled_iff (m : Manager) (name : Str) :
    m.isSourceEnabled name = true ↔ (m.allow = [] ∨ name ∈ m.allow) := by
  unfold Manager.isSourceEnabled
  cases hl : m.allow with
  | nil => simp
  | cons s rest => simp [allowListHas_iff]

theorem mem_startLoop_iff (m : Manager) (keys : ApiKeys) (src : Source) (l : List Source) :
    src ∈ m.startLoop keys l ↔
      src ∈ l ∧ m.isSourceEnabled src.Name = true ∧
        (src.NeedsKey = true → m.hasKey src.Name keys = true) := by
  induction l with
  | nil => simp [Manager.startLoop]
  | cons x rest ih =>
    unfold Manager.startLoop
    by_cases h1 : m.isSourceEnabled x.Name = true
    · by_cases h2 : x.NeedsKey = true ∧ m.hasKey x.Name keys = false
      · have hx : ¬ (x.NeedsKey = true → m.hasKey x.Name keys = true) := by
          intro h; rw [h h2.1] at h2; exact absurd h2.2 (by simp)
        simp only [h1, h2, Bool.not_true, Bool.false_eq_true, if_false, Bool.not_false,
          and_self, if_true, ih, List.mem_cons]
        constructor
        · rintro ⟨h, h3, h4⟩; exact ⟨Or.inr h, h3, h4⟩
        · rintro ⟨h | h, h3, h4⟩
          · subst h; exact absurd h4 hx
          · exact ⟨h, h3, h4⟩
      · have hx : x.NeedsKey = true → m.hasKey x.Name keys = true := by
          intro h
          cases hk : m.hasKey x.Name keys
          · exact absurd ⟨h, hk⟩ h2
          · rfl
        have h2' : ¬ (x.NeedsKey = true ∧ (!m.hasKey x.Name keys) = true) := by
          simpa using h2
        simp only [h1, Bool.not_true, Bool.false_eq_true, if_false, h2', List.mem_cons, ih]
        constructor
        · rintro (h | ⟨h, h3, h4⟩)
          · subst h; exact ⟨Or.inl rfl, h1, hx⟩
          · exact ⟨Or.inr h, h3, h4⟩
        · rintro ⟨h | h, h3, h4⟩
          · exact Or.inl h
          · exact Or.inr ⟨h, h3, h4⟩
    · have h1' : m.isSourceEnabled x.Name = false := by simpa using h1
      simp only [h1', Bool.not_false, if_true, ih, List.mem_cons]
      constructor
      · rintro ⟨h, h3, h4⟩; exact ⟨Or.inr h, h3, h4⟩
      · rintro ⟨h | h, h3, h4⟩
        · subst h; rw [h1'] at h3; exact absurd h3 (by simp)
        · exact ⟨h, h3, h4⟩

/-- C13: `isSourceEnabled(name)` holds exactly when the allow-list is empty or
holds `name`; every source that `StartAll` starts is registered and, when the
allow-list is not empty, is named in it. -/
theorem isSourceEnabled_iff_allowed (m : Manager) (keys : ApiKeys) (name : Str) :
    (m.isSourceEnabled name = true ↔ (m.allow = [] ∨ name ∈ m.allow)) ∧
    (∀ src ∈ (m.StartAll keys).1, src ∈ m.sources ∧ (m.allow = [] ∨ src.Name ∈ m.allow)) ∧
    (∀ src ∈ m.sources, m.allow ≠ [] → src.Name ∉ m.allow → src ∉ (m.StartAll keys).1) := by
  refine ⟨isSourceEnabled_iff m name, ?_, ?_⟩
  · intro src hsrc
    obtain ⟨h1, h2, _⟩ := (mem_startLoop_iff m keys src m.sources).1 hsrc
    exact ⟨h1, (isSourceEnabled_iff m src.Name).1 h2⟩
  · intro src _ hne hnot hsrc
    obtain ⟨_, h2, _⟩ := (mem_startLoop_iff m keys src m.sources).1 hsrc
    rcases (isSourceEnabled_iff m src.Name).1 h2 with h | h
    · exact hne h
    · exact hnot h

/-- C14, at the input with no API key configured, an empty allow-list and the
five sources registered: `StartAll` skips `virustotal` and `urlscan` but starts
`otx` and `github`, which both need a key, and counts them as active;
`hasKey` has no case for them and answers true. -/
theorem startAll_starts_otx_without_key :
    AlienVault.NeedsKey = true ∧ GitHub.NeedsKey = true ∧
    (Manager.StartAll
        { allow := [], sources := [Wayback, VirusTotal, URLScan, AlienVault, GitHub] } {}).1 =
      [Wayback, AlienVault, GitHub] ∧
    (Manager.StartAll
        { allow := [], sources := [Wayback, VirusTotal, URLScan, AlienVault, GitHub] }
        {}).2.activeSources = 3 := by
  decide

/-- What `hasKey` does for each name: a registered source that needs a key and
is named `virustotal` or `urlscan` is skipped by `StartAll` when its API key is
empty, and the sources started are the ones counted as active; for a
key-requiring source of any other name the keys are not looked at. -/
theorem startAll_skips_listed_sources_without_key (m : Manager) (keys : ApiKeys) (src : Source)
    (hk : src.NeedsKey = true) :
    (src.Name = bs "virustotal" → keys.VirusTotal = [] → src ∉ (m.StartAll keys).1) ∧
    (src.Name = bs "urlscan" → keys.URLScan = [] → src ∉ (m.StartAll keys).1) ∧
    (m.StartAll keys).2.activeSources = m.activeSources + ((m.StartAll keys).1.length : Int) ∧
    (src.Name ≠ bs "virustotal" → src.Name ≠ bs "urlscan" → src ∈ m.sources →
      m.isSourceEnabled src.Name = true → src ∈ (m.StartAll keys).1) := by
  refine ⟨?_, ?_, rfl, ?_⟩
  · intro hn hkey hsrc
    obtain ⟨_, _, h3⟩ := (mem_startLoop_iff m keys src m.sources).1 hsrc
    have := h3 hk
    simp [Manager.hasKey, hn, hkey] at this
  · intro hn hkey hsrc
    obtain ⟨_, _, h3⟩ := (mem_startLoop_iff m keys src m.sources).1 hsrc
    have := h3 hk
    simp [Manager.hasKey, hn, hkey] at this
    exact absurd this.1 (by decide)
  · intro h1 h2 hmem hen
    refine (mem_startLoop_iff m keys src m.sources).2 ⟨hmem, hen, fun _ => ?_⟩
    simp [Manager.hasKey, h1, h2]

theorem startAll_skips_listed_sources_without_key_witness :
    VirusTotal ∉ (Manager.StartAll
        { allow := [], sources := [Wayback, VirusTotal, URLScan, AlienVault, GitHub] } {}).1 :=
  (startAll_skips_listed_sources_without_key
    { allow := [], sources := [Wayback, VirusTotal, URLScan, AlienVault, GitHub] } {} VirusTotal
    rfl).1 rfl rfl

/-! ## Dedup disabled -/

theorem checkAll_disabled (mapLower : Str → Str) (us : List Str) :
    ∀ d : Dedup, d.disableDedup = true → (Dedup.checkAll mapLower d us).2 = d := by
  induction us with
  | nil => intro d _; rfl
  | cons v us ih =>
    intro d hd
    have hst : (Dedup.Check mapLower d v).2 = d := by
      rcases check_state_cases mapLower d v with h | ⟨_, h, _, _⟩
      · exact h
      · rw [hd] at h; exact absurd h (by simp)
    simp only [Dedup.checkAll, hst]
    exact ih d hd

/-- C15: with dedup disabled, every call `Check(u)` on a URL that parses and is
in scope returns Pass and leaves the deduplicator as it was, whatever the
seen-set holds and whatever calls came before; no sequence of calls changes
the deduplicator. -/
theorem check_passes_always_when_dedup_disabled (mapLower : Str → Str) (d : Dedup) (u : Str)
    (url : URL) (hd : d.disableDedup = true) (hp : Parse u = some url)
    (hs : d.inScope mapLower url.Host = true) :
    Dedup.Check mapLower d u = (Pass, d) ∧
    (∀ us : List Str, (Dedup.checkAll mapLower d us).2 = d ∧
      Dedup.Check mapLower (Dedup.checkAll mapLower d us).2 u = (Pass, d)) ∧
    (∀ k, (Dedup.checkAll mapLower d (List.replicate k u)).1 = List.replicate k Pass) := by
  have h1 : Dedup.Check mapLower d u = (Pass, d) := by
    unfold Dedup.Check
    simp [hp, hs, hd]
  refine ⟨h1, fun us => ?_, fun k => ?_⟩
  · rw [checkAll_disabled mapLower us d hd]
    exact ⟨rfl, h1⟩
  · induction k with
    | zero => rfl
    | succ k ih =>
      simp only [List.replicate_succ, Dedup.checkAll, h1]
      rw [ih]

theorem check_passes_always_when_dedup_disabled_witness :
    (Dedup.checkAll id (Dedup.New id (bs "example.com") false true)
      (List.replicate 3 (bs "http://example.com/x"))).1 = [Pass, Pass, Pass] :=
  (check_passes_always_when_dedup_disabled id (Dedup.New id (bs "example.com") false true)
    (bs "http://example.com/x") { Scheme := bs "http", Host := bs "example.com", Path := bs "/x" }
    rfl (by decide) (by decide)).2.2 3

/-! ## Path cleaning, the config flag -/

/-- C18, at the input `http://example.com/a/../b`: `Normalize` returns the URL
with its dot segments in place, not `http://example.com/b`; `/./` and an
escaped `%2e%2e` are kept as well. -/
theorem normalize_keeps_dot_segments (mapLower : Str → Str) :
    Normalize mapLower (bs "http://example.com/a/../b") = some (bs "http://example.com/a/../b") ∧
    Normalize mapLower (bs "http://example.com/./b") = some (bs "http://example.com/./b") ∧
    Normalize mapLower (bs "http://example.com/a/%2e%2e/b") =
      some (bs "http://example.com/a/%2e%2e/b") ∧
    (Parse (bs "http://example.com/a/../b")).map (·.Path) = some (bs "/a/../b") :=
  ⟨rfl, rfl, rfl, rfl⟩

/-- C19, at the input `https://site.com/app.yml` with only the config flag on:
`Classify` returns `"none"`, not `"config"`; it never reads the flag, so the
category is the same with the flag on and off, and the config rule runs under
the sensitive flag alone. -/
theorem classify_config_flag_has_no_effect (mapLower : Str → Str) (cfg : FilterConfig) (u : Str) :
    (Engine.New ⟨false, false, false, false, false, false, true⟩).isConfig mapLower
        (bs "https://site.com/app.yml") = true ∧
    (Engine.New ⟨false, false, false, false, false, false, true⟩).Classify mapLower
        (bs "https://site.com/app.yml") = bs "none" ∧
    (Engine.New { cfg with Config := true }).Classify mapLower u =
      (Engine.New { cfg with Config := false }).Classify mapLower u ∧
    (cfg.SensitiveUrls = false → (Engine.New cfg).Classify mapLower u ≠ bs "config") := by
  refine ⟨rfl, rfl, rfl, ?_⟩
  intro hs
  rw [classify_eq_firstMatch]
  simp only [cascade, Engine.New, hs, firstMatch_cons, firstMatch_nil, Bool.false_and,
    Bool.false_eq_true, if_false]
  repeat' split
  all_goals decide

/-! ## Retry with backoff -/

theorem withRetryLoop_all_fail (operation : Nat → Option Str) (maxRetries : Int) :
    ∀ (fuel i : Nat) (err : Option Str) (sleeps : List Int),
      (∀ j, i ≤ j → j < i + fuel → operation j ≠ none) →
      withRetryLoop operation maxRetries fuel i err sleeps =
        { err := some ⟨maxRetries, if fuel = 0 then err else operation (i + fuel - 1)⟩,
          calls := i + fuel,
          sleeps := sleeps ++ (List.range' i fuel).map backoff } := by
  intro fuel
  induction fuel with
  | zero => intro i err sleeps _; simp [withRetryLoop]
  | succ fuel ih =>
    intro i err sleeps h
    have hi := h i (Nat.le_refl _) (by omega)
    cases hop : operation i with
    | none => exact absurd hop hi
    | some e =>
      simp only [withRetryLoop, hop]
      rw [ih (i + 1) (some e) _ (fun j h1 h2 => h j (by omega) (by omega))]
      have hidx : i + 1 + fuel - 1 = i + fuel := by omega
      have hidx2 : i + (fuel + 1) - 1 = i + fuel := by omega
      simp only [hidx, hidx2, List.range'_succ, List.map_cons, List.append_assoc,
        List.singleton_append, Nat.add_one_ne_zero, if_false]
      by_cases hf : fuel = 0
      · subst hf
        simp [hop, Nat.add_assoc, Nat.add_comm 1]
      · simp [hf, Nat.add_assoc, Nat.add_comm 1]

theorem withRetryLoop_first_success (operation : Nat → Option Str) (maxRetries : Int) :
    ∀ (fuel i k : Nat) (err : Option Str) (sleeps : List Int),
      i ≤ k → k < i + fuel → operation k = none →
      (∀ j, i ≤ j → j < k → operation j ≠ none) →
      withRetryLoop operation maxRetries fuel i err sleeps =
        { err := none, calls := k + 1,
          sleeps := sleeps ++ (List.range' i (k - i)).map backoff } := by
  intro fuel
  induction fuel with
  | zero => intro i k err sleeps h1 h2; omega
  | succ fuel ih =>
    intro i k err sleeps h1 h2 hk hfail
    by_cases hik : i = k
    · subst hik
      simp [withRetryLoop, hk]
    · have hi := hfail i (Nat.le_refl _) (by omega)
      cases hop : operation i with
      | none => exact absurd hop hi
      | some e =>
        simp only [withRetryLoop, hop]
        rw [ih (i + 1) k (some e) _ (by omega) (by omega) hk
          (fun j h3 h4 => hfail j (by omega) h4)]
        have hlen : k - i = (k - (i + 1)) + 1 := by omega
        rw [hlen, List.range'_succ]
        simp

set_option maxRecDepth 100000 in
theorem backoff_exact : ∀ i, i < 34 → backoff i = 2 ^ i * Second := by
  decide

/-- C20, at the input of an operation that always fails and 35 retries: the
delay is an `int64` count of nanoseconds, and after the failed invocation
number 34 the product `2^34 * 10^9` wraps to a negative duration instead of
`2^34` seconds. -/
theorem backoff_wraps_at_34 :
    (WithRetry (fun _ => some (bs "timeout")) 35).sleeps[34]? = some (-1266874889709551616) ∧
    (-1266874889709551616 : Int) ≠ 2 ^ 34 * Second := by
  decide

/-- The retry loop away from the overflow: `WithRetry(op, n)` with `n ≥ 1`
invokes `op` at most `n` times; after the first successful invocation, number
`k`, it returns nil having invoked `op` `k + 1` times; it returns a non-nil error exactly when all `n`
invocations fail, and the error then wraps the last failure; it sleeps once
after each failed invocation, and after failed invocation number `i ≤ 33` the
delay is `2^i` seconds. -/
theorem withRetry_bounded_backoff (operation : Nat → Option Str) (n : Nat) (hn : 1 ≤ n) :
    (WithRetry operation n).calls ≤ n ∧
    (∀ k, k < n → operation k = none → (∀ j, j < k → operation j ≠ none) →
      WithRetry operation n =
        { err := none, calls := k + 1, sleeps := (List.range k).map backoff }) ∧
    ((WithRetry operation n).err ≠ none ↔ ∀ j, j < n → operation j ≠ none) ∧
    ((∀ j, j < n → operation j ≠ none) →
      WithRetry operation n =
        { err := some ⟨n, operation (n - 1)⟩, calls := n,
          sleeps := (List.range n).map backoff }) ∧
    (∀ i, i < (WithRetry operation n).sleeps.length →
      (WithRetry operation n).sleeps[i]? = some (backoff i) ∧ operation i ≠ none) ∧
    (∀ i, i ≤ 33 → backoff i = 2 ^ i * Second) := by
  have hsucc : ∀ k, k < n → operation k = none → (∀ j, j < k → operation j ≠ none) →
      WithRetry operation n =
        { err := none, calls := k + 1, sleeps := (List.range k).map backoff } := by
    intro k hk hop hfail
    unfold WithRetry
    rw [Int.toNat_ofNat,
      withRetryLoop_first_success operation n n 0 k none [] (Nat.zero_le _) (by omega) hop
        (fun j _ h => hfail j h)]
    simp [List.range_eq_range']
  have hfail : (∀ j, j < n → operation j ≠ none) →
      WithRetry operation n =
        { err := some ⟨n, operation (n - 1)⟩, calls := n,
          sleeps := (List.range n).map backoff } := by
    intro h
    unfold WithRetry
    rw [Int.toNat_ofNat,
      withRetryLoop_all_fail operation n n 0 none [] (fun j _ h2 => h j (by omega))]
    have hn0 : n ≠ 0 := by omega
    simp [hn0, List.range_eq_range']
  have hcases : (∀ j, j < n → operation j ≠ none) ∨
      ∃ k, k < n ∧ operation k = none ∧ ∀ j, j < k → operation j ≠ none := by
    by_cases hall : ∀ j, j < n → operation j ≠ none
    · exact Or.inl hall
    · right
      have hex : ∃ k, k < n ∧ operation k = none := by
        by_contra hne
        exact hall (fun j hj hj2 => hne ⟨j, hj, hj2⟩)
      refine ⟨Nat.find hex, (Nat.find_spec hex).1, (Nat.find_spec hex).2, fun j hj hj2 => ?_⟩
      have hlt : j < n := Nat.lt_trans hj (Nat.find_spec hex).1
      exact Nat.find_min hex hj ⟨hlt, hj2⟩
  refine ⟨?_, hsucc, ?_, hfail, ?_, fun i hi => backoff_exact i (by omega)⟩
  · rcases hcases with h | ⟨k, hk, hop, hf⟩
    · rw [hfail h]
    · rw [hsucc k hk hop hf]
      exact hk
  · constructor
    · intro herr
      rcases hcases with h | ⟨k, hk, hop, hf⟩
      · exact h
      · rw [hsucc k hk hop hf] at herr
        exact absurd rfl herr
    · intro h
      rw [hfail h]
      simp
  · intro i hi
    rcases hcases with h | ⟨k, hk, hop, hf⟩
    · rw [hfail h] at hi ⊢
      simp only [List.length_map, List.length_range] at hi
      refine ⟨?_, h i hi⟩
      simp [List.getElem?_map, List.getElem?_range hi]
    · rw [hsucc k hk hop hf] at hi ⊢
      simp only [List.length_map, List.length_range] at hi
      refine ⟨?_, hf i hi⟩
      simp [List.getElem?_map, List.getElem?_range hi]

theorem withRetry_bounded_backoff_witness :
    WithRetry (fun k => if k < 2 then some (bs "timeout") else none) 3 =
      { err := none, calls := 3, sleeps := [1000000000, 2000000000] } :=
  ((withRetry_bounded_backoff (fun k => if k < 2 then some (bs "timeout") else none) 3
    (by decide)).2.1 2 (by decide) (by decide) (by decide)).trans (by decide)

/-! ## Lower-casing and default ports on unusual inputs -/

/-- C16, at the input `/%2FEVIL.com/a|b?u=http://x.com`: the raw string holds
`://`, so nothing is prepended; it parses with an empty host and the path
`//EVIL.com/a|b`; the `|` makes `String` print the path re-encoded, and
`Normalize` returns `//EVIL.com/a%7Cb?u=http://x.com`, which parses again with
the host `EVIL.com`, upper-case letters included, and the path `/a|b`. -/
theorem normalize_result_host_not_lower (mapLower : Str → Str) :
    (Parse (bs "/%2FEVIL.com/a|b?u=http://x.com")).map (fun u => (u.Host, u.Path)) =
      some ([], bs "//EVIL.com/a|b") ∧
    Normalize mapLower (bs "/%2FEVIL.com/a|b?u=http://x.com") =
      some (bs "//EVIL.com/a%7Cb?u=http://x.com") ∧
    (Parse (bs "//EVIL.com/a%7Cb?u=http://x.com")).map (fun u => (u.Host, u.Path)) =
      some (bs "EVIL.com", bs "/a|b") ∧
    (bs "EVIL.com").any isUpperAZ = true :=
  ⟨rfl, rfl, rfl, rfl⟩

/-- C17, at the input `http://[::1]:80/`: the host `[::1]:80` splits at `:` into
four parts, not two, so `removeDefaultPort` returns it unchanged and
`Normalize` keeps the default port, while `http://[::1]/` normalizes to
itself; the same for `https` and `:443`.  Hosts with a single colon behave as
claimed. -/
theorem normalize_keeps_default_port_ipv6 (mapLower : Str → Str) :
    SplitByte (ch ':') (bs "[::1]:80") = [bs "[", [], bs "1]", bs "80"] ∧
    removeDefaultPort (bs "http") (bs "[::1]:80") = bs "[::1]:80" ∧
    Normalize mapLower (bs "http://[::1]:80/") = some (bs "http://[::1]:80/") ∧
    Normalize mapLower (bs "http://[::1]/") = some (bs "http://[::1]/") ∧
    Normalize mapLower (bs "https://[2001:db8::1]:443/x") =
      some (bs "https://[2001:db8::1]:443/x") ∧
    Normalize mapLower (bs "https://[2001:db8::1]/x") = some (bs "https://[2001:db8::1]/x") ∧
    Normalize mapLower (bs "http://example.com:80/x") = some (bs "http://example.com/x") ∧
    Normalize mapLower (bs "https://example.com:443/x") = some (bs "https://example.com/x") ∧
    Normalize mapLower (bs "http://example.com:443/x") = some (bs "http://example.com:443/x") ∧
    Normalize mapLower (bs "https://example.com:80/x") = some (bs "https://example.com:80/x") ∧
    Normalize mapLower (bs "http://example.com:8080/x") =
      some (bs "http://example.com:8080/x") :=
  ⟨rfl, rfl, rfl, rfl, rfl, rfl, rfl, rfl, rfl, rfl, rfl⟩

/-! ## Target lists -/

theorem hasPrefix_hash (s : Str) : HasPrefix s (bs "#") = true ↔ s.head? = some (ch '#') := by
  cases s with
  | nil => decide
  | cons c rest =>
    have h : HasPrefix (c :: rest) (bs "#") = (ch '#' == c) := by
      simp [HasPrefix, bs, List.isPrefixOf]
    rw [h]
    simp only [List.head?_cons, Option.some.injEq, beq_iff_eq]
    exact eq_comm

theorem parseTargetLoop_eq (lines : List Str) :
    ∀ targets, parseTargetLoop lines targets = targets ++ validTargets lines := by
  induction lines with
  | nil => intro targets; simp [parseTargetLoop, validTargets]
  | cons line rest ih =>
    intro targets
    unfold parseTargetLoop
    have hv : validTargets (line :: rest) =
        (if decide (TrimSpace line ≠ []) && decide ((TrimSpace line).head? ≠ some (ch '#')) &&
            decide (sanitizeTarget line ≠ []) then [sanitizeTarget line] else []) ++
          validTargets rest := by
      unfold validTargets
      rw [List.filter_cons]
      split <;> simp
    rw [hv]
    by_cases he : TrimSpace line = []
    · simp [isEmpty, he, ih]
    · by_cases hc : (TrimSpace line).head? = some (ch '#')
      · have : isComment line = true := (hasPrefix_hash _).2 hc
        simp [this, hc, ih]
      · have hc2 : isComment line = false := by
          cases h : isComment line
          · rfl
          · exact absurd ((hasPrefix_hash _).1 h) hc
        by_cases hs : sanitizeTarget line = []
        · simp [isEmpty, he, hc2, hs, ih]
        · simp [isEmpty, he, hc, hc2, hs, ih]

theorem scanLines_short :
    ∀ pieces : List Str, (∀ piece ∈ pieces, piece.length < MaxScanTokenSize) →
      scanLines pieces = (linesOf pieces, false) := by
  intro pieces
  induction pieces with
  | nil => intro _; rfl
  | cons piece rest ih =>
    intro h
    have h1 : ¬ MaxScanTokenSize ≤ piece.length :=
      Nat.not_le.2 (h piece (List.mem_cons_self _ _))
    have h2 := ih (fun q hq => h q (List.mem_cons_of_mem _ hq))
    unfold scanLines linesOf
    rw [if_neg h1, h2]
    split <;> rfl

theorem scanLines_long :
    ∀ pieces : List Str, (∃ piece ∈ pieces, MaxScanTokenSize ≤ piece.length) →
      (scanLines pieces).2 = true := by
  intro pieces
  induction pieces with
  | nil => intro h; obtain ⟨_, hq, _⟩ := h; simp at hq
  | cons piece rest ih =>
    intro h
    unfold scanLines
    by_cases h1 : MaxScanTokenSize ≤ piece.length
    · rw [if_pos h1]
    · rw [if_neg h1]
      obtain ⟨q, hq, hlen⟩ := h
      have hrest : q ∈ rest := by
        rcases List.mem_cons.1 hq with e | e
        · rw [e] at hlen
          exact absurd hlen h1
        · exact e
      have hne : ¬ (rest = [] ∧ piece = []) := by
        intro hc
        rw [hc.1] at hrest
        simp at hrest
      rw [if_neg hne]
      exact ih ⟨q, hrest, hlen⟩

theorem parseTargetList_short (content : Str)
    (h : ∀ piece ∈ SplitByte 10 content, piece.length < MaxScanTokenSize) :
    ParseTargetList (some content) =
      if validTargets (fileLines content) = [] then none
      else some (validTargets (fileLines content)) := by
  unfold ParseTargetList fileLines
  simp only [scanLines_short _ h, parseTargetLoop_eq, List.nil_append, Bool.false_eq_true,
    if_false]
  by_cases hv : validTargets (linesOf (SplitByte 10 content)) = []
  · simp [hv]
  · have hl : (validTargets (linesOf (SplitByte 10 content))).length ≠ 0 :=
      fun e => hv (List.length_eq_zero.1 e)
    simp [hv, hl]

theorem parseTargetList_long (content : Str)
    (h : ∃ piece ∈ SplitByte 10 content, MaxScanTokenSize ≤ piece.length) :
    ParseTargetList (some content) = none := by
  unfold ParseTargetList
  simp only [scanLines_long _ h, if_true]

theorem splitByte_of_not_mem (c : Byte) : ∀ s : Str, c ∉ s → SplitByte c s = [s] := by
  intro s
  induction s with
  | nil => intro _; rfl
  | cons x s ih =>
    intro h
    have hx : x ≠ c := fun e => h (by rw [e]; exact List.mem_cons_self _ _)
    have hs : c ∉ s := fun e => h (List.mem_cons_of_mem _ e)
    simp [SplitByte, hx, ih hs]

/-- C23 fails as stated, at the file that holds the line `example.com` and
then a line of 65536 bytes `a`: both lines are valid targets, but the scanner
stops at the long line with `ErrTooLong` and `ParseTargetList` returns the
error and no targets. -/
theorem parseTargetList_errors_on_long_line :
    bs "example.com" ∈
      validTargets (fileLines (bs "example.com" ++ 10 :: List.replicate 65536 (ch 'a'))) ∧
    ParseTargetList (some (bs "example.com" ++ 10 :: List.replicate 65536 (ch 'a'))) = none := by
  have hrep : SplitByte 10 (List.replicate 65536 (ch 'a')) = [List.replicate 65536 (ch 'a')] := by
    apply splitByte_of_not_mem
    intro hm
    have := List.eq_of_mem_replicate hm
    revert this
    decide
  have hsplit : SplitByte 10 (bs "example.com" ++ 10 :: List.replicate 65536 (ch 'a')) =
      [bs "example.com", List.replicate 65536 (ch 'a')] := by
    have hgen : ∀ x : Str, SplitByte 10 (bs "example.com" ++ 10 :: x) =
        bs "example.com" :: SplitByte 10 x := fun _ => rfl
    rw [hgen, hrep]
  constructor
  · have hl : fileLines (bs "example.com" ++ 10 :: List.replicate 65536 (ch 'a')) =
        bs "example.com" :: linesOf [List.replicate 65536 (ch 'a')] := by
      unfold fileLines
      rw [hsplit]
      rfl
    rw [hl]
    unfold validTargets
    refine List.mem_map.2 ⟨bs "example.com", List.mem_filter.2 ⟨List.mem_cons_self _ _, ?_⟩, ?_⟩
    · decide
    · decide
  · apply parseTargetList_long
    refine ⟨List.replicate 65536 (ch 'a'), ?_, ?_⟩
    · rw [hsplit]
      exact List.mem_cons_of_mem _ (List.mem_cons_self _ _)
    · rw [List.length_replicate]
      decide

/-- C23, amended: on a file all of whose lines are shorter than the 64 KiB
buffer of the scanner, `ParseTargetList` returns, in file order, the sanitized
form of exactly the lines that are not blank, do not start with `#` after
trimming, and sanitize to a non-empty string, and it returns the error exactly
when there is no such line.  On a file with a line of 64 KiB or more, and when
there is no file, it returns the error.  The seven files of
`TestParseTargetList` come out as the test expects. -/
theorem parseTargetList_eq_validTargets (content : Str) :
    ((∀ piece ∈ SplitByte 10 content, piece.length < MaxScanTokenSize) →
      (ParseTargetList (some content) =
        if validTargets (fileLines content) = [] then none
        else some (validTargets (fileLines content))) ∧
      (ParseTargetList (some content) = none ↔ validTargets (fileLines content) = [])) ∧
    ((∃ piece ∈ SplitByte 10 content, MaxScanTokenSize ≤ piece.length) →
      ParseTargetList (some content) = none) ∧
    ParseTargetList none = none ∧
    ParseTargetList (some (bs "example.com" ++ 10 :: bs "google.com" ++ 10 :: bs "github.com")) =
      some [bs "example.com", bs "google.com", bs "github.com"] ∧
    ParseTargetList (some (bs "# Main targets" ++ 10 :: bs "example.com" ++
        10 :: bs "# Bug bounty program" ++ 10 :: bs "*.bugcrowd.com" ++ 10 :: bs "github.com")) =
      some [bs "example.com", bs "*.bugcrowd.com", bs "github.com"] ∧
    ParseTargetList (some (bs "example.com" ++ 10 :: 10 :: bs "google.com" ++ [10, 10])) =
      some [bs "example.com", bs "google.com"] ∧
    ParseTargetList (some (bs "  example.com  " ++ 10 :: bs "  google.com" ++
        10 :: bs "github.com  ")) =
      some [bs "example.com", bs "google.com", bs "github.com"] ∧
    ParseTargetList (some (bs "https://example.com" ++ 10 :: bs "http://google.com" ++
        10 :: bs "github.com/")) =
      some [bs "example.com", bs "google.com", bs "github.com"] ∧
    ParseTargetList (some [10, 10, 10]) = none ∧
    ParseTargetList (some (bs "# Comment 1" ++ 10 :: bs "# Comment 2")) = none := by
  refine ⟨?_, parseTargetList_long content, rfl, by decide, by decide, by decide, by decide,
    by decide, by decide, by decide⟩
  intro h
  have h1 := parseTargetList_short content h
  refine ⟨h1, ?_⟩
  rw [h1]
  by_cases hv : validTargets (fileLines content) = [] <;> simp [hv]

theorem parseTargetList_eq_validTargets_witness :
    ParseTargetList (some (bs "# targets" ++ 10 :: bs "https://example.com/" ++ [13, 10])) =
      some [bs "example.com"] ∧
    validTargets (fileLines (bs "# targets" ++ 10 :: bs "https://example.com/" ++ [13, 10])) =
      [bs "example.com"] :=
  ⟨((parseTargetList_eq_validTargets
      (bs "# targets" ++ 10 :: bs "https://example.com/" ++ [13, 10])).1 (by decide)).1.trans
      (by decide), by decide⟩

/-- C25, at the input `localhost`: the string holds no dot, and
`sanitizeTarget` returns it unchanged instead of the empty string; the only
validation the code performs is the length test. -/
theorem sanitizeTarget_accepts_dotless :
    ch '.' ∉ bs "localhost" ∧ sanitizeTarget (bs "localhost") = bs "localhost" ∧
    sanitizeTarget (bs "http://intranet/") = bs "intranet" := by
  decide

/-! ## Extension rules and the query string -/

/-- C29: the extension rules look at the end of the whole URL string: a URL
whose whole string (lower-cased) ends in none of the extensions and which no
substring rule matches is classified `"none"` under every flag setting with
params and js off, whatever its part before `?` ends in; with every other flag
on, `https://h/db.sql?x=1` is `"none"` while `https://h/db.sql` is
`"database"`. -/
theorem classify_extension_rules_use_whole_url (mapLower : Str → Str) (e : Engine) (u : Str)
    (hp : e.config.Params = false) (hj : e.config.JS = false)
    (hext : ∀ ext ∈ extensionSuffixes, HasSuffix (ToLower mapLower u) ext = false)
    (hsub : substringRuleMatches mapLower e u = false) :
    e.Classify mapLower u = bs "none" ∧
    (Engine.New ⟨true, false, false, true, true, true, true⟩).Classify mapLower
      (bs "https://h/db.sql?x=1") = bs "none" ∧
    (Engine.New ⟨true, false, false, true, true, true, true⟩).Classify mapLower
      (bs "https://h/db.sql") = bs "database" := by
  refine ⟨?_, rfl, rfl⟩
  simp only [substringRuleMatches, Bool.or_eq_false_iff] at hsub
  obtain ⟨⟨⟨⟨⟨⟨⟨h1, h2⟩, h3⟩, h4⟩, h5⟩, h6⟩, h7⟩, h8⟩ := hsub
  have hx : ∀ ext, ext ∈ extensionSuffixes → HasSuffix (ToLower mapLower u) ext = false := hext
  have hbak : e.isBackup mapLower u = false := by
    simp [Engine.isBackup, h6, hx (bs ".bak") (by decide), hx (bs ".old") (by decide),
      hx (bs ".swp") (by decide)]
  have hdb : e.isDatabase mapLower u = false := by
    simp [Engine.isDatabase, h7, hx (bs ".sql") (by decide), hx (bs ".db") (by decide),
      hx (bs ".dump") (by decide), hx (bs ".sqlite") (by decide)]
  have harc : e.isArchive mapLower u = false := by
    simp [Engine.isArchive, hx (bs ".zip") (by decide), hx (bs ".tar.gz") (by decide),
      hx (bs ".rar") (by decide)]
  have hlog : e.isLog mapLower u = false := by
    simp [Engine.isLog, h8, hx (bs ".log") (by decide)]
  have hpdf : e.isPDF mapLower u = false := by
    simp [Engine.isPDF, hx (bs ".pdf") (by decide)]
  have hdoc : e.isDoc mapLower u = false := by
    simp [Engine.isDoc, hx (bs ".doc") (by decide), hx (bs ".docx") (by decide),
      hx (bs ".txt") (by decide)]
  have hsheet : e.isSheet mapLower u = false := by
    simp [Engine.isSheet, hx (bs ".xls") (by decide), hx (bs ".xlsx") (by decide),
      hx (bs ".csv") (by decide)]
  rw [classify_eq_firstMatch]
  simp only [cascade, firstMatch_cons, firstMatch_nil, h1, h2, h3, h4, h5, hbak, hdb, harc, hlog,
    hpdf, hdoc, hsheet, hp, hj, Bool.and_false, Bool.false_and, Bool.false_eq_true, if_false]
  rfl

theorem classify_extension_rules_use_whole_url_witness :
    (Engine.New ⟨true, false, false, true, true, true, true⟩).Classify id
      (bs "https://h/db.sql?x=1") = bs "none" :=
  (classify_extension_rules_use_whole_url id
    (Engine.New ⟨true, false, false, true, true, true, true⟩) (bs "https://h/db.sql?x=1")
    rfl rfl (by decide) (by decide)).1

/-! ## A gate that accepts nothing -/

theorem check_fails_of_no_codes (net : Net) (c : Checker) (url : Str) (he : c.enabled = true)
    (hm : c.matchCodes = []) : (c.Check net url).1 = false := by
  unfold Checker.Check
  cases hh : net.head url with
  | err => cases hg : net.get url <;> simp [he, hm]
  | resp code =>
    by_cases h405 : code = 405
    · subst h405
      cases hg : net.get url <;> simp [he, hm]
    · simp [he, hm, h405]

theorem processAll_writes_nothing (mapLower : Str → Str) (net : Net) (p : Pipeline)
    (hfail : ∀ y, (p.checker.Check net y).1 = false) (records : List ScanRecord) :
    ∀ st : RunState, (p.processAll mapLower net st records).written = st.written := by
  induction records with
  | nil => intro st; rfl
  | cons r rs ih =>
    intro st
    simp only [Pipeline.processAll, List.foldl_cons]
    have := ih (p.processRecord mapLower net st r)
    simp only [Pipeline.processAll] at this
    rw [this, processRecord_written]
    cases hN : Normalize mapLower r.URL with
    | none => rfl
    | some y => simp [hfail y]

/-- C30: the gate is enabled exactly when the list of match codes is not
empty; when the list is not empty and `strconv.Atoi` accepts none of its
entries (as for `["abc"]`), the accept-set is empty, `Check` fails for every URL
and every probe outcome, and a run writes no record to the sink. -/
theorem check_rejects_all_when_no_code_is_an_integer (matchCodes : List Str) :
    ((Checker.New matchCodes).enabled = true ↔ matchCodes ≠ []) ∧
    (matchCodes ≠ [] → (∀ s ∈ matchCodes, Atoi s = none) →
      (Checker.New matchCodes).matchCodes = [] ∧
      (∀ (net : Net) (url : Str), ((Checker.New matchCodes).Check net url).1 = false) ∧
      (∀ (mapLower : Str → Str) (net : Net) (filter : Engine) (notify jsScanner : Bool)
          (st : RunState) (records : List ScanRecord),
        (Pipeline.processAll mapLower net ⟨Checker.New matchCodes, filter, notify, jsScanner⟩ st
          records).written = st.written)) ∧
    Atoi (bs "abc") = none ∧
    (Checker.New [bs "abc"]).enabled = true ∧ (Checker.New [bs "abc"]).matchCodes = [] := by
  have hen : (Checker.New matchCodes).enabled = true ↔ matchCodes ≠ [] := by
    cases matchCodes <;> simp [Checker.New]
  refine ⟨hen, ?_, by decide, by decide, by decide⟩
  intro hne hnone
  have hm : (Checker.New matchCodes).matchCodes = [] := by
    simp only [Checker.New]
    rw [List.filterMap_eq_nil_iff]
    exact hnone
  have hfail : ∀ (net : Net) (url : Str), ((Checker.New matchCodes).Check net url).1 = false :=
    fun net url => check_fails_of_no_codes net _ url (hen.2 hne) hm
  exact ⟨hm, hfail, fun mapLower net filter notify jsScanner st records =>
    processAll_writes_nothing mapLower net _ (fun y => hfail net y) records st⟩

/-! ## Redirects -/

/-- C22, as the claim states it, fails: in a chain of three redirects the
policy is asked with `len(via) = 3` before the fourth request and answers
use-last-response, so the client returns the third redirect response after
three requests, not the final answer. -/
theorem redirect_chain_of_three_not_followed :
    clientDo CheckRedirect (fun k => if k < 3 then ⟨302, true⟩ else ⟨200, false⟩) 10 0 =
      some ⟨some 2, 3⟩ ∧
    (if (2 : Nat) < 3 then (⟨302, true⟩ : Hop) else ⟨200, false⟩).redirect = true := by
  decide

/-- C22, amended: the policy follows at most 2 redirects.  As a function of the
number of requests already made it allows the next redirect while fewer than 3
requests were made and otherwise answers use-last-response, never an error; so
the client sends at most 3 requests and returns a response, a chain of at most
2 redirects is followed to its end, and a longer chain yields the response to
the third request, the last one received. -/
theorem redirect_policy_follows_two (answers : Nat → Hop) (fuel : Nat) :
    (∀ n, (CheckRedirect n = .follow ↔ n < 3) ∧ (CheckRedirect n = .useLastResponse ↔ 3 ≤ n) ∧
      CheckRedirect n ≠ .fail) ∧
    (∃ r, clientDo CheckRedirect answers (fuel + 4) 0 = some r ∧ r.sent ≤ 3 ∧
      r.response ≠ none) ∧
    (∀ k, k ≤ 2 → (answers k).redirect = false → (∀ j, j < k → (answers j).redirect = true) →
      clientDo CheckRedirect answers (fuel + 4) 0 = some ⟨some k, k + 1⟩) ∧
    ((∀ j, j ≤ 2 → (answers j).redirect = true) →
      clientDo CheckRedirect answers (fuel + 4) 0 = some ⟨some 2, 3⟩) := by
  have hpol : ∀ n, (CheckRedirect n = .follow ↔ n < 3) ∧
      (CheckRedirect n = .useLastResponse ↔ 3 ≤ n) ∧ CheckRedirect n ≠ .fail := by
    intro n
    unfold CheckRedirect
    by_cases h : n ≥ 3
    · simp [h]
    · simp [h]
      omega
  have hlong : (∀ j, j ≤ 2 → (answers j).redirect = true) →
      clientDo CheckRedirect answers (fuel + 4) 0 = some ⟨some 2, 3⟩ := by
    intro h
    simp [clientDo, CheckRedirect, h 0 (by omega), h 1 (by omega), h 2 (by omega)]
  have hshort : ∀ k, k ≤ 2 → (answers k).redirect = false →
      (∀ j, j < k → (answers j).redirect = true) →
      clientDo CheckRedirect answers (fuel + 4) 0 = some ⟨some k, k + 1⟩ := by
    intro k hk hfin hred
    have hk3 : k = 0 ∨ k = 1 ∨ k = 2 := by omega
    rcases hk3 with rfl | rfl | rfl
    · simp [clientDo, CheckRedirect, hfin]
    · simp [clientDo, CheckRedirect, hfin, hred 0 (by omega)]
    · simp [clientDo, CheckRedirect, hfin, hred 0 (by omega), hred 1 (by omega)]
  refine ⟨hpol, ?_, hshort, hlong⟩
  by_cases h0 : (answers 0).redirect = true
  · by_cases h1 : (answers 1).redirect = true
    · by_cases h2 : (answers 2).redirect = true
      · refine ⟨_, hlong ?_, by simp, by simp⟩
        intro j hj
        have : j = 0 ∨ j = 1 ∨ j = 2 := by omega
        rcases this with rfl | rfl | rfl <;> assumption
      · refine ⟨_, hshort 2 (by omega) (by simpa using h2) ?_, by simp, by simp⟩
        intro j hj
        have : j = 0 ∨ j = 1 := by omega
        rcases this with rfl | rfl <;> assumption
    · refine ⟨_, hshort 1 (by omega) (by simpa using h1) ?_, by simp, by simp⟩
      intro j hj
      have : j = 0 := by omega
      subst this
      exact h0
  · exact ⟨_, hshort 0 (by omega) (by simpa using h0) (fun j hj => absurd hj (by omega)),
      by simp, by simp⟩

/-! ## Page caps -/

theorem github_loop_bound (server : Nat → Nat → PageReply githubResponse) :
    ∀ (fuel page : Nat) (acc : SourceRun Nat), page ≤ 5 → 6 ≤ fuel + page →
      (GitHub.loop server fuel page acc).returned = true ∧
      (GitHub.loop server fuel page acc).pages.length + page ≤ acc.pages.length + 6 := by
  intro fuel
  induction fuel with
  | zero => intro page acc h1 h2; omega
  | succ fuel ih =>
    intro page acc h1 h2
    unfold GitHub.loop
    simp only []
    split
    · simp; omega
    · split
      · simp; omega
      · split
        · simp; omega
        · split
          · simp; omega
          · split
            · simp; omega
            · split
              · simp; omega
              · rename_i data heq hcap
                have hp : page < 5 := by
                  by_contra hge
                  exact hcap (Or.inr (by omega))
                have := ih (page + 1)
                  { pages := acc.pages ++ [page],
                    records := acc.records ++ sourceRecords (bs "github") data.Items,
                    returned := acc.returned } (by omega) (by omega)
                refine ⟨this.1, ?_⟩
                have h3 := this.2
                simp only [List.length_append, List.length_singleton] at h3
                omega

theorem withRetry_first_ok (operation : Nat → Option Str) (h : operation 0 = none) :
    WithRetry operation 3 = { err := none, calls := 1, sleeps := [] } := by
  simp [WithRetry, withRetryLoop, h]

theorem otx_loop_never_returns (urls : List Str) (hne : urls ≠ []) :
    ∀ (fuel page : Nat) (acc : SourceRun Nat), acc.returned = false →
      (AlienVault.loop (fun _ _ => .reply 200 (some ⟨urls, true⟩)) fuel page acc).returned = false ∧
      (AlienVault.loop (fun _ _ => .reply 200 (some ⟨urls, true⟩)) fuel page acc).pages.length =
        acc.pages.length + fuel := by
  intro fuel
  induction fuel with
  | zero => intro page acc h; exact ⟨h, rfl⟩
  | succ fuel ih =>
    intro page acc h
    have hlen : urls.length ≠ 0 := fun e => hne (List.length_eq_zero.1 e)
    have hw : WithRetry (fun _ => (PageReply.reply 200 (some (⟨urls, true⟩ :
        otxResponse))).error) 3 = { err := none, calls := 1, sleeps := [] } :=
      withRetry_first_ok _ rfl
    unfold AlienVault.loop
    simp only [hw, ne_eq, not_true_eq_false, if_false, hlen, Bool.not_true,
      Bool.false_eq_true]
    have := ih (page + 1)
      { pages := acc.pages ++ [page], records := acc.records ++ sourceRecords (bs "otx") urls,
        returned := acc.returned } h
    refine ⟨this.1, ?_⟩
    rw [this.2]
    simp only [List.length_append, List.length_singleton]
    omega

theorem vt_loop_never_returns (baseURL next : Str) (url : URL) (hp : Parse next = some url)
    (hne : next ≠ []) (ids : List Str) :
    ∀ (fuel : Nat) (acc : SourceRun Str), acc.returned = false →
      (VirusTotal.loop baseURL (fun _ _ => .reply 200 (some ⟨ids, next⟩)) fuel next
        acc).returned = false ∧
      (VirusTotal.loop baseURL (fun _ _ => .reply 200 (some ⟨ids, next⟩)) fuel next
        acc).pages.length = acc.pages.length + fuel := by
  intro fuel
  induction fuel with
  | zero => intro acc h; exact ⟨h, rfl⟩
  | succ fuel ih =>
    intro acc h
    have hw : WithRetry (fun _ => (PageReply.reply 200 (some (⟨ids, next⟩ :
        vtResponse))).error) 3 = { err := none, calls := 1, sleeps := [] } :=
      withRetry_first_ok _ rfl
    unfold VirusTotal.loop
    simp only [hw, ne_eq, not_true_eq_false, if_false, hne, not_false_eq_true,
      if_true, hp, reduceCtorEq]
    have := ih
      { pages := acc.pages ++ [next],
        records := acc.records ++ sourceRecords (bs "virustotal") ids,
        returned := acc.returned } h
    refine ⟨this.1, ?_⟩
    rw [this.2]
    simp only [List.length_append, List.length_singleton]
    omega

/-- C21: `GitHub.Run` requests at most 5 pages and returns, whatever the server
answers; `AlienVault.Run` and `VirusTotal.Run` have no cap: against a server
that answers every page with status 200, a non-empty list and a next page,
neither has returned after any number `n` of loop rounds, having requested `n`
pages. -/
theorem page_cap_github_only (apiKey : Str) (requestOK : Bool)
    (server : Nat → Nat → PageReply githubResponse) (fuel n : Nat) :
    ((GitHub.Run apiKey requestOK server (fuel + 5)).returned = true ∧
      (GitHub.Run apiKey requestOK server (fuel + 5)).pages.length ≤ 5) ∧
    ((AlienVault.Run (bs "key") true
        (fun _ _ => .reply 200 (some ⟨[bs "http://a.example.com/x"], true⟩)) n).returned = false ∧
      (AlienVault.Run (bs "key") true
        (fun _ _ => .reply 200 (some ⟨[bs "http://a.example.com/x"], true⟩)) n).pages.length
        = n) ∧
    ((VirusTotal.Run (bs "key") (bs "example.com")
        (fun _ _ => .reply 200 (some ⟨[bs "a.example.com"], bs "https://www.virustotal.com/next"⟩))
        (n + 1)).returned = false ∧
      (VirusTotal.Run (bs "key") (bs "example.com")
        (fun _ _ => .reply 200 (some ⟨[bs "a.example.com"], bs "https://www.virustotal.com/next"⟩))
        (n + 1)).pages.length = n + 1) := by
  refine ⟨?_, ?_, ?_⟩
  · unfold GitHub.Run
    split
    · simp
    · split
      · simp
      · have := github_loop_bound server (fuel + 5) 1 {} (by omega) (by omega)
        refine ⟨this.1, ?_⟩
        have h2 := this.2
        simp only [List.length_nil] at h2
        omega
  · have := otx_loop_never_returns [bs "http://a.example.com/x"] (by simp) n 1 {} rfl
    unfold AlienVault.Run
    rw [if_neg (by decide)]
    simp only [Bool.not_true, Bool.false_eq_true, if_false]
    refine ⟨this.1, ?_⟩
    rw [this.2]
    simp
  · unfold VirusTotal.Run
    rw [if_neg (by decide)]
    unfold VirusTotal.loop
    have hbase : Parse (bs "https://www.virustotal.com/api/v3/domains/" ++ bs "example.com" ++
        bs "/subdomains?limit=40") ≠ none := by decide
    have hw : WithRetry (fun _ => (PageReply.reply 200 (some (⟨[bs "a.example.com"],
        bs "https://www.virustotal.com/next"⟩ : vtResponse))).error) 3 =
        { err := none, calls := 1, sleeps := [] } := withRetry_first_ok _ rfl
    simp only [hw, ne_eq, not_true_eq_false, if_false, hbase]
    have hnext : bs "https://www.virustotal.com/next" ≠ [] := by decide
    have := vt_loop_never_returns
      (bs "https://www.virustotal.com/api/v3/domains/" ++ bs "example.com" ++
        bs "/subdomains?limit=40") (bs "https://www.virustotal.com/next")
      { Scheme := bs "https", Host := bs "www.virustotal.com", Path := bs "/next" }
      (by decide) hnext [bs "a.example.com"] n
      { pages := [bs "https://www.virustotal.com/api/v3/domains/" ++ bs "example.com" ++
          bs "/subdomains?limit=40"],
        records := sourceRecords (bs "virustotal") [bs "a.example.com"],
        returned := false } rfl
    simp only [hnext, if_false, List.nil_append]
    refine ⟨this.1, ?_⟩
    rw [this.2]
    simp
    omega

/-! ## Concurrent calls of `Check` -/

theorem stepCall_three (mapLower : Str → Str) (d : Dedup) (u : Str) :
    Dedup.stepCall mapLower
      (Dedup.stepCall mapLower
        (Dedup.stepCall mapLower d ⟨u, .start⟩).2
        (Dedup.stepCall mapLower d ⟨u, .start⟩).1).2
      (Dedup.stepCall mapLower
        (Dedup.stepCall mapLower d ⟨u, .start⟩).2
        (Dedup.stepCall mapLower d ⟨u, .start⟩).1).1 =
      (⟨u, .done (Dedup.Check mapLower d u).1⟩, (Dedup.Check mapLower d u).2) := by
  unfold Dedup.Check
  cases hp : Parse u with
  | none => simp [Dedup.stepCall, hp]
  | some url =>
    by_cases hs : d.inScope mapLower url.Host = true
    · by_cases hd : d.disableDedup = true
      · simp [Dedup.stepCall, hp, hs, hd]
      · by_cases hm : u ∈ d.seen
        · simp [Dedup.stepCall, hp, hs, hd, hm]
        · simp [Dedup.stepCall, hp, hs, hd, hm]
    · simp [Dedup.stepCall, hp, hs]

theorem stepCall_effect (mapLower : Str → Str) (u : Str) (url : URL) (hp : Parse u = some url)
    (d : Dedup) (c : CheckCall) (hcfg : ConfigOK mapLower url d) (hc : CallOK u url d c) :
    ConfigOK mapLower url (Dedup.stepCall mapLower d c).2 ∧
    (Dedup.stepCall mapLower d c).1.rawURL = c.rawURL ∧
    CallOK u url (Dedup.stepCall mapLower d c).2 (Dedup.stepCall mapLower d c).1 ∧
    StepEffect u d (Dedup.stepCall mapLower d c).2 (passCount u [c])
      (passCount u [(Dedup.stepCall mapLower d c).1]) := by
  obtain ⟨hs, hd⟩ := hcfg
  rcases c with ⟨raw, pc⟩
  cases pc with
  | start =>
    cases hpr : Parse raw with
    | none =>
      have hstep : Dedup.stepCall mapLower d ⟨raw, .start⟩ = (⟨raw, .done Drop⟩, d) := by
        simp [Dedup.stepCall, hpr]
      rw [hstep]
      refine ⟨⟨hs, hd⟩, rfl, ?_, fun x hx => hx, Or.inl ⟨by simp [passCount], Iff.rfl⟩⟩
      intro hraw
      have hraw2 : raw = u := hraw
      subst hraw2
      rw [hp] at hpr
      exact absurd hpr (by simp)
    | some u2 =>
      have hstep : Dedup.stepCall mapLower d ⟨raw, .start⟩ = (⟨raw, .parsed u2⟩, d) := by
        simp [Dedup.stepCall, hpr]
      rw [hstep]
      refine ⟨⟨hs, hd⟩, rfl, ?_, fun x hx => hx, Or.inl ⟨by simp [passCount], Iff.rfl⟩⟩
      intro hraw
      have hraw2 : raw = u := hraw
      subst hraw2
      rw [hp] at hpr
      refine ⟨fun u3 h3 => ?_, fun r hr => by simp at hr⟩
      simp only [CheckPC.parsed.injEq] at h3
      rw [← h3]
      exact (Option.some.inj hpr).symm
  | parsed u2 =>
    have hcases : ∃ pc2, Dedup.stepCall mapLower d ⟨raw, .parsed u2⟩ = (⟨raw, pc2⟩, d) ∧
        pc2 ≠ .done Pass ∧ (raw = u → pc2 = .checked) := by
      by_cases hsc : d.inScope mapLower u2.Host = true
      · refine ⟨.checked, by simp [Dedup.stepCall, hsc, hd], by simp, fun _ => rfl⟩
      · refine ⟨.done Drop, by simp [Dedup.stepCall, hsc], by simp, fun hraw => ?_⟩
        have hu2 : u2 = url := (hc hraw).1 u2 rfl
        rw [hu2] at hsc
        exact absurd hs hsc
    obtain ⟨pc2, hstep, hnp, hch⟩ := hcases
    rw [hstep]
    refine ⟨⟨hs, hd⟩, rfl, ?_, fun x hx => hx, Or.inl ⟨by simp [passCount, hnp], Iff.rfl⟩⟩
    intro hraw
    have := hch hraw
    subst this
    exact ⟨fun u3 h3 => by simp at h3, fun r hr => by simp at hr⟩
  | checked =>
    by_cases hm : raw ∈ d.seen
    · have hstep : Dedup.stepCall mapLower d ⟨raw, .checked⟩ = (⟨raw, .done Drop⟩, d) := by
        simp [Dedup.stepCall, hm]
      rw [hstep]
      refine ⟨⟨hs, hd⟩, rfl, ?_, fun x hx => hx, Or.inl ⟨by simp [passCount], Iff.rfl⟩⟩
      intro hraw
      have hraw2 : raw = u := hraw
      subst hraw2
      exact ⟨fun u3 h3 => by simp at h3, fun r _ => hm⟩
    · have hstep : Dedup.stepCall mapLower d ⟨raw, .checked⟩ =
          (⟨raw, .done Pass⟩, { d with seen := raw :: d.seen }) := by
        simp [Dedup.stepCall, hm]
      rw [hstep]
      refine ⟨⟨hs, hd⟩, rfl, ?_, fun x hx => List.mem_cons_of_mem _ hx, ?_⟩
      · intro hraw
        have hraw2 : raw = u := hraw
        subst hraw2
        exact ⟨fun u3 h3 => by simp at h3, fun r _ => List.mem_cons_self _ _⟩
      · by_cases hraw : raw = u
        · subst hraw
          exact Or.inr ⟨by simp [passCount], hm, List.mem_cons_self _ _⟩
        · refine Or.inl ⟨by simp [passCount, hraw], ?_⟩
          simp only [List.mem_cons]
          constructor
          · rintro (h | h)
            · exact absurd h.symm hraw
            · exact h
          · exact Or.inr
  | done r =>
    have hstep : Dedup.stepCall mapLower d ⟨raw, .done r⟩ = (⟨raw, .done r⟩, d) := by
      simp [Dedup.stepCall]
    rw [hstep]
    exact ⟨⟨hs, hd⟩, rfl, hc, fun x hx => hx, Or.inl ⟨rfl, Iff.rfl⟩⟩

theorem callOK_mono (u : Str) (url : URL) (d d2 : Dedup) (c : CheckCall)
    (hsub : ∀ x, x ∈ d.seen → x ∈ d2.seen) (hc : CallOK u url d c) : CallOK u url d2 c :=
  fun hraw => ⟨(hc hraw).1, fun r hr => hsub u ((hc hraw).2 r hr)⟩

theorem passCount_cons (u : Str) (c : CheckCall) (cs : List CheckCall) :
    passCount u (c :: cs) = passCount u [c] + passCount u cs := by
  simp only [passCount, List.countP_cons, List.countP_nil]
  omega

theorem stepAt_effect (mapLower : Str → Str) (u : Str) (url : URL) (hp : Parse u = some url) :
    ∀ (cs : List CheckCall) (i : Nat) (d : Dedup), ConfigOK mapLower url d →
      (∀ c ∈ cs, CallOK u url d c) →
      ConfigOK mapLower url (Dedup.stepAt mapLower i cs d).2 ∧
      (Dedup.stepAt mapLower i cs d).1.map (·.rawURL) = cs.map (·.rawURL) ∧
      (∀ c ∈ (Dedup.stepAt mapLower i cs d).1,
        CallOK u url (Dedup.stepAt mapLower i cs d).2 c) ∧
      StepEffect u d (Dedup.stepAt mapLower i cs d).2 (passCount u cs)
        (passCount u (Dedup.stepAt mapLower i cs d).1) := by
  intro cs
  induction cs with
  | nil =>
    intro i d hcfg _
    cases i <;>
      exact ⟨hcfg, rfl, fun c hc => by simp [Dedup.stepAt] at hc, fun x hx => hx,
        Or.inl ⟨rfl, Iff.rfl⟩⟩
  | cons c cs ih =>
    intro i d hcfg hall
    cases i with
    | zero =>
      obtain ⟨h1, h2, h3, h4, h5⟩ :=
        stepCall_effect mapLower u url hp d c hcfg (hall c (List.mem_cons_self _ _))
      simp only [Dedup.stepAt]
      refine ⟨h1, by simp [h2], ?_, h4, ?_⟩
      · intro c2 hc2
        rcases List.mem_cons.1 hc2 with h | h
        · rw [h]; exact h3
        · exact callOK_mono u url d _ c2 h4 (hall c2 (List.mem_cons_of_mem _ h))
      · rw [passCount_cons u c cs, passCount_cons u _ cs]
        rcases h5 with ⟨e1, e2⟩ | ⟨e1, e2, e3⟩
        · exact Or.inl ⟨by omega, e2⟩
        · exact Or.inr ⟨by omega, e2, e3⟩
    | succ i =>
      obtain ⟨h1, h2, h3, h4, h5⟩ :=
        ih i d hcfg (fun c2 hc2 => hall c2 (List.mem_cons_of_mem _ hc2))
      simp only [Dedup.stepAt]
      refine ⟨h1, by simp [h2], ?_, h4, ?_⟩
      · intro c2 hc2
        rcases List.mem_cons.1 hc2 with h | h
        · rw [h]; exact callOK_mono u url d _ c h4 (hall c (List.mem_cons_self _ _))
        · exact h3 c2 h
      · rw [passCount_cons u c cs, passCount_cons u c _]
        rcases h5 with ⟨e1, e2⟩ | ⟨e1, e2, e3⟩
        · exact Or.inl ⟨by omega, e2⟩
        · exact Or.inr ⟨by omega, e2, e3⟩

theorem runSchedule_invariant (mapLower : Str → Str) (u : Str) (url : URL)
    (hp : Parse u = some url) (sched : List Nat) :
    ∀ (cs : List CheckCall) (d : Dedup), ConfigOK mapLower url d →
      (∀ c ∈ cs, CallOK u url d c) → passCount u cs = (if u ∈ d.seen then 1 else 0) →
      (Dedup.runSchedule mapLower sched cs d).1.map (·.rawURL) = cs.map (·.rawURL) ∧
      (∀ c ∈ (Dedup.runSchedule mapLower sched cs d).1,
        CallOK u url (Dedup.runSchedule mapLower sched cs d).2 c) ∧
      passCount u (Dedup.runSchedule mapLower sched cs d).1 =
        (if u ∈ (Dedup.runSchedule mapLower sched cs d).2.seen then 1 else 0) := by
  induction sched with
  | nil => intro cs d _ hall hcount; exact ⟨rfl, hall, hcount⟩
  | cons i sched ih =>
    intro cs d hcfg hall hcount
    obtain ⟨h1, h2, h3, _, h5⟩ := stepAt_effect mapLower u url hp cs i d hcfg hall
    have hcount2 : passCount u (Dedup.stepAt mapLower i cs d).1 =
        (if u ∈ (Dedup.stepAt mapLower i cs d).2.seen then 1 else 0) := by
      rcases h5 with ⟨e1, e2⟩ | ⟨e1, e2, e3⟩
      · rw [e1, hcount]
        by_cases hm : u ∈ d.seen
        · simp [hm, e2.2 hm]
        · have : u ∉ (Dedup.stepAt mapLower i cs d).2.seen := fun h => hm (e2.1 h)
          simp [hm, this]
      · rw [e1, hcount]
        simp [e2, e3]
    obtain ⟨g1, g2, g3⟩ := ih _ _ h1 h3 hcount2
    simp only [Dedup.runSchedule]
    exact ⟨g1.trans h2, g2, g3⟩

/-- C26: every interleaving of concurrent calls of `Check` on one deduplicator
with dedup enabled lets at most one call on an in-scope URL `u` return Pass,
and exactly one once the calls on `u` have all returned; a call run alone does
in three steps what `Check` does.  An interleaving is a schedule that picks,
step by step, the call to move; the only step on shared mutable state is the
atomic `LoadOrStore`. -/
theorem check_exactly_one_pass_under_interleaving (mapLower : Str → Str) (target : Str)
    (wildcard : Bool) (u : Str) (url : URL) (hp : Parse u = some url)
    (hs : (Dedup.New mapLower target wildcard false).inScope mapLower url.Host = true)
    (calls : List Str) (sched : List Nat) :
    passCount u (Dedup.runSchedule mapLower sched (calls.map (fun v => ⟨v, .start⟩))
      (Dedup.New mapLower target wildcard false)).1 ≤ 1 ∧
    (u ∈ calls →
      (∀ c ∈ (Dedup.runSchedule mapLower sched (calls.map (fun v => ⟨v, .start⟩))
          (Dedup.New mapLower target wildcard false)).1,
        c.rawURL = u → ∃ r, c.pc = .done r) →
      passCount u (Dedup.runSchedule mapLower sched (calls.map (fun v => ⟨v, .start⟩))
        (Dedup.New mapLower target wildcard false)).1 = 1) ∧
    (∀ d : Dedup,
      Dedup.stepCall mapLower
        (Dedup.stepCall mapLower (Dedup.stepCall mapLower d ⟨u, .start⟩).2
          (Dedup.stepCall mapLower d ⟨u, .start⟩).1).2
        (Dedup.stepCall mapLower (Dedup.stepCall mapLower d ⟨u, .start⟩).2
          (Dedup.stepCall mapLower d ⟨u, .start⟩).1).1 =
        (⟨u, .done (Dedup.Check mapLower d u).1⟩, (Dedup.Check mapLower d u).2)) := by
  have hinit1 : ∀ c ∈ calls.map (fun v => (⟨v, .start⟩ : CheckCall)),
      CallOK u url (Dedup.New mapLower target wildcard false) c := by
    intro c hc
    obtain ⟨v, _, rfl⟩ := List.mem_map.1 hc
    intro _
    exact ⟨fun u2 h => by simp at h, fun r h => by simp at h⟩
  have hinit2 : passCount u (calls.map (fun v => (⟨v, .start⟩ : CheckCall))) =
      (if u ∈ (Dedup.New mapLower target wildcard false).seen then 1 else 0) := by
    have : ∀ l : List Str, passCount u (l.map (fun v => (⟨v, .start⟩ : CheckCall))) = 0 := by
      intro l
      induction l with
      | nil => rfl
      | cons v l ih => rw [List.map_cons, passCount_cons, ih]; simp [passCount]
    rw [this]
    simp [Dedup.New]
  obtain ⟨g1, g2, g3⟩ := runSchedule_invariant mapLower u url hp sched _ _ ⟨hs, rfl⟩ hinit1 hinit2
  refine ⟨?_, ?_, fun d => stepCall_three mapLower d u⟩
  · rw [g3]
    split <;> omega
  · intro hmem hdone
    rw [g3]
    have hex : ∃ c ∈ (Dedup.runSchedule mapLower sched (calls.map (fun v => ⟨v, .start⟩))
        (Dedup.New mapLower target wildcard false)).1, c.rawURL = u := by
      have : u ∈ (Dedup.runSchedule mapLower sched (calls.map (fun v => ⟨v, .start⟩))
          (Dedup.New mapLower target wildcard false)).1.map (·.rawURL) := by
        rw [g1, List.map_map]
        exact List.mem_map.2 ⟨u, hmem, rfl⟩
      obtain ⟨c, hc, hcu⟩ := List.mem_map.1 this
      exact ⟨c, hc, hcu⟩
    obtain ⟨c, hc, hcu⟩ := hex
    obtain ⟨r, hr⟩ := hdone c hc hcu
    have := (g2 c hc hcu).2 r hr
    simp [this]

theorem check_exactly_one_pass_under_interleaving_witness :
    passCount (bs "http://example.com/x")
      (Dedup.runSchedule id [2, 0, 1, 2, 3, 3, 0, 1, 1, 3, 2, 0]
        ([bs "http://example.com/x", bs "http://example.com/x", bs "http://example.com/y",
          bs "http://example.com/x"].map (fun v => ⟨v, .start⟩))
        (Dedup.New id (bs "example.com") false false)).1 = 1 :=
  (check_exactly_one_pass_under_interleaving id (bs "example.com") false
    (bs "http://example.com/x")
    { Scheme := bs "http", Host := bs "example.com", Path := bs "/x" } (by decide) (by decide)
    [bs "http://example.com/x", bs "http://example.com/x", bs "http://example.com/y",
      bs "http://example.com/x"]
    [2, 0, 1, 2, 3, 3, 0, 1, 1, 3, 2, 0]).2.1 (by decide) (by decide)

theorem not_inScope_of_port (mapLower : Str → Str) (d : Dedup) (host x port : Str)
    (hne : d.targetDomain ≠ []) (hcolon : ch ':' ∉ d.targetDomain)
    (hport : port.all isDigit = true)
    (hlow : ToLower mapLower host = x ++ ch ':' :: port) :
    d.inScope mapLower host = false := by
  have hdot : ch '.' ∉ port := by
    intro hm
    have := List.all_eq_true.1 hport _ hm
    revert this
    decide
  cases hs : d.inScope mapLower host with
  | false => rfl
  | true =>
    exfalso
    rcases (inScope_iff_field mapLower d host).1 hs with h | h | ⟨_, h⟩
    · exact hne h
    · apply hcolon
      rw [← h, hlow]
      simp
    · rw [hlow] at h
      have h2 : (ch ':' :: port) <:+ x ++ ch ':' :: port := List.suffix_append _ _
      rcases List.suffix_or_suffix_of_suffix h h2 with h3 | h3
      · change (ch '.' :: d.targetDomain) <:+ ch ':' :: port at h3
        rcases List.suffix_cons_iff.1 h3 with h4 | h4
        · have := (List.cons.inj h4).1
          revert this
          decide
        · exact hdot (h4.subset (List.mem_cons_self _ _))
      · change (ch ':' :: port) <:+ ch '.' :: d.targetDomain at h3
        rcases List.suffix_cons_iff.1 h3 with h4 | h4
        · have := (List.cons.inj h4).1
          revert this
          decide
        · exact hcolon (h4.subset (List.mem_cons_self _ _))

/-- C27: the scope test compares the authority with its port.  When the target
domain of the deduplicator is non-empty and has no colon, `Check` drops every
URL whose host is `hostname:port` with a port of digits, whatever the wildcard
mode and whatever the hostname, and leaves the deduplicator as it was.  The
hypothesis `hlow` says that lower-casing keeps the ASCII tail `:port`, which
the bytewise branch of `ToLower` always does.  The examples
`http://example.com:8080/x` and `https://sub.example.com:8443/` are left in
place by `Normalize` and dropped with target `example.com` in both modes,
while `https://sub.example.com/` passes in wildcard mode. -/
theorem check_drops_host_with_port (mapLower : Str → Str) (d : Dedup) (rawURL : Str) (u : URL)
    (hostname port : Str)
    (hne : d.targetDomain ≠ []) (hcolon : ch ':' ∉ d.targetDomain)
    (hp : Parse rawURL = some u) (hh : u.Host = hostname ++ ch ':' :: port)
    (hport : port.all isDigit = true)
    (hlow : ToLower mapLower (hostname ++ ch ':' :: port) =
      ToLower mapLower hostname ++ ch ':' :: port) :
    Dedup.Check mapLower d rawURL = (Drop, d) ∧
    (∀ wildcard disableDedup : Bool,
      Normalize mapLower (bs "http://example.com:8080/x") =
        some (bs "http://example.com:8080/x") ∧
      Normalize mapLower (bs "https://sub.example.com:8443/") =
        some (bs "https://sub.example.com:8443/") ∧
      (Dedup.Check mapLower (Dedup.New mapLower (bs "example.com") wildcard disableDedup)
        (bs "http://example.com:8080/x")).1 = Drop ∧
      (Dedup.Check mapLower (Dedup.New mapLower (bs "example.com") wildcard disableDedup)
        (bs "https://sub.example.com:8443/")).1 = Drop ∧
      (Dedup.Check mapLower (Dedup.New mapLower (bs "example.com") true disableDedup)
        (bs "https://sub.example.com/")).1 = Pass) := by
  refine ⟨?_, ?_⟩
  · apply check_of_out_of_scope mapLower d rawURL u hp
    apply not_inScope_of_port mapLower d u.Host (ToLower mapLower hostname) port hne hcolon hport
    rw [hh, hlow]
  · intro wildcard disableDedup
    cases wildcard <;> cases disableDedup <;> exact ⟨rfl, rfl, rfl, rfl, rfl⟩

theorem check_drops_host_with_port_witness :
    Dedup.Check (fun s => s.map lowerByte)
      (Dedup.New (fun s => s.map lowerByte) (bs "example.com") true false)
      (bs "https://Sub.Example.com:8443/") =
      (Drop, Dedup.New (fun s => s.map lowerByte) (bs "example.com") true false) :=
  (check_drops_host_with_port (fun s => s.map lowerByte)
    (Dedup.New (fun s => s.map lowerByte) (bs "example.com") true false)
    (bs "https://Sub.Example.com:8443/")
    { Scheme := bs "https", Host := bs "Sub.Example.com:8443", Path := bs "/" }
    (bs "Sub.Example.com") (bs "8443")
    (by decide) (by decide) (by decide) (by decide) (by decide) (by decide)).1

/-! ## `sanitizeTarget` on well-formed inputs -/

set_option maxRecDepth 100000 in
theorem spaceRunes_prefix_free :
    ∀ a ∈ spaceRunes, ∀ b ∈ spaceRunes, a.isPrefixOf b = true → a = b := by
  decide

set_option maxRecDepth 100000 in
theorem spaceRunes_suffix_free :
    ∀ a ∈ spaceRunes, ∀ b ∈ spaceRunes, a.isSuffixOf b = true → a = b := by
  decide

set_option maxRecDepth 100000 in
theorem spaceRunes_length : ∀ a ∈ spaceRunes, 1 ≤ a.length ∧ a.length ≤ 3 := by
  decide

theorem dropSpace_eq_none (s : Str) :
    dropSpace s = none ↔ ∀ q ∈ spaceRunes, q.isPrefixOf s = false := by
  unfold dropSpace
  rw [List.findSome?_eq_none_iff]
  constructor
  · intro h q hq
    have := h q hq
    cases hp : q.isPrefixOf s
    · rfl
    · simp [hp] at this
  · intro h q hq
    simp [h q hq]

theorem dropSpaceEnd_eq_none (s : Str) :
    dropSpaceEnd s = none ↔ ∀ q ∈ spaceRunes, q.isSuffixOf s = false := by
  unfold dropSpaceEnd
  rw [List.findSome?_eq_none_iff]
  constructor
  · intro h q hq
    have := h q hq
    cases hp : q.isSuffixOf s
    · rfl
    · simp [hp] at this
  · intro h q hq
    simp [h q hq]

theorem dropSpace_rune (q : Str) (hq : q ∈ spaceRunes) (x : Str) :
    dropSpace (q ++ x) = some x := by
  cases h : dropSpace (q ++ x) with
  | none =>
    have := (dropSpace_eq_none _).1 h q hq
    have hp : q.isPrefixOf (q ++ x) = true := List.isPrefixOf_iff_prefix.2 (List.prefix_append _ _)
    rw [hp] at this
    exact absurd this (by decide)
  | some v =>
    unfold dropSpace at h
    obtain ⟨q2, hq2, hv⟩ := List.exists_of_findSome?_eq_some h
    by_cases hp : q2.isPrefixOf (q ++ x) = true
    · rw [if_pos hp] at hv
      have h1 : q2 <+: q ++ x := List.isPrefixOf_iff_prefix.1 hp
      have h2 : q <+: q ++ x := List.prefix_append _ _
      have heq : q2 = q := by
        rcases List.prefix_or_prefix_of_prefix h1 h2 with h3 | h3
        · exact spaceRunes_prefix_free q2 hq2 q hq (List.isPrefixOf_iff_prefix.2 h3)
        · exact (spaceRunes_prefix_free q hq q2 hq2 (List.isPrefixOf_iff_prefix.2 h3)).symm
      rw [heq] at hv
      simpa using hv.symm
    · rw [if_neg hp] at hv
      exact absurd hv (by simp)

theorem dropSpaceEnd_rune (q : Str) (hq : q ∈ spaceRunes) (x : Str) :
    dropSpaceEnd (x ++ q) = some x := by
  cases h : dropSpaceEnd (x ++ q) with
  | none =>
    have := (dropSpaceEnd_eq_none _).1 h q hq
    have hp : q.isSuffixOf (x ++ q) = true := List.isSuffixOf_iff_suffix.2 (List.suffix_append _ _)
    rw [hp] at this
    exact absurd this (by decide)
  | some v =>
    unfold dropSpaceEnd at h
    obtain ⟨q2, hq2, hv⟩ := List.exists_of_findSome?_eq_some h
    by_cases hp : q2.isSuffixOf (x ++ q) = true
    · rw [if_pos hp] at hv
      have h1 : q2 <:+ x ++ q := List.isSuffixOf_iff_suffix.1 hp
      have h2 : q <:+ x ++ q := List.suffix_append _ _
      have heq : q2 = q := by
        rcases List.suffix_or_suffix_of_suffix h1 h2 with h3 | h3
        · exact spaceRunes_suffix_free q2 hq2 q hq (List.isSuffixOf_iff_suffix.2 h3)
        · exact (spaceRunes_suffix_free q hq q2 hq2 (List.isSuffixOf_iff_suffix.2 h3)).symm
      rw [heq] at hv
      simpa using hv.symm
    · rw [if_neg hp] at hv
      exact absurd hv (by simp)

theorem trimLeftN_none (s : Str) (h : dropSpace s = none) : ∀ n, trimLeftN n s = s := by
  intro n
  cases n with
  | zero => rfl
  | succ n => simp [trimLeftN, h]

theorem trimRightN_none (s : Str) (h : dropSpaceEnd s = none) : ∀ n, trimRightN n s = s := by
  intro n
  cases n with
  | zero => rfl
  | succ n => simp [trimRightN, h]

theorem trimLeftN_spaces (rest : Str) (h : dropSpace rest = none) :
    ∀ (l : List Str), (∀ q ∈ l, q ∈ spaceRunes) → ∀ n, l.length ≤ n →
      trimLeftN n (l.flatten ++ rest) = rest := by
  intro l
  induction l with
  | nil => intro _ n _; simpa using trimLeftN_none rest h n
  | cons q l ih =>
    intro hl n hn
    cases n with
    | zero => simp at hn
    | succ n =>
      have hd : dropSpace (q ++ (l.flatten ++ rest)) = some (l.flatten ++ rest) :=
        dropSpace_rune q (hl q (List.mem_cons_self _ _)) _
      simp only [List.flatten_cons, List.append_assoc, trimLeftN, hd]
      exact ih (fun q2 h2 => hl q2 (List.mem_cons_of_mem _ h2)) n (by simpa using hn)

theorem trimRightN_spaces (core : Str) (h : dropSpaceEnd core = none) :
    ∀ (l : List Str), (∀ q ∈ l, q ∈ spaceRunes) → ∀ n, l.length ≤ n →
      trimRightN n (core ++ l.flatten) = core := by
  intro l
  induction l using List.reverseRecOn with
  | nil => intro _ n _; simpa using trimRightN_none core h n
  | append_singleton l q ih =>
    intro hl n hn
    cases n with
    | zero => simp at hn
    | succ n =>
      have hd : dropSpaceEnd ((core ++ l.flatten) ++ q) = some (core ++ l.flatten) :=
        dropSpaceEnd_rune q (hl q (by simp)) _
      have he : core ++ (l ++ [q]).flatten = (core ++ l.flatten) ++ q := by simp
      rw [he]
      simp only [trimRightN, hd]
      exact ih (fun q2 h2 => hl q2 (by simp [h2])) n (by simpa using hn)

theorem spaces_length_le (l : List Str) (hl : ∀ q ∈ l, q ∈ spaceRunes) :
    l.length ≤ l.flatten.length := by
  induction l with
  | nil => simp
  | cons q l ih =>
    have h1 := (spaceRunes_length q (hl q (List.mem_cons_self _ _))).1
    have h2 := ih (fun q2 h2 => hl q2 (List.mem_cons_of_mem _ h2))
    simp only [List.flatten_cons, List.length_append, List.length_cons]
    omega

theorem trimSpace_spaces (l1 l2 : List Str) (core : Str)
    (h1 : ∀ q ∈ l1, q ∈ spaceRunes) (h2 : ∀ q ∈ l2, q ∈ spaceRunes)
    (hc1 : dropSpace (core ++ l2.flatten) = none) (hc2 : dropSpaceEnd core = none) :
    TrimSpace (l1.flatten ++ core ++ l2.flatten) = core := by
  unfold TrimSpace
  have hl : trimLeftN (l1.flatten ++ core ++ l2.flatten).length (l1.flatten ++ core ++ l2.flatten) =
      core ++ l2.flatten := by
    rw [List.append_assoc]
    apply trimLeftN_spaces _ hc1 l1 h1
    have := spaces_length_le l1 h1
    simp only [List.length_append]
    omega
  rw [hl]
  apply trimRightN_spaces core hc2 l2 h2
  have := spaces_length_le l2 h2
  simp only [List.length_append]
  omega
set_option maxRecDepth 100000 in
theorem spaceRunes_not_prefix_proto :
    ∀ q ∈ spaceRunes, q.isPrefixOf (bs "http://") = false ∧ q.isPrefixOf (bs "https://") = false ∧
      (bs "/").isSuffixOf q = false := by
  decide

theorem hasPrefix_append_slash (name p2 slash : Str) (hslash : slash = [] ∨ slash = bs "/")
    (hp : HasPrefix name (p2 ++ bs "//") = false) (hend : HasSuffix name (bs "/") = false) :
    HasPrefix (name ++ slash) (p2 ++ bs "//") = false := by
  rcases hslash with rfl | rfl
  · simpa using hp
  · cases h : HasPrefix (name ++ bs "/") (p2 ++ bs "//") with
    | false => rfl
    | true =>
      exfalso
      have h1 : (p2 ++ bs "//") <+: name ++ bs "/" := List.isPrefixOf_iff_prefix.1 h
      by_cases hl : (p2 ++ bs "//").length ≤ name.length
      · have : (p2 ++ bs "//") <+: name :=
          List.prefix_of_prefix_length_le h1 (List.prefix_append _ _) hl
        have : HasPrefix name (p2 ++ bs "//") = true := List.isPrefixOf_iff_prefix.2 this
        rw [hp] at this
        exact absurd this (by decide)
      · have hlen := h1.length_le
        have hb : (bs "/").length = 1 := rfl
        have hb2 : (bs "//").length = 2 := rfl
        simp only [List.length_append, hb, hb2] at hlen hl
        have heq : p2 ++ bs "//" = name ++ bs "/" :=
          h1.eq_of_length (by simp only [List.length_append, hb, hb2]; omega)
        have hsplit : bs "//" = bs "/" ++ bs "/" := rfl
        rw [hsplit, ← List.append_assoc] at heq
        have hn : name = p2 ++ bs "/" := (List.append_inj_left' heq rfl).symm
        have : HasSuffix name (bs "/") = true := by
          rw [hn]
          exact List.isSuffixOf_iff_suffix.2 (List.suffix_append _ _)
        rw [hend] at this
        exact absurd this (by decide)

theorem trimSuffix_slash (name slash : Str) (hslash : slash = [] ∨ slash = bs "/")
    (hend : HasSuffix name (bs "/") = false) : TrimSuffix (name ++ slash) (bs "/") = name := by
  rcases hslash with rfl | rfl
  · simp [TrimSuffix, hend]
  · have h : HasSuffix (name ++ bs "/") (bs "/") = true :=
      List.isSuffixOf_iff_suffix.2 (List.suffix_append _ _)
    have hb : (bs "/").length = 1 := rfl
    simp [TrimSuffix, h, hb]

theorem trimPrefix_of_not (s p : Str) (h : HasPrefix s p = false) : TrimPrefix s p = s := by
  simp [TrimPrefix, h]

theorem trimPrefix_append (p s : Str) : TrimPrefix (p ++ s) p = s := by
  have h : HasPrefix (p ++ s) p = true := List.isPrefixOf_iff_prefix.2 (List.prefix_append _ _)
  simp [TrimPrefix, h]

theorem sanitizeTarget_wellformed (l1 l2 : List Str) (proto name slash : Str)
    (h1 : ∀ q ∈ l1, q ∈ spaceRunes) (h2 : ∀ q ∈ l2, q ∈ spaceRunes)
    (hproto : proto = [] ∨ proto = bs "http://" ∨ proto = bs "https://")
    (hslash : slash = [] ∨ slash = bs "/") (hlen : 3 ≤ name.length)
    (hlead : dropSpace name = none) (htrail : dropSpaceEnd name = none)
    (hhttp : HasPrefix name (bs "http://") = false)
    (hhttps : HasPrefix name (bs "https://") = false)
    (hend : HasSuffix name (bs "/") = false) :
    sanitizeTarget (l1.flatten ++ proto ++ name ++ slash ++ l2.flatten) = name := by
  have hc1 : dropSpace ((proto ++ (name ++ slash)) ++ l2.flatten) = none := by
    rw [dropSpace_eq_none]
    intro q hq
    cases hp : q.isPrefixOf ((proto ++ (name ++ slash)) ++ l2.flatten) with
    | false => rfl
    | true =>
      exfalso
      have hpre := List.isPrefixOf_iff_prefix.1 hp
      have hq3 := (spaceRunes_length q hq).2
      rcases hproto with rfl | rfl | rfl
      · have : q <+: name := by
          apply List.prefix_of_prefix_length_le hpre _ (by omega)
          simp only [List.nil_append, List.append_assoc]
          exact List.prefix_append _ _
        have h := (dropSpace_eq_none name).1 hlead q hq
        rw [List.isPrefixOf_iff_prefix.2 this] at h
        exact absurd h (by decide)
      · have : q <+: bs "http://" := by
          apply List.prefix_of_prefix_length_le hpre _ (by
            have : (bs "http://").length = 7 := rfl
            omega)
          simp only [List.append_assoc]
          exact List.prefix_append _ _
        have h := (spaceRunes_not_prefix_proto q hq).1
        rw [List.isPrefixOf_iff_prefix.2 this] at h
        exact absurd h (by decide)
      · have : q <+: bs "https://" := by
          apply List.prefix_of_prefix_length_le hpre _ (by
            have : (bs "https://").length = 8 := rfl
            omega)
          simp only [List.append_assoc]
          exact List.prefix_append _ _
        have h := (spaceRunes_not_prefix_proto q hq).2.1
        rw [List.isPrefixOf_iff_prefix.2 this] at h
        exact absurd h (by decide)
  have hc2 : dropSpaceEnd (proto ++ (name ++ slash)) = none := by
    rw [dropSpaceEnd_eq_none]
    intro q hq
    cases hp : q.isSuffixOf (proto ++ (name ++ slash)) with
    | false => rfl
    | true =>
      exfalso
      have hsuf := List.isSuffixOf_iff_suffix.1 hp
      have hq3 := spaceRunes_length q hq
      rcases hslash with rfl | rfl
      · have : q <:+ name := by
          apply List.suffix_of_suffix_length_le hsuf _ (by omega)
          simp only [List.append_nil]
          exact List.suffix_append _ _
        have h := (dropSpaceEnd_eq_none name).1 htrail q hq
        rw [List.isSuffixOf_iff_suffix.2 this] at h
        exact absurd h (by decide)
      · have : bs "/" <:+ q := by
          apply List.suffix_of_suffix_length_le _ hsuf (by
            have : (bs "/").length = 1 := rfl
            omega)
          rw [← List.append_assoc]
          exact List.suffix_append _ _
        have h := (spaceRunes_not_prefix_proto q hq).2.2
        rw [List.isSuffixOf_iff_suffix.2 this] at h
        exact absurd h (by decide)
  have hin : l1.flatten ++ proto ++ name ++ slash ++ l2.flatten =
      l1.flatten ++ (proto ++ (name ++ slash)) ++ l2.flatten := by
    simp only [List.append_assoc]
  have hts := trimSpace_spaces l1 l2 (proto ++ (name ++ slash)) h1 h2 hc1 hc2
  have hne : proto ++ (name ++ slash) ≠ [] := by
    intro h
    have := congrArg List.length h
    simp only [List.length_append, List.length_nil] at this
    omega
  have hA : HasPrefix (name ++ slash) (bs "http://") = false :=
    hasPrefix_append_slash name (bs "http:") slash hslash hhttp hend
  have hB : HasPrefix (name ++ slash) (bs "https://") = false :=
    hasPrefix_append_slash name (bs "https:") slash hslash hhttps hend
  have hpre : TrimPrefix (TrimPrefix (proto ++ (name ++ slash)) (bs "http://")) (bs "https://") =
      name ++ slash := by
    rcases hproto with rfl | rfl | rfl
    · rw [List.nil_append, trimPrefix_of_not _ _ hA, trimPrefix_of_not _ _ hB]
    · rw [trimPrefix_append, trimPrefix_of_not _ _ hB]
    · have h7 : HasPrefix (bs "https://" ++ (name ++ slash)) (bs "http://") = false := rfl
      rw [trimPrefix_of_not _ _ h7, trimPrefix_append]
  unfold sanitizeTarget
  simp only [hin, hts, hne, if_false, hpre, trimSuffix_slash name slash hslash hend]
  rw [if_neg (by omega)]
/-- C24 fails as stated, at four inputs: each removal is done once and in a
fixed order, so `http:// example.com` gives a result with leading white
space, `example.com /` one with trailing white space,
`https://http://example.com` one that begins with `http://`, and
`example.com//` one that ends with `/`. -/
theorem sanitizeTarget_result_not_clean :
    (sanitizeTarget (bs "http:// example.com") = bs " example.com" ∧
      dropSpace (bs " example.com") ≠ none) ∧
    (sanitizeTarget (bs "example.com /") = bs "example.com " ∧
      dropSpaceEnd (bs "example.com ") ≠ none) ∧
    (sanitizeTarget (bs "https://http://example.com") = bs "http://example.com" ∧
      HasPrefix (bs "http://example.com") (bs "http://") = true) ∧
    (sanitizeTarget (bs "example.com//") = bs "example.com/" ∧
      HasSuffix (bs "example.com/") (bs "/") = true) := by
  decide

/-- C24, amended: for every input the result of `sanitizeTarget` is the empty
string or at least 3 bytes long; and when the input is white space, then at
most one of `http://`, `https://`, then a name of at least 3 bytes that is
itself clean (no white space at either end, neither prefix, no final `/`),
then at most one `/`, then white space, the result is that name, hence a
cleaned target.  The seven cases of `TestSanitizeTarget` come out as the test
expects. -/
theorem sanitizeTarget_clean_on_wellformed_input :
    (∀ target : Str, sanitizeTarget target = [] ∨ 3 ≤ (sanitizeTarget target).length) ∧
    (∀ (l1 l2 : List Str) (proto name slash : Str),
      (∀ q ∈ l1, q ∈ spaceRunes) → (∀ q ∈ l2, q ∈ spaceRunes) →
      (proto = [] ∨ proto = bs "http://" ∨ proto = bs "https://") →
      (slash = [] ∨ slash = bs "/") → 3 ≤ name.length →
      dropSpace name = none → dropSpaceEnd name = none →
      HasPrefix name (bs "http://") = false → HasPrefix name (bs "https://") = false →
      HasSuffix name (bs "/") = false →
      sanitizeTarget (l1.flatten ++ proto ++ name ++ slash ++ l2.flatten) = name) ∧
    sanitizeTarget (bs "  example.com  ") = bs "example.com" ∧
    sanitizeTarget (bs "https://example.com") = bs "example.com" ∧
    sanitizeTarget (bs "http://example.com") = bs "example.com" ∧
    sanitizeTarget (bs "example.com/") = bs "example.com" ∧
    sanitizeTarget [] = [] ∧
    sanitizeTarget (bs "  ") = [] ∧
    sanitizeTarget (bs "ab") = [] := by
  refine ⟨?_, ?_, by decide, by decide, by decide, by decide, by decide, by decide, by decide⟩
  · intro target
    unfold sanitizeTarget
    by_cases h : TrimSpace target = []
    · simp [h]
    · simp only [h, if_false]
      split
      · exact Or.inl rfl
      · right
        omega
  · intro l1 l2 proto name slash h1 h2 hproto hslash hlen hlead htrail hhttp hhttps hend
    exact sanitizeTarget_wellformed l1 l2 proto name slash h1 h2 hproto hslash hlen hlead
      htrail hhttp hhttps hend

theorem sanitizeTarget_clean_on_wellformed_input_witness :
    sanitizeTarget ([[32], [9]].flatten ++ bs "https://" ++ bs "example.com" ++ bs "/" ++
      [[0xC2, 0xA0], [10]].flatten) = bs "example.com" :=
  sanitizeTarget_clean_on_wellformed_input.2.1 [[32], [9]] [[0xC2, 0xA0], [10]] (bs "https://")
    (bs "example.com") (bs "/") (by decide) (by decide) (by decide) (by decide) (by decide)
    (by decide) (by decide) (by decide) (by decide) (by decide)

/-! ## Scheme-less strings that hold `://` -/

theorem index_byte_cons (c x : Byte) (s : Str) :
    Index (x :: s) [c] = if c = x then some 0 else (Index s [c]).map (· + 1) := by
  by_cases h : c = x
  · subst h
    simp [Index, List.isPrefixOf]
  · simp [Index, List.isPrefixOf, h]

theorem cut_fst_byte (c : Byte) (s : Str) :
    (Cut s [c]).1 = s.takeWhile (fun x => x != c) := by
  induction s with
  | nil => rfl
  | cons x s ih =>
    unfold Cut at ih ⊢
    rw [index_byte_cons]
    by_cases h : c = x
    · subst h
      simp
    · have hx : (x != c) = true := by simpa using Ne.symm h
      rw [if_neg h, List.takeWhile_cons, hx]
      cases hi : Index s [c] with
      | none =>
        rw [hi] at ih
        simp only [Option.map_none', if_true]
        exact congrArg _ ih
      | some i =>
        rw [hi] at ih
        simp only [Option.map_some', List.take_succ_cons, if_true]
        exact congrArg _ ih

theorem cut_fst_initial (s sep : Str) : (Cut s sep).1 <+: s := by
  unfold Cut
  cases Index s sep with
  | none => exact List.prefix_refl _
  | some i => exact List.take_prefix _ _

theorem not_mem_of_not_contains (c : Byte) (s : Str) (h : Contains s [c] = false) : c ∉ s := by
  induction s with
  | nil => simp
  | cons x s ih =>
    unfold Contains at h ih
    rw [index_byte_cons] at h
    by_cases hc : c = x
    · simp [hc] at h
    · rw [if_neg hc] at h
      have : (Index s [c]).isSome = false := by
        cases hi : Index s [c] with
        | none => rfl
        | some i => simp [hi] at h
      simpa [hc] using ih this

theorem hasPrefix_mono (s t p : Str) (hst : s <+: t) (h : HasPrefix s p = true) :
    HasPrefix t p = true :=
  List.isPrefixOf_iff_prefix.2 ((List.isPrefixOf_iff_prefix.1 h).trans hst)

theorem getSchemeLoop_empty_rest (z : Str) :
    ∀ (w pre s r : Str), getSchemeLoop z pre w = .ok s r → s = [] → r = z := by
  intro w
  induction w with
  | nil =>
    intro pre s r h _
    simp only [getSchemeLoop, SchemeResult.ok.injEq] at h
    exact h.2.symm
  | cons c w ih =>
    intro pre s r h hs
    unfold getSchemeLoop at h
    split at h
    · exact ih _ s r h hs
    · split at h
      · split at h
        · simp only [SchemeResult.ok.injEq] at h
          exact h.2.symm
        · exact ih _ s r h hs
      · split at h
        · split at h
          · exact absurd h (by simp)
          · rename_i hpre
            simp only [SchemeResult.ok.injEq] at h
            rw [hs] at h
            have : pre = [] := List.reverse_eq_nil_iff.1 h.1
            simp [this] at hpre
        · simp only [SchemeResult.ok.injEq] at h
          exact h.2.symm

/-- The bytes at which the scan of `getScheme` cannot go on to a colon. -/
theorem getSchemeLoop_no_colon (z : Str) :
    ∀ (w pre s r : Str),
      ch ':' ∉ w.takeWhile (fun c => c != ch '/' && c != ch '?' && c != ch '#') →
      getSchemeLoop z pre w = .ok s r → s = [] := by
  intro w
  induction w with
  | nil =>
    intro pre s r _ h
    simp only [getSchemeLoop, SchemeResult.ok.injEq] at h
    exact h.1.symm
  | cons c w ih =>
    intro pre s r hc h
    by_cases hstop : (c != ch '/' && c != ch '?' && c != ch '#') = true
    · rw [List.takeWhile_cons, hstop] at hc
      simp only [if_true, List.mem_cons, not_or] at hc
      unfold getSchemeLoop at h
      split at h
      · exact ih _ s r hc.2 h
      · split at h
        · split at h
          · simp only [SchemeResult.ok.injEq] at h
            exact h.1.symm
          · exact ih _ s r hc.2 h
        · split at h
          · rename_i hcol
            exact absurd hcol.symm hc.1
          · simp only [SchemeResult.ok.injEq] at h
            exact h.1.symm
    · have hs : c = ch '/' ∨ c = ch '?' ∨ c = ch '#' := by
        simp only [Bool.and_eq_true, bne_iff_ne, ne_eq, not_and, Decidable.not_not] at hstop
        by_cases h1 : c = ch '/'
        · exact Or.inl h1
        · by_cases h2 : c = ch '?'
          · exact Or.inr (Or.inl h2)
          · exact Or.inr (Or.inr (hstop ⟨h1, h2⟩))
      have hg : getSchemeLoop z pre (c :: w) = .ok [] z := by
        rcases hs with rfl | rfl | rfl <;> rfl
      rw [hg] at h
      simp only [SchemeResult.ok.injEq] at h
      exact h.1.symm
theorem setPath_fields (u u2 : URL) (p : Str) (h : URL.setPath u p = some u2) :
    u2.Scheme = u.Scheme ∧ u2.Host = u.Host ∧ u2.User = u.User ∧ u2.Opaque = u.Opaque := by
  unfold URL.setPath at h
  split at h
  · exact absurd h (by simp)
  · split at h <;>
    · simp only [Option.some.injEq] at h
      subst h
      exact ⟨rfl, rfl, rfl, rfl⟩

theorem setFragment_fields (u u2 : URL) (f : Str) (h : URL.setFragment u f = some u2) :
    u2.Scheme = u.Scheme ∧ u2.Host = u.Host ∧ u2.User = u.User ∧ u2.Opaque = u.Opaque := by
  unfold URL.setFragment at h
  split at h
  · exact absurd h (by simp)
  · split at h <;>
    · simp only [Option.some.injEq] at h
      subst h
      exact ⟨rfl, rfl, rfl, rfl⟩

/-- What `parse` returns for a string in which `getScheme` finds no scheme and
that does not begin with `//`: no scheme, no authority, no opaque part. -/
theorem parse_relative (z : Str) (u : URL) (h : parse z = some u)
    (hs : ∀ s0 r0, getScheme z = .ok s0 r0 → s0 = []) (hz : HasPrefix z (bs "//") = false) :
    u.Scheme = [] ∧ u.Host = [] ∧ u.User = none ∧ u.Opaque = [] := by
  unfold parse at h
  split at h
  · exact absurd h (by simp)
  · split at h
    · simp only [Option.some.injEq] at h
      subst h
      exact ⟨rfl, rfl, rfl, rfl⟩
    · split at h
      · exact absurd h (by simp)
      · rename_i scheme0 rest0 hg
        have h0 : scheme0 = [] := hs scheme0 rest0 hg
        have hr : rest0 = z := getSchemeLoop_empty_rest z z [] scheme0 rest0 hg h0
        subst h0
        subst hr
        have hrest : ∀ b : Bool,
            HasPrefix (if b then rest0.take (rest0.length - 1) else (Cut rest0 (bs "?")).1)
              (bs "//") = false := by
          intro b
          cases hb : HasPrefix (if b then rest0.take (rest0.length - 1)
              else (Cut rest0 (bs "?")).1) (bs "//") with
          | false => rfl
          | true =>
            have hp : (if b then rest0.take (rest0.length - 1) else (Cut rest0 (bs "?")).1)
                <+: rest0 := by
              cases b
              · exact cut_fst_initial _ _
              · exact List.take_prefix _ _
            have := hasPrefix_mono _ _ _ hp hb
            rw [hz] at this
            exact absurd this (by decide)
        have fin : ∀ (url : URL) (p : Str), url.Scheme = [] → url.Host = [] → url.User = none →
            url.Opaque = [] → URL.setPath url p = some u →
            u.Scheme = [] ∧ u.Host = [] ∧ u.User = none ∧ u.Opaque = [] := by
          intro url p e1 e2 e3 e4 hsp
          obtain ⟨h1, h2, h3, h4⟩ := setPath_fields _ _ _ hsp
          exact ⟨h1.trans e1, h2.trans e2, h3.trans e3, h4.trans e4⟩
        simp only [List.map_nil, ne_eq, not_true_eq_false, and_false, if_false, false_or,
          false_and, hrest, Bool.false_eq_true] at h
        split at h <;> (try split at h) <;>
          first
          | exact fin _ _ rfl rfl rfl rfl h
          | cases h

theorem parse_scheme (z : Str) (u : URL) (h : parse z = some u) (hu : u.Scheme = []) :
    ∀ s0 r0, getScheme z = .ok s0 r0 → s0 = [] := by
  intro s0 r0 hg
  unfold parse at h
  split at h
  · exact absurd h (by simp)
  · split at h
    · rename_i hstar
      rw [hstar] at hg
      have : getScheme (bs "*") = .ok [] (bs "*") := rfl
      rw [this] at hg
      simp only [SchemeResult.ok.injEq] at hg
      exact hg.1.symm
    · rw [hg] at h
      have key : u.Scheme = s0.map lowerByte := by
        simp only at h
        split at h <;> (try split at h) <;> (try split at h) <;> (try split at h) <;>
          (try split at h) <;>
          first
          | exact (setPath_fields _ _ _ h).1
          | (simp only [Option.some.injEq] at h
             subst h
             rfl)
          | cases h
      rw [hu] at key
      exact List.map_eq_nil_iff.1 key.symm

theorem Parse_relative (s : Str) (u : URL) (h : Parse s = some u)
    (hs : ∀ s0 r0, getScheme (Cut s (bs "#")).1 = .ok s0 r0 → s0 = [])
    (hz : HasPrefix s (bs "//") = false) :
    u.Scheme = [] ∧ u.Host = [] ∧ u.User = none ∧ u.Opaque = [] := by
  have hz2 : HasPrefix (Cut s (bs "#")).1 (bs "//") = false := by
    cases hb : HasPrefix (Cut s (bs "#")).1 (bs "//") with
    | false => rfl
    | true =>
      have := hasPrefix_mono _ _ _ (cut_fst_initial s (bs "#")) hb
      rw [hz] at this
      exact absurd this (by decide)
  unfold Parse at h
  split at h
  · exact absurd h (by simp)
  · rename_i url hp
    have hrel := parse_relative _ url hp hs hz2
    split at h
    · simp only [Option.some.injEq] at h
      subst h
      exact hrel
    · obtain ⟨h1, h2, h3, h4⟩ := setFragment_fields _ _ _ h
      exact ⟨h1.trans hrel.1, h2.trans hrel.2.1, h3.trans hrel.2.2.1, h4.trans hrel.2.2.2⟩

theorem Parse_scheme (s : Str) (u : URL) (h : Parse s = some u) (hu : u.Scheme = []) :
    ∀ s0 r0, getScheme (Cut s (bs "#")).1 = .ok s0 r0 → s0 = [] := by
  unfold Parse at h
  split at h
  · exact absurd h (by simp)
  · rename_i url hp
    split at h
    · simp only [Option.some.injEq] at h
      subst h
      exact parse_scheme _ url hp hu
    · exact parse_scheme _ url hp ((setFragment_fields _ _ _ h).1.symm.trans hu)
theorem takeWhile_takeWhile (p q : Byte → Bool) (hpq : ∀ c, p c = true → q c = true) (l : Str) :
    (l.takeWhile q).takeWhile p = l.takeWhile p := by
  induction l with
  | nil => rfl
  | cons c l ih =>
    by_cases hp : p c = true
    · simp [List.takeWhile_cons, hp, hpq c hp, ih]
    · by_cases hq : q c = true
      · simp [List.takeWhile_cons, hp, hq]
      · simp [List.takeWhile_cons, hp, hq]

theorem takeWhile_append_stop (p : Byte → Bool) (l1 l2 : Str) (h : l2.takeWhile p = []) :
    (l1 ++ l2).takeWhile p = l1.takeWhile p := by
  induction l1 with
  | nil => simpa using h
  | cons c l ih =>
    by_cases hp : p c = true
    · simp [List.takeWhile_cons, hp, ih]
    · simp [List.takeWhile_cons, hp]

theorem mem_takeWhile_mono (p q : Byte → Bool) (hpq : ∀ c, p c = true → q c = true) (x : Byte) :
    ∀ l : Str, x ∈ l.takeWhile p → x ∈ l.takeWhile q := by
  intro l
  induction l with
  | nil => intro h; exact h
  | cons c l ih =>
    intro h
    by_cases hp : p c = true
    · rw [List.takeWhile_cons, if_pos hp] at h
      rw [List.takeWhile_cons, if_pos (hpq c hp)]
      rcases List.mem_cons.1 h with h | h
      · exact List.mem_cons.2 (Or.inl h)
      · exact List.mem_cons.2 (Or.inr (ih h))
    · rw [List.takeWhile_cons, if_neg hp] at h
      simp at h

theorem string_relative (v : URL) (h1 : v.Scheme = []) (h2 : v.Host = []) (h3 : v.User = none)
    (h4 : v.Opaque = []) (h5 : v.Fragment = []) :
    v.String =
      (if Contains (Cut v.EscapedPath (bs "/")).1 (bs ":") then bs "./" else []) ++
        v.EscapedPath ++
        (if v.ForceQuery ∨ v.RawQuery ≠ [] then bs "?" ++ v.RawQuery else []) := by
  unfold URL.String
  generalize v.EscapedPath = path
  simp only [h1, h2, h3, h4, h5, ne_eq, not_true_eq_false, if_false, or_self,
    and_false, true_and, List.nil_append, List.append_nil]
  by_cases hc : Contains (Cut path (bs "/")).1 (bs ":") = true
  · by_cases hq : v.ForceQuery = true ∨ ¬v.RawQuery = []
    · simp [hc, hq]
    · simp [hc, hq]
  · by_cases hq : v.ForceQuery = true ∨ ¬v.RawQuery = []
    · simp [hc, hq]
    · simp [hc, hq]

theorem canonicalString_relative (mapLower : Str → Str) (u : URL) (h1 : u.Scheme = [])
    (h2 : u.Host = []) (h3 : u.User = none) (h4 : u.Opaque = []) :
    canonicalString mapLower u =
      (if Contains (Cut u.EscapedPath (bs "/")).1 (bs ":") then bs "./" else []) ++
        u.EscapedPath ++
        (if u.ForceQuery ∨ u.RawQuery ≠ [] then bs "?" ++ u.RawQuery else []) := by
  have hl : ToLower mapLower ([] : Str) = [] := rfl
  have hr : removeDefaultPort [] [] = [] := rfl
  exact string_relative
    { u with
      Scheme := ToLower mapLower u.Scheme,
      Host := removeDefaultPort (ToLower mapLower u.Scheme) (ToLower mapLower u.Host),
      Fragment := [] }
    (by simp only [h1, hl]) (by simp only [h1, h2, hl, hr]) h3 h4 rfl

/-- In the print of a URL without scheme and authority, `getScheme` finds no
scheme: a colon in the first path segment is shielded by `./`. -/
theorem getScheme_relative_print (path rawQuery : Str) (forceQuery : Prop)
    [Decidable forceQuery] (s0 r0 : Str)
    (hg : getScheme (Cut ((if Contains (Cut path (bs "/")).1 (bs ":") then bs "./" else []) ++
        path ++ (if forceQuery ∨ rawQuery ≠ [] then bs "?" ++ rawQuery else [])) (bs "#")).1 =
      .ok s0 r0) : s0 = [] := by
  have hcut : ∀ s : Str, (Cut s (bs "#")).1 = s.takeWhile (fun x => x != ch '#') :=
    fun s => cut_fst_byte (ch '#') s
  have hmono : ∀ c : Byte, (c != ch '/' && c != ch '?' && c != ch '#') = true →
      (c != ch '#') = true := by
    intro c h
    simp only [Bool.and_eq_true] at h
    exact h.2
  have hmono2 : ∀ c : Byte, (c != ch '/' && c != ch '?' && c != ch '#') = true →
      (c != ch '/') = true := by
    intro c h
    simp only [Bool.and_eq_true] at h
    exact h.1.1
  refine getSchemeLoop_no_colon _ _ [] s0 r0 ?_ hg
  rw [hcut, takeWhile_takeWhile _ _ hmono]
  have hq : (if forceQuery ∨ rawQuery ≠ [] then bs "?" ++ rawQuery else []).takeWhile
      (fun c => c != ch '/' && c != ch '?' && c != ch '#') = [] := by
    split <;> rfl
  rw [takeWhile_append_stop _ _ _ hq]
  by_cases hc : Contains (Cut path (bs "/")).1 (bs ":") = true
  · rw [if_pos hc]
    have : (bs "./" ++ path).takeWhile (fun c => c != ch '/' && c != ch '?' && c != ch '#') =
        [ch '.'] := rfl
    rw [this]
    decide
  · rw [if_neg hc, List.nil_append]
    intro hm
    have hm2 := mem_takeWhile_mono _ _ hmono2 _ _ hm
    rw [← cut_fst_byte (ch '/') path] at hm2
    exact not_mem_of_not_contains (ch ':') _ (by simpa using hc) hm2

theorem inScope_empty_host (mapLower : Str → Str) (d : Dedup) (hne : d.targetDomain ≠ []) :
    d.inScope mapLower [] = false := by
  cases hs : d.inScope mapLower [] with
  | false => rfl
  | true =>
    exfalso
    rcases (inScope_iff_field mapLower d []).1 hs with h | h | ⟨_, h⟩
    · exact hne h
    · exact hne h.symm
    · have := h.length_le
      simp [ToLower, isASCII, bs] at this

theorem check_relative_print (mapLower : Str → Str) (d : Dedup) (u : URL)
    (h1 : u.Scheme = []) (h2 : u.Host = []) (h3 : u.User = none) (h4 : u.Opaque = [])
    (hy : HasPrefix (canonicalString mapLower u) (bs "//") = false)
    (hne : d.targetDomain ≠ []) :
    Dedup.Check mapLower d (canonicalString mapLower u) = (Drop, d) := by
  cases hp : Parse (canonicalString mapLower u) with
  | none => simp [Dedup.Check, hp]
  | some u2 =>
    have hrel := Parse_relative _ u2 hp (by
      intro s0 r0 hg
      rw [canonicalString_relative mapLower u h1 h2 h3 h4] at hg
      exact getScheme_relative_print _ _ _ s0 r0 hg) hy
    apply check_of_out_of_scope mapLower d _ u2 hp
    rw [hrel.2.1]
    exact inScope_empty_host mapLower d hne
/-- C28 fails as stated, at the scheme-less string
`//example.com/r?u=http://x.com`: its query embeds `://`, so nothing is
prepended, but it parses with the host `example.com`; `Normalize` returns it
unchanged and `Check` with the target `example.com` passes it. -/
theorem schemeless_with_separator_keeps_host :
    Contains (bs "//example.com/r?u=http://x.com") (bs "://") = true ∧
    (Parse (bs "//example.com/r?u=http://x.com")).map (fun u => (u.Scheme, u.Host)) =
      some ([], bs "example.com") ∧
    Normalize id (bs "//example.com/r?u=http://x.com") =
      some (bs "//example.com/r?u=http://x.com") ∧
    (Dedup.Check id (Dedup.New id (bs "example.com") false false)
      (bs "//example.com/r?u=http://x.com")).1 = Pass := by
  decide

/-- C28, amended: `Normalize` parses the raw string itself when it holds `://`
anywhere and `http://` followed by the raw string otherwise, and prints the
parsed URL in canonical form.  For a raw string that holds `://`, parses
without a scheme and does not begin with `//`, nothing is prepended and the
URL that is printed has an empty scheme and an empty host; if the printed
string does not begin with `//` either, `Check` drops it for every
deduplicator with a non-empty target domain and leaves the deduplicator as it
was.  The example `example.com/r?u=http://x.com` is returned unchanged and
dropped. -/
theorem normalize_prepends_iff_no_separator (mapLower : Str → Str) :
    (∀ raw : Str, Normalize mapLower raw =
      (Parse (if Contains raw (bs "://") then raw else bs "http://" ++ raw)).map
        (canonicalString mapLower)) ∧
    (∀ (raw : Str) (u : URL), Contains raw (bs "://") = true → Parse raw = some u →
      u.Scheme = [] → HasPrefix raw (bs "//") = false →
      Normalize mapLower raw = some (canonicalString mapLower u) ∧
      ToLower mapLower u.Scheme = [] ∧
      removeDefaultPort (ToLower mapLower u.Scheme) (ToLower mapLower u.Host) = [] ∧
      (HasPrefix (canonicalString mapLower u) (bs "//") = false →
        ∀ d : Dedup, d.targetDomain ≠ [] →
          Dedup.Check mapLower d (canonicalString mapLower u) = (Drop, d))) ∧
    Normalize mapLower (bs "example.com/r?u=http://x.com") =
      some (bs "example.com/r?u=http://x.com") ∧
    (Parse (bs "example.com/r?u=http://x.com")).map (fun u => (u.Scheme, u.Host, u.Path)) =
      some ([], [], bs "example.com/r") ∧
    (∀ wildcard disableDedup : Bool,
      (Dedup.Check mapLower (Dedup.New mapLower (bs "example.com") wildcard disableDedup)
        (bs "example.com/r?u=http://x.com")).1 = Drop) := by
  have hnorm : ∀ raw : Str, Normalize mapLower raw =
      (Parse (if Contains raw (bs "://") then raw else bs "http://" ++ raw)).map
        (canonicalString mapLower) := by
    intro raw
    unfold Normalize
    cases hc : Contains raw (bs "://") <;>
      simp only [Bool.not_false, Bool.not_true, if_true, if_false, Bool.false_eq_true] <;>
      cases Parse _ <;> rfl
  refine ⟨hnorm, ?_, rfl, rfl, ?_⟩
  · intro raw u hc hp hs hraw
    obtain ⟨h1, h2, h3, h4⟩ := Parse_relative raw u hp (Parse_scheme raw u hp hs) hraw
    refine ⟨?_, ?_, ?_, ?_⟩
    · rw [hnorm, hc, if_pos rfl, hp]
      rfl
    · rw [h1]
      rfl
    · rw [h1, h2]
      rfl
    · intro hy d hne
      exact check_relative_print mapLower d u h1 h2 h3 h4 hy hne
  · intro wildcard disableDedup
    cases wildcard <;> cases disableDedup <;> rfl

theorem normalize_prepends_iff_no_separator_witness :
    Dedup.Check id (Dedup.New id (bs "example.com") true false)
        (canonicalString id
          { Path := bs "example.com/r", RawQuery := bs "u=http://x.com" }) =
      (Drop, Dedup.New id (bs "example.com") true false) :=
  ((normalize_prepends_iff_no_separator id).2.1 (bs "example.com/r?u=http://x.com")
    { Path := bs "example.com/r", RawQuery := bs "u=http://x.com" }
    (by decide) (by decide) (by decide) (by decide)).2.2.2 (by decide)
    (Dedup.New id (bs "example.com") true false) (by decide)

end Deflot
